import Mathlib

/-!
A shallow embedding of `imgCompress.py` (PNG/JPEG batch compressor).

Paths are lists of segments, file contents are byte lists, and the
filesystem is a pair of an association list of files and a list of
directories.  External tools (`pngquant`, `cjpeg`) are opaque: an
environment assigns to every spawn an outcome (exit 0, a nonzero exit
carrying stdout/stderr, or a raised exception), together with the bytes
the tool may have written to its output path.  Every Python function of
the script becomes a state-passing Lean function that additionally
returns the list of observable events (spawns and log lines) of the call.
-/

abbrev FPath : Type := List String

abbrev Bytes : Type := List Nat

/-- The filesystem: files as an association list from path to contents,
plus the set of directories. -/
structure FS where
  files : List (FPath × Bytes)
  dirs : List FPath
deriving Repr, DecidableEq

def FS.lookup (fs : FS) (p : FPath) : Option Bytes :=
  List.lookup p fs.files

def FS.writeFile (fs : FS) (p : FPath) (b : Bytes) : FS :=
  { fs with files := (p, b) :: fs.files.filter (fun kv => !(kv.1 == p)) }

def FS.removeFile (fs : FS) (p : FPath) : FS :=
  { fs with files := fs.files.filter (fun kv => !(kv.1 == p)) }

def FS.addDir (fs : FS) (d : FPath) : FS :=
  if fs.dirs.contains d then fs else { fs with dirs := d :: fs.dirs }

/-- `os.makedirs(p, exist_ok=True)`: creates `p` and all its ancestors. -/
def FS.makedirs (fs : FS) (p : FPath) : FS :=
  ((List.range p.length).map (fun n => p.take (n + 1))).foldl FS.addDir fs

/-- `os.path.exists`: true for files and for directories. -/
def FS.pathExists (fs : FS) (p : FPath) : Bool :=
  (fs.lookup p).isSome || fs.dirs.contains p

/-- `shutil.move` applied to an existing source file: the destination
receives the source's bytes and the source entry disappears; an
existing destination file is overwritten.  A `shutil.move` whose source
is missing raises `FileNotFoundError` instead; the call sites model
that raise explicitly — `compress_png` moves only behind its
`os.path.exists` guard of line 184, and the walk loops of lines 282/287
check the source and surface the error (see `processFile`) — so this
pure helper covers the existing-source case they reach. -/
def FS.move (fs : FS) (src dst : FPath) : FS :=
  match fs.lookup src with
  | some b => (fs.removeFile src).writeFile dst b
  | none => fs

/-- `shutil.copy2`: the destination receives the source's bytes. -/
def FS.copyFile (fs : FS) (src dst : FPath) : FS :=
  match fs.lookup src with
  | some b => fs.writeFile dst b
  | none => fs

/-- `shutil.rmtree d`: every file and directory having `d` as a prefix
(including `d` itself) disappears. -/
def FS.rmtree (fs : FS) (d : FPath) : FS :=
  { files := fs.files.filter (fun kv => !(d.isPrefixOf kv.1)),
    dirs := fs.dirs.filter (fun q => !(d.isPrefixOf q)) }

/-- The plain files directly inside directory `d`, as listed by `os.walk`
when it reaches `d`. -/
def FS.filesIn (fs : FS) (d : FPath) : List FPath :=
  (fs.files.map (fun kv => kv.1)).filter
    (fun p => p.length == d.length + 1 && d.isPrefixOf p)

/-- The directories directly inside directory `d`, as listed by `os.walk`
when it reaches `d`. -/
def FS.subdirsIn (fs : FS) (d : FPath) : List FPath :=
  fs.dirs.filter (fun q => q.length == d.length + 1 && d.isPrefixOf q)

/-- `str.lower()` (ASCII case folding suffices for the extensions). -/
def pyLower (s : String) : String :=
  ⟨s.data.map Char.toLower⟩

/-- `str.endswith(t)`. -/
def pyEndsWith (s t : String) : Bool :=
  t.data.isSuffixOf s.data

/-- `os.path.basename`. -/
def basename (p : FPath) : String :=
  (p.getLast?).getD ""

/-- `os.path.dirname`. -/
def dirname (p : FPath) : FPath :=
  p.dropLast

/-- `file.lower().endswith('.png')`. -/
def pngName (s : String) : Bool :=
  pyEndsWith (pyLower s) ".png"

/-- `file.lower().endswith(('.jpg', '.jpeg'))`. -/
def jpgName (s : String) : Bool :=
  pyEndsWith (pyLower s) ".jpg" || pyEndsWith (pyLower s) ".jpeg"

/-- `input_path.lower().endswith('.png')` on a segmented path (the
extension contains no separator, so only the last segment matters). -/
def isPng (p : FPath) : Bool :=
  pngName (basename p)

/-- The Python exceptions that can travel through this script. -/
inductive PyErr where
  | calledProcessError (returncode : Int) (stdout stderr : String)
  | osError (msg : String)
  | typeError (msg : String)
  | zeroDivisionError
deriving Repr, DecidableEq

/-- Outcome of one `subprocess.run(cmd, check=True, ...)` call: exit 0,
a nonzero exit (which `check=True` turns into `CalledProcessError`), or
the spawn itself raising (e.g. `FileNotFoundError`).  `written` is what
the tool left at its output path, if anything. -/
inductive RunRet where
  | completed (stdout : String) (written : Option Bytes)
  | failed (returncode : Int) (stdout stderr : String) (written : Option Bytes)
  | raised (e : PyErr)
deriving Repr, DecidableEq

/-- Observable events of a run: subprocess spawns, the script's log
lines, the `os.walk` yields, and the boolean returned for each
dispatched file in `process_directory`. -/
inductive Ev where
  | spawnPngquant (quality : String) (output input : FPath)
  | spawnCjpeg (output input : FPath)
  | logInputMissing (p : FPath)
  | logNotPng (p : FPath)
  | logNotReadable (p : FPath)
  | logQualityFailed (quality : String)
  | logPassThrough
  | logOutputNotCreated (p : FPath)
  | logUsedQuality (quality : String)
  | logPngSuccess (p : FPath)
  | logPngError (p : FPath) (msg stderr stdout : String)
  | logPngUnknownError (p : FPath)
  | logJpegSuccess (p : FPath)
  | logJpegError (p : FPath) (stderr : String)
  | enterDir (d : FPath)
  | pngResult (p : FPath) (ok : Bool)
  | jpegResult (p : FPath) (ok : Bool)
deriving Repr, DecidableEq

/-- The ambient world: readability of paths, the outcome of the n-th
`pngquant` spawn, of the n-th `cjpeg` spawn, and the fresh directory the
n-th `tempfile` allocation returns. -/
structure Env where
  readable : FPath → Bool
  pngquant : Nat → RunRet
  cjpeg : Nat → RunRet
  mkdtemp : Nat → FPath

/-- Program state: the filesystem plus the spawn / tempdir counters used
to index the environment's oracles. -/
structure St where
  fs : FS
  pngSpawns : Nat
  jpegSpawns : Nat
  tmps : Nat
deriving Repr, DecidableEq

/-- How the `for quality in quality_ranges:` loop was left. -/
inductive LoopRes where
  | broke (quality : String)
  | exhausted (lastError : Option PyErr)
  | raisedOut (e : PyErr)
deriving Repr, DecidableEq

def defaultQualities : List String := ["50-70", "40-60", "30-50"]

/-- The error-message table of lines 218-228 of the script. -/
def pngquantErrMsg (code : Int) : String :=
  if code = 99 then "无法达到指定的质量要求"
  else if code = 98 then "无法创建输出文件"
  else if code = 97 then "无法读取输入文件"
  else if code = 2 then "参数错误"
  else "未知错误"

/-- Lines 142-173: try each quality range in order; exit 0 breaks with
`successful_quality = quality`; a `CalledProcessError` with code 99 logs
and continues; any other exception propagates out of the loop. -/
def pngLoop (env : Env) (input tempOut : FPath) :
    St → Option PyErr → List String → St × List Ev × LoopRes
  | st, lastError, [] => (st, [], .exhausted lastError)
  | st, _, q :: qs =>
    let st1 : St := { st with pngSpawns := st.pngSpawns + 1 }
    match env.pngquant st.pngSpawns with
    | .completed _ written =>
        let fs1 := match written with
          | some b => st1.fs.writeFile tempOut b
          | none => st1.fs
        ({ st1 with fs := fs1 }, [.spawnPngquant q tempOut input], .broke q)
    | .failed code sout serr written =>
        let fs1 := match written with
          | some b => st1.fs.writeFile tempOut b
          | none => st1.fs
        let st2 : St := { st1 with fs := fs1 }
        if code = 99 then
          let r := pngLoop env input tempOut st2
            (some (.calledProcessError code sout serr)) qs
          (r.1, .spawnPngquant q tempOut input :: .logQualityFailed q :: r.2.1, r.2.2)
        else
          (st2, [.spawnPngquant q tempOut input],
            .raisedOut (.calledProcessError code sout serr))
    | .raised e => (st1, [.spawnPngquant q tempOut input], .raisedOut e)

/-- Lines 183-208: check the staged file exists, create the output's
parent directories (guarded by `if output_dir:`), move the staged file
into place, then read both sizes for the compression-ratio log; a
zero-byte input makes the ratio expression raise `ZeroDivisionError`. -/
def pngFinish (st : St) (input output tempOut : FPath)
    (successfulQuality : Option String) : (Except PyErr Bool) × St × List Ev :=
  if !(st.fs.pathExists tempOut) then
    (.ok false, st, [.logOutputNotCreated tempOut])
  else
    let outDir := dirname output
    let fs1 := if outDir.isEmpty then st.fs else st.fs.makedirs outDir
    let fs2 := fs1.move tempOut output
    match fs2.lookup input with
    | none => (.error (.osError "stat"), { st with fs := fs2 }, [])
    | some ib =>
      match fs2.lookup output with
      | none => (.error (.osError "stat"), { st with fs := fs2 }, [])
      | some _ =>
        if ib.length = 0 then
          (.error .zeroDivisionError, { st with fs := fs2 }, [])
        else
          (.ok true, { st with fs := fs2 },
            [.logPngSuccess input] ++
              (match successfulQuality with
                | some q => [.logUsedQuality q]
                | none => []))

/-- Lines 138-208, the body of the inner `try`: run the ladder loop,
apply the `for`/`else` fallback (pass-through copy when the last error
was code 99, re-raise otherwise, `raise None` on an empty ladder), then
finalize. -/
def pngBody (env : Env) (st : St) (input output tempOut : FPath)
    (qualityRanges : List String) : (Except PyErr Bool) × St × List Ev :=
  match pngLoop env input tempOut st none qualityRanges with
  | (stL, ev, .raisedOut e) => (.error e, stL, ev)
  | (stL, ev, .broke q) =>
      let r := pngFinish stL input output tempOut (some q)
      (r.1, r.2.1, ev ++ r.2.2)
  | (stL, ev, .exhausted lastError) =>
      match lastError with
      | some (.calledProcessError code sout serr) =>
          if code = 99 then
            let stC : St := { stL with fs := stL.fs.copyFile input tempOut }
            let r := pngFinish stC input output tempOut none
            (r.1, r.2.1, ev ++ [.logPassThrough] ++ r.2.2)
          else (.error (.calledProcessError code sout serr), stL, ev)
      | some e => (.error e, stL, ev)
      | none => (.error (.typeError "exceptions must derive from BaseException"), stL, ev)

/-- Lines 105-238, `compress_png`: the three preconditions, the private
staging directory, the ladder body, the `finally: shutil.rmtree`, and
the two outer handlers (`except CalledProcessError` and the catch-all
`except Exception`) that turn every exception into `False`. -/
def compress_png (env : Env) (st : St) (input output : FPath)
    (qualityRanges : List String) : (Except PyErr Bool) × St × List Ev :=
  if !(st.fs.pathExists input) then
    (.ok false, st, [.logInputMissing input])
  else if !(isPng input) then
    (.ok false, st, [.logNotPng input])
  else if !(env.readable input) then
    (.ok false, st, [.logNotReadable input])
  else
    let tempDir := env.mkdtemp st.tmps
    let st0 : St := { st with fs := st.fs.addDir tempDir, tmps := st.tmps + 1 }
    let tempOut := tempDir ++ [basename output]
    let r := pngBody env st0 input output tempOut qualityRanges
    let stF : St := { r.2.1 with fs := r.2.1.fs.rmtree tempDir }
    match r.1 with
    | .ok b => (.ok b, stF, r.2.2)
    | .error (.calledProcessError code so se) =>
        (.ok false, stF, r.2.2 ++ [.logPngError input (pngquantErrMsg code) se so])
    | .error _ => (.ok false, stF, r.2.2 ++ [.logPngUnknownError input])

/-- Lines 240-259, `compress_jpeg`: `os.makedirs(os.path.dirname(out))`
(which raises on an empty dirname), then one `cjpeg` spawn writing
directly to `output`; only `CalledProcessError` is caught. -/
def compress_jpeg (env : Env) (st : St) (input output : FPath) :
    (Except PyErr Bool) × St × List Ev :=
  let outDir := dirname output
  if outDir.isEmpty then
    (.error (.osError "makedirs: empty path"), st, [])
  else
    let st1 : St := { st with fs := st.fs.makedirs outDir }
    let st2 : St := { st1 with jpegSpawns := st1.jpegSpawns + 1 }
    match env.cjpeg st.jpegSpawns with
    | .completed _ written =>
        let fs1 := match written with
          | some b => st2.fs.writeFile output b
          | none => st2.fs
        (.ok true, { st2 with fs := fs1 },
          [.spawnCjpeg output input, .logJpegSuccess input])
    | .failed _ _ serr written =>
        let fs1 := match written with
          | some b => st2.fs.writeFile output b
          | none => st2.fs
        (.ok false, { st2 with fs := fs1 },
          [.spawnCjpeg output input, .logJpegError input serr])
    | .raised e => (.error e, st2, [.spawnCjpeg output input])

/-- The two output modes of `process_directory`. -/
inductive Mode where
  | copy (outRoot : FPath)
  | replace (tempRoot : FPath)
deriving Repr, DecidableEq

/-- The per-file body of the walk loops (lines 278-287 and 301-306):
classify by extension, compress to the mirrored destination, and in
replace mode move a successful result back over the original.  The
`shutil.move` of lines 282/287 raises `FileNotFoundError` when its
source is missing (the compressor reported success without leaving a
file at the destination it was handed), so that case produces an
uncaught error here. -/
def processFile (env : Env) (inRoot : FPath) (mode : Mode) (st : St) (f : FPath) :
    St × List Ev × Option PyErr :=
  let name := basename f
  let rel : FPath := f.drop inRoot.length
  let dest : FPath := match mode with
    | .copy outRoot => outRoot ++ rel
    | .replace tempRoot => tempRoot ++ rel
  if pngName name then
    match compress_png env st f dest defaultQualities with
    | (.ok ok, st1, ev) =>
        match mode with
        | .copy _ => (st1, ev ++ [.pngResult f ok], none)
        | .replace _ =>
          if ok then
            match st1.fs.lookup dest with
            | some _ =>
              ({ st1 with fs := st1.fs.move dest f },
                ev ++ [.pngResult f ok], none)
            | none =>
              (st1, ev ++ [.pngResult f ok],
                some (.osError "FileNotFoundError"))
          else (st1, ev ++ [.pngResult f ok], none)
    | (.error e, st1, ev) => (st1, ev, some e)
  else if jpgName name then
    match compress_jpeg env st f dest with
    | (.ok ok, st1, ev) =>
        match mode with
        | .copy _ => (st1, ev ++ [.jpegResult f ok], none)
        | .replace _ =>
          if ok then
            match st1.fs.lookup dest with
            | some _ =>
              ({ st1 with fs := st1.fs.move dest f },
                ev ++ [.jpegResult f ok], none)
            | none =>
              (st1, ev ++ [.jpegResult f ok],
                some (.osError "FileNotFoundError"))
          else (st1, ev ++ [.jpegResult f ok], none)
    | (.error e, st1, ev) => (st1, ev, some e)
  else (st, [], none)

/-- `for file in files:` — an uncaught exception aborts the run. -/
def processFiles (env : Env) (inRoot : FPath) (mode : Mode) :
    St → List FPath → St × List Ev × Option PyErr
  | st, [] => (st, [], none)
  | st, f :: fls =>
    let r := processFile env inRoot mode st f
    match r.2.2 with
    | some e => (r.1, r.2.1, some e)
    | none =>
      let r2 := processFiles env inRoot mode r.1 fls
      (r2.1, r.2.1 ++ r2.2.1, r2.2.2)

/-- `os.walk` (top-down) fused with the processing loop: when a
directory is reached its file and subdirectory listings are read from
the CURRENT filesystem, its files are processed, and its subdirectories
are walked next.  `fuel` bounds the recursion depth. -/
def walkGo (env : Env) (inRoot : FPath) (mode : Mode) :
    Nat → St → List FPath → St × List Ev × Option PyErr
  | 0, st, _ => (st, [], none)
  | _ + 1, st, [] => (st, [], none)
  | fuel + 1, st, d :: rest =>
    let fls := st.fs.filesIn d
    let subs := st.fs.subdirsIn d
    let r := processFiles env inRoot mode st fls
    match r.2.2 with
    | some e => (r.1, .enterDir d :: r.2.1, some e)
    | none =>
      let r2 := walkGo env inRoot mode fuel r.1 (subs ++ rest)
      (r2.1, .enterDir d :: (r.2.1 ++ r2.2.1), r2.2.2)

/-- Lines 261-306, `process_directory`: replace mode allocates one
process-private temporary root (removed again when the `with` block
exits, even on an exception); copy mode creates the output root before
the walk begins. -/
def process_directory (env : Env) (st : St) (inputDir outputDir : FPath)
    (replaceOriginal : Bool) (fuel : Nat) : St × List Ev × Option PyErr :=
  if replaceOriginal then
    let tempRoot := env.mkdtemp st.tmps
    let st0 : St := { st with fs := st.fs.addDir tempRoot, tmps := st.tmps + 1 }
    let r := walkGo env inputDir (.replace tempRoot) fuel st0 [inputDir]
    ({ r.1 with fs := r.1.fs.rmtree tempRoot }, r.2.1, r.2.2)
  else
    let st0 : St := { st with fs := st.fs.makedirs outputDir }
    walkGo env inputDir (.copy outputDir) fuel st0 [inputDir]

/-! ### Derived observations used by the theorems -/

/-- The association list of files has no repeated path. -/
def FS.NodupKeys (fs : FS) : Prop :=
  (fs.files.map (fun kv => kv.1)).Nodup

/-- The qualities passed to the `pngquant` spawns of an event list,
in order. -/
def spawnedQualities (evs : List Ev) : List String :=
  evs.filterMap (fun e => match e with
    | .spawnPngquant q _ _ => some q
    | _ => none)

/-- The files for which `process_directory` obtained a compressor
verdict, in order (one entry per `compress_png` / `compress_jpeg` return
inside the walk). -/
def resultPaths (evs : List Ev) : List FPath :=
  evs.filterMap (fun e => match e with
    | .pngResult p _ => some p
    | .jpegResult p _ => some p
    | _ => none)

/-- The directories yielded by `os.walk`, in order. -/
def visitedDirs (evs : List Ev) : List FPath :=
  evs.filterMap (fun e => match e with
    | .enterDir d => some d
    | _ => none)

/-- Events that are neither walk yields nor per-file verdicts; the two
compressors emit only such events. -/
def Ev.plain : Ev → Bool
  | .enterDir _ => false
  | .pngResult _ _ => false
  | .jpegResult _ _ => false
  | _ => true

/-- The destination path the walk loops hand to the compressors for a
file `f` under `inRoot` (lines 276 and 299). -/
def modeDest (mode : Mode) (inRoot f : FPath) : FPath :=
  match mode with
  | .copy outRoot => outRoot ++ f.drop inRoot.length
  | .replace tempRoot => tempRoot ++ f.drop inRoot.length

/-- The root of the destination tree of a mode. -/
def modeRoot : Mode → FPath
  | .copy outRoot => outRoot
  | .replace tempRoot => tempRoot

/-- Every `tempfile` area the environment may still hand out is empty:
nothing exists under `env.mkdtemp m` for any index `m` not yet used. -/
def FreshTemps (env : Env) (st : St) : Prop :=
  ∀ m, st.tmps ≤ m → ∀ p, env.mkdtemp m <+: p →
    st.fs.lookup p = none ∧ p ∉ st.fs.dirs

/-- The state right after `compress_png` allocates its staging directory
(line 133): the fresh directory exists and the tempdir counter advanced. -/
def pngStage (env : Env) (st : St) : St :=
  { st with fs := st.fs.addDir (env.mkdtemp st.tmps), tmps := st.tmps + 1 }

/-- The staging file path of `compress_png` (line 136). -/
def pngTempOut (env : Env) (st : St) (output : FPath) : FPath :=
  env.mkdtemp st.tmps ++ [basename output]

/-! ### Concrete environments and states used as test fixtures -/

/-- A family of pairwise prefix-free temp directories under `tmp`. -/
def mkdtempFix (n : Nat) : FPath :=
  ["tmp", String.mk (List.replicate n 'a')]

/-- Both tools always succeed; every file is readable. -/
def envPngOk : Env :=
  { readable := fun _ => true,
    pngquant := fun _ => .completed "" (some [7]),
    cjpeg := fun _ => .completed "" (some [8]),
    mkdtemp := mkdtempFix }

/-- `pngquant` always exits with the quality sentinel 99. -/
def envPng99 : Env :=
  { envPngOk with pngquant := fun _ => .failed 99 "" "" none }

/-- `pngquant` always exits 5 (a fatal, non-sentinel code). -/
def envPngFatal : Env :=
  { envPngOk with pngquant := fun _ => .failed 5 "" "boom" none }

/-- Spawning `cjpeg` raises (for example, the binary vanished). -/
def envJpegRaise : Env :=
  { envPngOk with cjpeg := fun _ => .raised (.osError "spawn") }

/-- `cjpeg` fails after writing a partial output file. -/
def envJpegPartial : Env :=
  { envPngOk with cjpeg := fun _ => .failed 2 "" "corrupt" (some [9]) }

/-- `cjpeg` exits 0 without writing its output file (a silent no-op). -/
def envJpegSilent : Env :=
  { envPngOk with cjpeg := fun _ => .completed "" none }

/-- First `pngquant` spawn hits the sentinel, the second succeeds. -/
def envLadder : Env :=
  { envPngOk with pngquant := fun n =>
      if n = 0 then .failed 99 "s0" "e0" none else .completed "ok" (some [7]) }

def fsOne : FS :=
  { files := [(["r", "x.png"], [1, 2, 3])], dirs := [["r"]] }

def stOne : St := { fs := fsOne, pngSpawns := 0, jpegSpawns := 0, tmps := 0 }

def fsEmptyPng : FS :=
  { files := [(["r", "e.png"], [])], dirs := [["r"]] }

def stEmptyPng : St :=
  { fs := fsEmptyPng, pngSpawns := 0, jpegSpawns := 0, tmps := 0 }

def fsJpgPng : FS :=
  { files := [(["r", "a.jpg"], [1]), (["r", "b.png"], [2])], dirs := [["r"]] }

def stJpgPng : St := { fs := fsJpgPng, pngSpawns := 0, jpegSpawns := 0, tmps := 0 }

/-- A state where the destination file already exists. -/
def fsOver : FS :=
  { files := [(["r", "x.png"], [1, 2, 3]), (["o", "x.png"], [42])],
    dirs := [["r"], ["o"]] }

def stOver : St := { fs := fsOver, pngSpawns := 0, jpegSpawns := 0, tmps := 0 }

/-! ### Basic filesystem lemmas -/

theorem lookup_filter_keyNe (l : List (FPath × Bytes)) (p q : FPath) (h : q ≠ p) :
    List.lookup q (l.filter (fun kv => !(kv.1 == p))) = List.lookup q l := by
  induction l with
  | nil => rfl
  | cons kv t ih =>
    by_cases hk : kv.1 = p
    · have : (kv.1 == p) = true := beq_iff_eq.mpr hk
      have hqk : (q == kv.1) = false := by
        simp only [beq_eq_false_iff_ne]
        exact fun hqk => h (hqk ▸ hk)
      cases kv with
      | mk k v =>
        simp only [List.filter_cons] at *
        simp only [this] at *
        simpa [List.lookup_cons, hqk] using ih
    · have : (kv.1 == p) = false := by simpa [beq_eq_false_iff_ne] using hk
      cases kv with
      | mk k v =>
        simp only [List.filter_cons, this, Bool.not_false, if_pos]
        by_cases hq : q = k
        · subst hq
          simp [List.lookup_cons]
        · have hqk : (q == k) = false := by simpa [beq_eq_false_iff_ne] using hq
          simp [List.lookup_cons, hqk, ih]

theorem FS.lookup_writeFile (fs : FS) (p q : FPath) (b : Bytes) :
    (fs.writeFile p b).lookup q = if q = p then some b else fs.lookup q := by
  by_cases h : q = p
  · subst h
    simp [FS.writeFile, FS.lookup, List.lookup_cons]
  · have hqp : (q == p) = false := by simpa [beq_eq_false_iff_ne] using h
    simp [FS.writeFile, FS.lookup, List.lookup_cons, hqp, h,
      lookup_filter_keyNe fs.files p q h]

theorem FS.lookup_removeFile (fs : FS) (p q : FPath) :
    (fs.removeFile p).lookup q = if q = p then none else fs.lookup q := by
  by_cases h : q = p
  · subst h
    simp only [FS.removeFile, FS.lookup, if_pos rfl]
    induction fs.files with
    | nil => rfl
    | cons kv t ih =>
      by_cases hk : kv.1 = q
      · have : (kv.1 == q) = true := beq_iff_eq.mpr hk
        simpa [List.filter_cons, this] using ih
      · have h1 : (kv.1 == q) = false := by simpa [beq_eq_false_iff_ne] using hk
        have h2 : (q == kv.1) = false := by
          simp only [beq_eq_false_iff_ne]
          exact fun hq => hk hq.symm
        cases kv with
        | mk k v =>
          simp only at h1 h2
          simpa [List.filter_cons, h1, List.lookup_cons, h2] using ih
  · simp [FS.removeFile, FS.lookup, if_neg h, lookup_filter_keyNe fs.files p q h]

theorem FS.lookup_move_other (fs : FS) (src dst q : FPath)
    (h1 : q ≠ src) (h2 : q ≠ dst) : (fs.move src dst).lookup q = fs.lookup q := by
  unfold FS.move
  cases hs : fs.lookup src with
  | none => rfl
  | some b => rw [FS.lookup_writeFile, if_neg h2, FS.lookup_removeFile, if_neg h1]

theorem FS.lookup_move_dst (fs : FS) (src dst : FPath) (b : Bytes)
    (h : fs.lookup src = some b) : (fs.move src dst).lookup dst = some b := by
  unfold FS.move
  rw [h, FS.lookup_writeFile, if_pos rfl]

theorem FS.lookup_copyFile_other (fs : FS) (src dst q : FPath)
    (h : q ≠ dst) : (fs.copyFile src dst).lookup q = fs.lookup q := by
  unfold FS.copyFile
  cases hs : fs.lookup src with
  | none => rfl
  | some b => rw [FS.lookup_writeFile, if_neg h]

theorem FS.lookup_copyFile_dst (fs : FS) (src dst : FPath) (b : Bytes)
    (h : fs.lookup src = some b) : (fs.copyFile src dst).lookup dst = some b := by
  unfold FS.copyFile
  rw [h, FS.lookup_writeFile, if_pos rfl]

theorem FS.lookup_rmtree (fs : FS) (d q : FPath) :
    (fs.rmtree d).lookup q = if d <+: q then none else fs.lookup q := by
  simp only [FS.rmtree, FS.lookup]
  induction fs.files with
  | nil => simp
  | cons kv t ih =>
    cases kv with
    | mk k v =>
      by_cases hd : d <+: k
      · have : d.isPrefixOf k = true := List.isPrefixOf_iff_prefix.mpr hd
        by_cases hq : q = k
        · subst hq
          simp [List.filter_cons, this, List.lookup_cons, ih, if_pos hd]
        · have hqk : (q == k) = false := by simpa [beq_eq_false_iff_ne] using hq
          simp [List.filter_cons, this, List.lookup_cons, hqk, ih]
      · have : d.isPrefixOf k = false := by
          cases hh : d.isPrefixOf k
          · rfl
          · exact absurd (List.isPrefixOf_iff_prefix.mp hh) hd
        by_cases hq : q = k
        · subst hq
          simp [List.filter_cons, this, List.lookup_cons, if_neg hd]
        · have hqk : (q == k) = false := by simpa [beq_eq_false_iff_ne] using hq
          simp [List.filter_cons, this, List.lookup_cons, hqk, ih]

theorem FS.dirs_writeFile (fs : FS) (p : FPath) (b : Bytes) :
    (fs.writeFile p b).dirs = fs.dirs := rfl

theorem FS.dirs_removeFile (fs : FS) (p : FPath) :
    (fs.removeFile p).dirs = fs.dirs := rfl

theorem FS.dirs_move (fs : FS) (src dst : FPath) :
    (fs.move src dst).dirs = fs.dirs := by
  unfold FS.move
  cases fs.lookup src <;> rfl

theorem FS.dirs_copyFile (fs : FS) (src dst : FPath) :
    (fs.copyFile src dst).dirs = fs.dirs := by
  unfold FS.copyFile
  cases fs.lookup src <;> rfl

theorem FS.files_addDir (fs : FS) (d : FPath) :
    (fs.addDir d).files = fs.files := by
  unfold FS.addDir
  split <;> rfl

theorem FS.mem_dirs_addDir (fs : FS) (d q : FPath) :
    q ∈ (fs.addDir d).dirs ↔ q = d ∨ q ∈ fs.dirs := by
  unfold FS.addDir
  by_cases h : fs.dirs.contains d = true
  · rw [if_pos h]
    constructor
    · exact fun hq => Or.inr hq
    · rintro (rfl | hq)
      · simpa using h
      · exact hq
  · rw [if_neg h]
    simp [List.mem_cons]

theorem FS.files_foldl_addDir (l : List FPath) (fs : FS) :
    (l.foldl FS.addDir fs).files = fs.files := by
  induction l generalizing fs with
  | nil => rfl
  | cons d t ih => simp [List.foldl_cons, ih, FS.files_addDir]

theorem FS.mem_dirs_foldl_addDir (l : List FPath) (fs : FS) (q : FPath) :
    q ∈ (l.foldl FS.addDir fs).dirs ↔ q ∈ fs.dirs ∨ q ∈ l := by
  induction l generalizing fs with
  | nil => simp
  | cons d t ih =>
    simp only [List.foldl_cons, ih, FS.mem_dirs_addDir, List.mem_cons]
    tauto

theorem mem_prefixList (p q : FPath) :
    q ∈ (List.range p.length).map (fun n => p.take (n + 1)) ↔
      q ≠ [] ∧ q <+: p := by
  simp only [List.mem_map, List.mem_range]
  constructor
  · rintro ⟨n, hn, rfl⟩
    refine ⟨?_, List.take_prefix _ _⟩
    have : (p.take (n + 1)).length = n + 1 := by
      rw [List.length_take]
      omega
    intro hc
    rw [hc] at this
    simp at this
  · rintro ⟨hne, hpre⟩
    have hlen : q.length ≤ p.length := hpre.length_le
    have hpos : 0 < q.length := List.length_pos.mpr hne
    refine ⟨q.length - 1, by omega, ?_⟩
    have : q.length - 1 + 1 = q.length := by omega
    rw [this, ← List.prefix_iff_eq_take.mp hpre]

theorem FS.files_makedirs (fs : FS) (p : FPath) :
    (fs.makedirs p).files = fs.files :=
  FS.files_foldl_addDir _ fs

theorem FS.lookup_makedirs (fs : FS) (p q : FPath) :
    (fs.makedirs p).lookup q = fs.lookup q := by
  simp [FS.lookup, FS.files_makedirs]

theorem FS.mem_dirs_makedirs (fs : FS) (p q : FPath) :
    q ∈ (fs.makedirs p).dirs ↔ q ∈ fs.dirs ∨ (q ≠ [] ∧ q <+: p) := by
  unfold FS.makedirs
  rw [FS.mem_dirs_foldl_addDir, mem_prefixList]

theorem FS.mem_dirs_rmtree (fs : FS) (d q : FPath) :
    q ∈ (fs.rmtree d).dirs ↔ q ∈ fs.dirs ∧ ¬ d <+: q := by
  simp only [FS.rmtree, List.mem_filter, Bool.not_eq_true']
  constructor
  · rintro ⟨h1, h2⟩
    exact ⟨h1, fun hc => by simp [List.isPrefixOf_iff_prefix.mpr hc] at h2⟩
  · rintro ⟨h1, h2⟩
    refine ⟨h1, ?_⟩
    cases hh : List.isPrefixOf d q
    · rfl
    · exact absurd (List.isPrefixOf_iff_prefix.mp hh) h2

theorem FS.lookup_addDir (fs : FS) (d q : FPath) :
    (fs.addDir d).lookup q = fs.lookup q := by
  simp [FS.lookup, FS.files_addDir]

/-! ### Nodup preservation and listing lemmas -/

theorem FS.isSome_lookup_iff (fs : FS) (p : FPath) :
    (fs.lookup p).isSome ↔ p ∈ fs.files.map (fun kv => kv.1) := by
  unfold FS.lookup
  induction fs.files with
  | nil => simp
  | cons kv t ih =>
    by_cases hq : p = kv.1
    · simp [List.lookup_cons, beq_iff_eq.mpr hq, hq]
    · have hb : (p == kv.1) = false := by simpa [beq_eq_false_iff_ne] using hq
      simp [List.lookup_cons, hb, ih, hq]

theorem FS.nodupKeys_writeFile (fs : FS) (p : FPath) (b : Bytes)
    (h : fs.NodupKeys) : (fs.writeFile p b).NodupKeys := by
  unfold FS.NodupKeys FS.writeFile at *
  simp only [List.map_cons, List.nodup_cons]
  constructor
  · intro hc
    rcases List.mem_map.mp hc with ⟨kv, hkv, hfst⟩
    have := (List.mem_filter.mp hkv).2
    rw [hfst] at this
    simp at this
  · exact List.Nodup.sublist (List.Sublist.map _ (List.filter_sublist _)) h

theorem FS.nodupKeys_removeFile (fs : FS) (p : FPath)
    (h : fs.NodupKeys) : (fs.removeFile p).NodupKeys :=
  List.Nodup.sublist (List.Sublist.map _ (List.filter_sublist _)) h

theorem FS.nodupKeys_move (fs : FS) (src dst : FPath)
    (h : fs.NodupKeys) : (fs.move src dst).NodupKeys := by
  unfold FS.move
  cases fs.lookup src with
  | none => exact h
  | some b => exact FS.nodupKeys_writeFile _ _ _ (FS.nodupKeys_removeFile _ _ h)

theorem FS.nodupKeys_copyFile (fs : FS) (src dst : FPath)
    (h : fs.NodupKeys) : (fs.copyFile src dst).NodupKeys := by
  unfold FS.copyFile
  cases fs.lookup src with
  | none => exact h
  | some b => exact FS.nodupKeys_writeFile _ _ _ h

theorem FS.nodupKeys_rmtree (fs : FS) (d : FPath)
    (h : fs.NodupKeys) : (fs.rmtree d).NodupKeys :=
  List.Nodup.sublist (List.Sublist.map _ (List.filter_sublist _)) h

theorem FS.nodupKeys_addDir (fs : FS) (d : FPath)
    (h : fs.NodupKeys) : (fs.addDir d).NodupKeys := by
  unfold FS.NodupKeys
  rw [FS.files_addDir]
  exact h

theorem FS.nodupKeys_makedirs (fs : FS) (p : FPath)
    (h : fs.NodupKeys) : (fs.makedirs p).NodupKeys := by
  unfold FS.NodupKeys
  rw [FS.files_makedirs]
  exact h

theorem FS.nodupDirs_addDir (fs : FS) (d : FPath)
    (h : fs.dirs.Nodup) : (fs.addDir d).dirs.Nodup := by
  unfold FS.addDir
  by_cases hc : fs.dirs.contains d = true
  · rw [if_pos hc]
    exact h
  · rw [if_neg hc]
    refine List.nodup_cons.mpr ⟨?_, h⟩
    simpa using hc

theorem FS.nodupDirs_foldl_addDir (l : List FPath) (fs : FS)
    (h : fs.dirs.Nodup) : (l.foldl FS.addDir fs).dirs.Nodup := by
  induction l generalizing fs with
  | nil => exact h
  | cons d t ih => exact ih _ (FS.nodupDirs_addDir fs d h)

theorem FS.nodupDirs_makedirs (fs : FS) (p : FPath)
    (h : fs.dirs.Nodup) : (fs.makedirs p).dirs.Nodup :=
  FS.nodupDirs_foldl_addDir _ fs h

theorem FS.nodupDirs_rmtree (fs : FS) (d : FPath)
    (h : fs.dirs.Nodup) : (fs.rmtree d).dirs.Nodup :=
  List.Nodup.sublist (List.filter_sublist _) h

theorem FS.mem_filesIn (fs : FS) (d p : FPath) :
    p ∈ fs.filesIn d ↔
      p ∈ fs.files.map (fun kv => kv.1) ∧ p.length = d.length + 1 ∧ d <+: p := by
  unfold FS.filesIn
  simp only [List.mem_filter, Bool.and_eq_true, beq_iff_eq,
    List.isPrefixOf_iff_prefix]

theorem FS.mem_subdirsIn (fs : FS) (d q : FPath) :
    q ∈ fs.subdirsIn d ↔
      q ∈ fs.dirs ∧ q.length = d.length + 1 ∧ d <+: q := by
  unfold FS.subdirsIn
  simp only [List.mem_filter, Bool.and_eq_true, beq_iff_eq,
    List.isPrefixOf_iff_prefix]

theorem dropLast_eq_of_prefix_succ (d p : FPath)
    (hlen : p.length = d.length + 1) (hpre : d <+: p) : p.dropLast = d := by
  rw [List.dropLast_eq_take, hlen, Nat.add_sub_cancel,
    ← List.prefix_iff_eq_take.mp hpre]

theorem FS.filesIn_parent (fs : FS) (d p : FPath) (h : p ∈ fs.filesIn d) :
    p.dropLast = d := by
  rcases (FS.mem_filesIn fs d p).mp h with ⟨-, hlen, hpre⟩
  exact dropLast_eq_of_prefix_succ d p hlen hpre

theorem FS.subdirsIn_parent (fs : FS) (d q : FPath) (h : q ∈ fs.subdirsIn d) :
    q.dropLast = d := by
  rcases (FS.mem_subdirsIn fs d q).mp h with ⟨-, hlen, hpre⟩
  exact dropLast_eq_of_prefix_succ d q hlen hpre

theorem FS.nodup_filesIn (fs : FS) (d : FPath) (h : fs.NodupKeys) :
    (fs.filesIn d).Nodup :=
  List.Nodup.filter _ h

theorem FS.nodup_subdirsIn (fs : FS) (d : FPath) (h : fs.dirs.Nodup) :
    (fs.subdirsIn d).Nodup :=
  List.Nodup.filter _ h

theorem FS.filesIn_lookup_isSome (fs : FS) (d p : FPath)
    (h : p ∈ fs.filesIn d) : (fs.lookup p).isSome := by
  rcases (FS.mem_filesIn fs d p).mp h with ⟨hk, -, -⟩
  exact (FS.isSome_lookup_iff fs p).mpr hk

/-! ### Prefix utilities -/

theorem prefix_head_eq (a : String) (t p : FPath) (h : (a :: t) <+: p) :
    p.head? = some a := by
  rcases h with ⟨r, rfl⟩
  rfl

theorem prefix_of_prefix_dropLast (q p : FPath) (h : q <+: p.dropLast) :
    q <+: p :=
  h.trans (List.dropLast_prefix p)

/-- If every file and directory of `fs` starts with a segment different
from the head of `base`, then nothing exists under `base`.  Used to
discharge temp-directory freshness hypotheses on concrete states. -/
theorem fresh_area (fs : FS) (s : String) (base : FPath)
    (hb : base.head? = some s)
    (hf : ∀ kv ∈ fs.files, kv.1.head? ≠ some s)
    (hd : ∀ q ∈ fs.dirs, q.head? ≠ some s) :
    ∀ p, base <+: p → fs.lookup p = none ∧ p ∉ fs.dirs := by
  intro p hpre
  cases base with
  | nil => simp at hb
  | cons a t =>
    have ha : a = s := by simpa using hb
    have hph : p.head? = some s := ha ▸ prefix_head_eq a t p hpre
    constructor
    · by_cases hno : fs.lookup p = none
      · exact hno
      · exfalso
        have : (fs.lookup p).isSome := Option.isSome_iff_ne_none.mpr hno
        rcases List.mem_map.mp ((FS.isSome_lookup_iff fs p).mp this) with ⟨kv, hkv, hfst⟩
        exact hf kv hkv (hfst ▸ hph)
    · intro hc
      exact hd p hc hph

/-! ### Frame lemmas for the pngquant ladder loop -/

theorem pngLoop_fs_lookup_frame (env : Env) (input tempOut : FPath)
    (qs : List String) : ∀ (st : St) (le : Option PyErr) (p : FPath),
    p ≠ tempOut →
    (pngLoop env input tempOut st le qs).1.fs.lookup p = st.fs.lookup p := by
  induction qs with
  | nil => intro st le p hp; rfl
  | cons q qs ih =>
    intro st le p hp
    cases henv : env.pngquant st.pngSpawns with
    | completed so w =>
      cases w with
      | none => simp [pngLoop, henv]
      | some b => simp [pngLoop, henv, FS.lookup_writeFile, hp]
    | failed code so se w =>
      by_cases hc : code = 99
      · cases w with
        | none => simp [pngLoop, henv, hc, ih _ _ p hp]
        | some b =>
          simp [pngLoop, henv, hc, ih _ _ p hp, FS.lookup_writeFile, hp]
      · cases w with
        | none => simp [pngLoop, henv, hc]
        | some b => simp [pngLoop, henv, hc, FS.lookup_writeFile, hp]
    | raised e => simp [pngLoop, henv]

theorem pngLoop_dirs (env : Env) (input tempOut : FPath)
    (qs : List String) : ∀ (st : St) (le : Option PyErr),
    (pngLoop env input tempOut st le qs).1.fs.dirs = st.fs.dirs := by
  induction qs with
  | nil => intro st le; rfl
  | cons q qs ih =>
    intro st le
    cases henv : env.pngquant st.pngSpawns with
    | completed so w =>
      cases w with
      | none => simp [pngLoop, henv]
      | some b => simp [pngLoop, henv, FS.dirs_writeFile]
    | failed code so se w =>
      by_cases hc : code = 99
      · cases w with
        | none => simp [pngLoop, henv, hc, ih]
        | some b => simp [pngLoop, henv, hc, ih, FS.dirs_writeFile]
      · cases w with
        | none => simp [pngLoop, henv, hc]
        | some b => simp [pngLoop, henv, hc, FS.dirs_writeFile]
    | raised e => simp [pngLoop, henv]

theorem pngLoop_tmps (env : Env) (input tempOut : FPath)
    (qs : List String) : ∀ (st : St) (le : Option PyErr),
    (pngLoop env input tempOut st le qs).1.tmps = st.tmps := by
  induction qs with
  | nil => intro st le; rfl
  | cons q qs ih =>
    intro st le
    cases henv : env.pngquant st.pngSpawns with
    | completed so w => cases w <;> simp [pngLoop, henv]
    | failed code so se w =>
      by_cases hc : code = 99
      · cases w <;> simp [pngLoop, henv, hc, ih]
      · cases w <;> simp [pngLoop, henv, hc]
    | raised e => simp [pngLoop, henv]

theorem pngLoop_jpegSpawns (env : Env) (input tempOut : FPath)
    (qs : List String) : ∀ (st : St) (le : Option PyErr),
    (pngLoop env input tempOut st le qs).1.jpegSpawns = st.jpegSpawns := by
  induction qs with
  | nil => intro st le; rfl
  | cons q qs ih =>
    intro st le
    cases henv : env.pngquant st.pngSpawns with
    | completed so w => cases w <;> simp [pngLoop, henv]
    | failed code so se w =>
      by_cases hc : code = 99
      · cases w <;> simp [pngLoop, henv, hc, ih]
      · cases w <;> simp [pngLoop, henv, hc]
    | raised e => simp [pngLoop, henv]

theorem pngLoop_nodupKeys (env : Env) (input tempOut : FPath)
    (qs : List String) : ∀ (st : St) (le : Option PyErr),
    st.fs.NodupKeys → (pngLoop env input tempOut st le qs).1.fs.NodupKeys := by
  induction qs with
  | nil => intro st le h; exact h
  | cons q qs ih =>
    intro st le h
    cases henv : env.pngquant st.pngSpawns with
    | completed so w =>
      cases w with
      | none => simpa [pngLoop, henv] using h
      | some b => simpa [pngLoop, henv] using FS.nodupKeys_writeFile _ _ _ h
    | failed code so se w =>
      by_cases hc : code = 99
      · cases w with
        | none =>
          have h2 : ({ st with pngSpawns := st.pngSpawns + 1 } : St).fs.NodupKeys := h
          simpa [pngLoop, henv, hc] using ih _ _ h2
        | some b =>
          have h2 : ({ st with fs := st.fs.writeFile tempOut b, pngSpawns := st.pngSpawns + 1 } : St).fs.NodupKeys :=
            FS.nodupKeys_writeFile _ _ _ h
          simpa [pngLoop, henv, hc] using ih _ _ h2
      · cases w with
        | none => simpa [pngLoop, henv, hc] using h
        | some b => simpa [pngLoop, henv, hc] using FS.nodupKeys_writeFile _ _ _ h
    | raised e => simpa [pngLoop, henv] using h

/-! ### Frame lemmas for pngFinish and pngBody -/

theorem pngFinish_state (st : St) (input output tempOut : FPath)
    (sq : Option String) :
    (pngFinish st input output tempOut sq).2.1 = st ∨
    (pngFinish st input output tempOut sq).2.1 =
      { st with fs := (if (dirname output).isEmpty then st.fs
          else st.fs.makedirs (dirname output)).move tempOut output } := by
  unfold pngFinish
  by_cases hex : st.fs.pathExists tempOut
  · simp only [hex, Bool.not_true, Bool.false_eq_true, if_false]
    split
    · exact Or.inr rfl
    · split
      · exact Or.inr rfl
      · split
        · exact Or.inr rfl
        · exact Or.inr rfl
  · simp [hex]

theorem pngFinish_fs_lookup_frame (st : St) (input output tempOut : FPath)
    (sq : Option String) (p : FPath) (h1 : p ≠ tempOut) (h2 : p ≠ output) :
    (pngFinish st input output tempOut sq).2.1.fs.lookup p = st.fs.lookup p := by
  rcases pngFinish_state st input output tempOut sq with h | h
  · rw [h]
  · rw [h]
    show ((if (dirname output).isEmpty then st.fs
      else st.fs.makedirs (dirname output)).move tempOut output).lookup p = _
    rw [FS.lookup_move_other _ _ _ _ h1 h2]
    by_cases hd : (dirname output).isEmpty
    · rw [if_pos hd]
    · rw [if_neg hd, FS.lookup_makedirs]

theorem pngFinish_counters (st : St) (input output tempOut : FPath)
    (sq : Option String) :
    (pngFinish st input output tempOut sq).2.1.tmps = st.tmps ∧
    (pngFinish st input output tempOut sq).2.1.pngSpawns = st.pngSpawns ∧
    (pngFinish st input output tempOut sq).2.1.jpegSpawns = st.jpegSpawns := by
  rcases pngFinish_state st input output tempOut sq with h | h <;> rw [h] <;>
    exact ⟨rfl, rfl, rfl⟩

theorem pngFinish_dirs_sub (st : St) (input output tempOut : FPath)
    (sq : Option String) (q : FPath)
    (h : q ∈ (pngFinish st input output tempOut sq).2.1.fs.dirs) :
    q ∈ st.fs.dirs ∨ (q ≠ [] ∧ q <+: dirname output) := by
  rcases pngFinish_state st input output tempOut sq with hs | hs
  · rw [hs] at h
    exact Or.inl h
  · rw [hs] at h
    rw [show ({ st with fs := (if (dirname output).isEmpty then st.fs
        else st.fs.makedirs (dirname output)).move tempOut output } : St).fs.dirs =
        ((if (dirname output).isEmpty then st.fs
        else st.fs.makedirs (dirname output)).move tempOut output).dirs from rfl,
      FS.dirs_move] at h
    by_cases hd : (dirname output).isEmpty
    · rw [if_pos hd] at h
      exact Or.inl h
    · rw [if_neg hd] at h
      exact (FS.mem_dirs_makedirs _ _ _).mp h

theorem pngFinish_dirs_sup (st : St) (input output tempOut : FPath)
    (sq : Option String) (q : FPath) (h : q ∈ st.fs.dirs) :
    q ∈ (pngFinish st input output tempOut sq).2.1.fs.dirs := by
  rcases pngFinish_state st input output tempOut sq with hs | hs
  · rw [hs]
    exact h
  · rw [hs]
    show q ∈ ((if (dirname output).isEmpty then st.fs
      else st.fs.makedirs (dirname output)).move tempOut output).dirs
    rw [FS.dirs_move]
    by_cases hd : (dirname output).isEmpty
    · rw [if_pos hd]
      exact h
    · rw [if_neg hd]
      exact (FS.mem_dirs_makedirs _ _ _).mpr (Or.inl h)

theorem pngFinish_nodupKeys (st : St) (input output tempOut : FPath)
    (sq : Option String) (h : st.fs.NodupKeys) :
    (pngFinish st input output tempOut sq).2.1.fs.NodupKeys := by
  rcases pngFinish_state st input output tempOut sq with hs | hs <;> rw [hs]
  · exact h
  · show ((if (dirname output).isEmpty then st.fs
      else st.fs.makedirs (dirname output)).move tempOut output).NodupKeys
    apply FS.nodupKeys_move
    by_cases hd : (dirname output).isEmpty
    · rw [if_pos hd]
      exact h
    · rw [if_neg hd]
      exact FS.nodupKeys_makedirs _ _ h

theorem pngFinish_nodupDirs (st : St) (input output tempOut : FPath)
    (sq : Option String) (h : st.fs.dirs.Nodup) :
    (pngFinish st input output tempOut sq).2.1.fs.dirs.Nodup := by
  rcases pngFinish_state st input output tempOut sq with hs | hs <;> rw [hs]
  · exact h
  · show ((if (dirname output).isEmpty then st.fs
      else st.fs.makedirs (dirname output)).move tempOut output).dirs.Nodup
    rw [FS.dirs_move]
    by_cases hd : (dirname output).isEmpty
    · rw [if_pos hd]
      exact h
    · rw [if_neg hd]
      exact FS.nodupDirs_makedirs _ _ h

theorem pngBody_cases (env : Env) (st : St) (input output tempOut : FPath)
    (qs : List String) :
    ∃ (stM : St) (sq : Option String),
      stM.fs.dirs = st.fs.dirs ∧
      stM.tmps = st.tmps ∧
      stM.jpegSpawns = st.jpegSpawns ∧
      (∀ p, p ≠ tempOut → stM.fs.lookup p = st.fs.lookup p) ∧
      (st.fs.NodupKeys → stM.fs.NodupKeys) ∧
      ((pngBody env st input output tempOut qs).2.1 = stM ∨
        (pngBody env st input output tempOut qs).2.1 =
          (pngFinish stM input output tempOut sq).2.1) := by
  rcases hLr : pngLoop env input tempOut st none qs with ⟨stL, ev, r⟩
  have hD := pngLoop_dirs env input tempOut qs st none
  have hT := pngLoop_tmps env input tempOut qs st none
  have hJ := pngLoop_jpegSpawns env input tempOut qs st none
  have hF := pngLoop_fs_lookup_frame env input tempOut qs st none
  have hN := pngLoop_nodupKeys env input tempOut qs st none
  rw [hLr] at hD hT hJ hF hN
  cases r with
  | raisedOut e =>
    exact ⟨stL, none, hD, hT, hJ, fun p hp => hF p hp, hN,
      Or.inl (by simp [pngBody, hLr])⟩
  | broke q =>
    exact ⟨stL, some q, hD, hT, hJ, fun p hp => hF p hp, hN,
      Or.inr (by simp [pngBody, hLr])⟩
  | exhausted le =>
    cases le with
    | none =>
      exact ⟨stL, none, hD, hT, hJ, fun p hp => hF p hp, hN,
        Or.inl (by simp [pngBody, hLr])⟩
    | some e =>
      cases e with
      | calledProcessError code so se =>
        by_cases hc : code = 99
        · refine ⟨{ stL with fs := stL.fs.copyFile input tempOut }, none, ?_,
            hT, hJ, ?_, ?_, Or.inr (by simp [pngBody, hLr, hc])⟩
          · show (stL.fs.copyFile input tempOut).dirs = _
            rw [FS.dirs_copyFile]
            exact hD
          · intro p hp
            show (stL.fs.copyFile input tempOut).lookup p = _
            rw [FS.lookup_copyFile_other _ _ _ _ hp]
            exact hF p hp
          · intro hk
            exact FS.nodupKeys_copyFile _ _ _ (hN hk)
        · exact ⟨stL, none, hD, hT, hJ, fun p hp => hF p hp, hN,
            Or.inl (by simp [pngBody, hLr, hc])⟩
      | osError m =>
        exact ⟨stL, none, hD, hT, hJ, fun p hp => hF p hp, hN,
          Or.inl (by simp [pngBody, hLr])⟩
      | typeError m =>
        exact ⟨stL, none, hD, hT, hJ, fun p hp => hF p hp, hN,
          Or.inl (by simp [pngBody, hLr])⟩
      | zeroDivisionError =>
        exact ⟨stL, none, hD, hT, hJ, fun p hp => hF p hp, hN,
          Or.inl (by simp [pngBody, hLr])⟩

theorem pngBody_fs_lookup_frame (env : Env) (st : St)
    (input output tempOut : FPath) (qs : List String) (p : FPath)
    (h1 : p ≠ tempOut) (h2 : p ≠ output) :
    (pngBody env st input output tempOut qs).2.1.fs.lookup p = st.fs.lookup p := by
  obtain ⟨stM, sq, hD, hT, hJ, hF, hN, hcase⟩ :=
    pngBody_cases env st input output tempOut qs
  rcases hcase with h | h <;> rw [h]
  · exact hF p h1
  · rw [pngFinish_fs_lookup_frame _ _ _ _ _ _ h1 h2]
    exact hF p h1

theorem pngBody_tmps (env : Env) (st : St) (input output tempOut : FPath)
    (qs : List String) :
    (pngBody env st input output tempOut qs).2.1.tmps = st.tmps := by
  obtain ⟨stM, sq, hD, hT, hJ, hF, hN, hcase⟩ :=
    pngBody_cases env st input output tempOut qs
  rcases hcase with h | h <;> rw [h]
  · exact hT
  · rw [(pngFinish_counters stM input output tempOut sq).1]
    exact hT

theorem pngBody_jpegSpawns (env : Env) (st : St) (input output tempOut : FPath)
    (qs : List String) :
    (pngBody env st input output tempOut qs).2.1.jpegSpawns = st.jpegSpawns := by
  obtain ⟨stM, sq, hD, hT, hJ, hF, hN, hcase⟩ :=
    pngBody_cases env st input output tempOut qs
  rcases hcase with h | h <;> rw [h]
  · exact hJ
  · rw [(pngFinish_counters stM input output tempOut sq).2.2]
    exact hJ

theorem pngBody_dirs_sub (env : Env) (st : St) (input output tempOut : FPath)
    (qs : List String) (q : FPath)
    (h : q ∈ (pngBody env st input output tempOut qs).2.1.fs.dirs) :
    q ∈ st.fs.dirs ∨ (q ≠ [] ∧ q <+: dirname output) := by
  obtain ⟨stM, sq, hD, hT, hJ, hF, hN, hcase⟩ :=
    pngBody_cases env st input output tempOut qs
  rcases hcase with he | he <;> rw [he] at h
  · rw [hD] at h
    exact Or.inl h
  · rcases pngFinish_dirs_sub stM input output tempOut sq q h with h2 | h2
    · rw [hD] at h2
      exact Or.inl h2
    · exact Or.inr h2

theorem pngBody_dirs_sup (env : Env) (st : St) (input output tempOut : FPath)
    (qs : List String) (q : FPath) (h : q ∈ st.fs.dirs) :
    q ∈ (pngBody env st input output tempOut qs).2.1.fs.dirs := by
  obtain ⟨stM, sq, hD, hT, hJ, hF, hN, hcase⟩ :=
    pngBody_cases env st input output tempOut qs
  rcases hcase with he | he <;> rw [he]
  · rw [hD]
    exact h
  · exact pngFinish_dirs_sup stM input output tempOut sq q (by rw [hD]; exact h)

theorem pngBody_nodupKeys (env : Env) (st : St) (input output tempOut : FPath)
    (qs : List String) (h : st.fs.NodupKeys) :
    (pngBody env st input output tempOut qs).2.1.fs.NodupKeys := by
  obtain ⟨stM, sq, hD, hT, hJ, hF, hN, hcase⟩ :=
    pngBody_cases env st input output tempOut qs
  rcases hcase with he | he <;> rw [he]
  · exact hN h
  · exact pngFinish_nodupKeys stM input output tempOut sq (hN h)

theorem pngBody_nodupDirs (env : Env) (st : St) (input output tempOut : FPath)
    (qs : List String) (h : st.fs.dirs.Nodup) :
    (pngBody env st input output tempOut qs).2.1.fs.dirs.Nodup := by
  obtain ⟨stM, sq, hD, hT, hJ, hF, hN, hcase⟩ :=
    pngBody_cases env st input output tempOut qs
  rcases hcase with he | he <;> rw [he]
  · rw [hD]
    exact h
  · exact pngFinish_nodupDirs stM input output tempOut sq (by rw [hD]; exact h)


/-! ### Frame lemmas for compress_png -/

theorem compress_png_inputMissing (env : Env) (st : St) (input output : FPath)
    (qs : List String) (c1 : st.fs.pathExists input = false) :
    compress_png env st input output qs =
      (Except.ok false, st, [Ev.logInputMissing input]) := by
  simp [compress_png, c1]

theorem compress_png_notPng (env : Env) (st : St) (input output : FPath)
    (qs : List String) (c1 : st.fs.pathExists input = true)
    (c2 : isPng input = false) :
    compress_png env st input output qs =
      (Except.ok false, st, [Ev.logNotPng input]) := by
  simp [compress_png, c1, c2]

theorem compress_png_notReadable (env : Env) (st : St) (input output : FPath)
    (qs : List String) (c1 : st.fs.pathExists input = true)
    (c2 : isPng input = true) (c3 : env.readable input = false) :
    compress_png env st input output qs =
      (Except.ok false, st, [Ev.logNotReadable input]) := by
  simp [compress_png, c1, c2, c3]

theorem compress_png_eq (env : Env) (st : St) (input output : FPath)
    (qs : List String) (c1 : st.fs.pathExists input = true)
    (c2 : isPng input = true) (c3 : env.readable input = true) :
    compress_png env st input output qs =
      (let r := pngBody env (pngStage env st) input output
        (pngTempOut env st output) qs
       let stF : St := { r.2.1 with fs := r.2.1.fs.rmtree (env.mkdtemp st.tmps) }
       match r.1 with
       | .ok b => (.ok b, stF, r.2.2)
       | .error (.calledProcessError code so se) =>
          (.ok false, stF, r.2.2 ++ [.logPngError input (pngquantErrMsg code) se so])
       | .error _ => (.ok false, stF, r.2.2 ++ [.logPngUnknownError input])) := by
  simp only [compress_png, c1, c2, c3, Bool.not_true, Bool.false_eq_true, if_false]
  rfl

theorem compress_png_state (env : Env) (st : St) (input output : FPath)
    (qs : List String) :
    (compress_png env st input output qs).2.1 = st ∨
    (compress_png env st input output qs).2.1 =
      { (pngBody env (pngStage env st) input output (pngTempOut env st output) qs).2.1 with
          fs := (pngBody env (pngStage env st) input output (pngTempOut env st output) qs).2.1.fs.rmtree (env.mkdtemp st.tmps) } := by
  by_cases c1 : st.fs.pathExists input
  · by_cases c2 : isPng input
    · by_cases c3 : env.readable input
      · right
        rw [compress_png_eq env st input output qs c1 c2 c3]
        dsimp only
        cases (pngBody env (pngStage env st) input output
            (pngTempOut env st output) qs).1 with
        | ok b => rfl
        | error e => cases e <;> rfl
      · left
        rw [compress_png_notReadable env st input output qs c1 c2
          (by simpa using c3)]
    · left
      rw [compress_png_notPng env st input output qs c1 (by simpa using c2)]
  · left
    rw [compress_png_inputMissing env st input output qs (by simpa using c1)]

theorem compress_png_total (env : Env) (st : St) (input output : FPath)
    (qs : List String) :
    ∃ b, (compress_png env st input output qs).1 = Except.ok b := by
  by_cases c1 : st.fs.pathExists input
  · by_cases c2 : isPng input
    · by_cases c3 : env.readable input
      · rw [compress_png_eq env st input output qs c1 c2 c3]
        dsimp only
        cases (pngBody env (pngStage env st) input output
            (pngTempOut env st output) qs).1 with
        | ok b => exact ⟨b, rfl⟩
        | error e => exact ⟨false, by cases e <;> rfl⟩
      · exact ⟨false, by
          rw [compress_png_notReadable env st input output qs c1 c2
            (by simpa using c3)]⟩
    · exact ⟨false, by
        rw [compress_png_notPng env st input output qs c1 (by simpa using c2)]⟩
  · exact ⟨false, by
      rw [compress_png_inputMissing env st input output qs (by simpa using c1)]⟩

theorem compress_png_fs_lookup_frame (env : Env) (st : St) (input output : FPath)
    (qs : List String) (p : FPath)
    (h1 : ¬ env.mkdtemp st.tmps <+: p) (h2 : p ≠ output) :
    (compress_png env st input output qs).2.1.fs.lookup p = st.fs.lookup p := by
  rcases compress_png_state env st input output qs with hs | hs <;> rw [hs]
  show ((pngBody env (pngStage env st) input output
      (pngTempOut env st output) qs).2.1.fs.rmtree (env.mkdtemp st.tmps)).lookup p = _
  rw [FS.lookup_rmtree, if_neg h1]
  have hpt : p ≠ pngTempOut env st output := by
    intro hc
    exact h1 (hc ▸ List.prefix_append _ _)
  rw [pngBody_fs_lookup_frame _ _ _ _ _ _ _ hpt h2]
  exact FS.lookup_addDir st.fs _ p

theorem compress_png_tmps (env : Env) (st : St) (input output : FPath)
    (qs : List String) :
    (compress_png env st input output qs).2.1.tmps = st.tmps ∨
    (compress_png env st input output qs).2.1.tmps = st.tmps + 1 := by
  rcases compress_png_state env st input output qs with hs | hs <;> rw [hs]
  · exact Or.inl rfl
  · right
    show (pngBody env (pngStage env st) input output
        (pngTempOut env st output) qs).2.1.tmps = st.tmps + 1
    rw [pngBody_tmps]
    rfl

theorem compress_png_jpegSpawns (env : Env) (st : St) (input output : FPath)
    (qs : List String) :
    (compress_png env st input output qs).2.1.jpegSpawns = st.jpegSpawns := by
  rcases compress_png_state env st input output qs with hs | hs <;> rw [hs]
  show (pngBody env (pngStage env st) input output
      (pngTempOut env st output) qs).2.1.jpegSpawns = st.jpegSpawns
  rw [pngBody_jpegSpawns]
  rfl

theorem compress_png_dirs_sub (env : Env) (st : St) (input output : FPath)
    (qs : List String) (q : FPath)
    (h : q ∈ (compress_png env st input output qs).2.1.fs.dirs) :
    q ∈ st.fs.dirs ∨ (q ≠ [] ∧ q <+: dirname output) := by
  rcases compress_png_state env st input output qs with hs | hs <;> rw [hs] at h
  · exact Or.inl h
  · have h2 := (FS.mem_dirs_rmtree _ _ _).mp h
    rcases pngBody_dirs_sub _ _ _ _ _ _ _ h2.1 with h3 | h3
    · rcases (FS.mem_dirs_addDir _ _ _).mp h3 with h4 | h4
      · exact absurd (h4 ▸ List.prefix_refl _) h2.2
      · exact Or.inl h4
    · exact Or.inr h3

theorem compress_png_dirs_sup (env : Env) (st : St) (input output : FPath)
    (qs : List String) (q : FPath) (h : q ∈ st.fs.dirs)
    (hq : ¬ env.mkdtemp st.tmps <+: q) :
    q ∈ (compress_png env st input output qs).2.1.fs.dirs := by
  rcases compress_png_state env st input output qs with hs | hs <;> rw [hs]
  · exact h
  · refine (FS.mem_dirs_rmtree _ _ _).mpr ⟨?_, hq⟩
    exact pngBody_dirs_sup _ _ _ _ _ _ _ ((FS.mem_dirs_addDir _ _ _).mpr (Or.inr h))

theorem compress_png_cleans (env : Env) (st : St) (input output : FPath)
    (qs : List String)
    (hfresh : ∀ p, env.mkdtemp st.tmps <+: p →
      st.fs.lookup p = none ∧ p ∉ st.fs.dirs) :
    ∀ p, env.mkdtemp st.tmps <+: p →
      (compress_png env st input output qs).2.1.fs.lookup p = none ∧
      p ∉ (compress_png env st input output qs).2.1.fs.dirs := by
  intro p hp
  rcases compress_png_state env st input output qs with hs | hs <;> rw [hs]
  · exact hfresh p hp
  · constructor
    · show ((pngBody env (pngStage env st) input output
        (pngTempOut env st output) qs).2.1.fs.rmtree (env.mkdtemp st.tmps)).lookup p = none
      rw [FS.lookup_rmtree, if_pos hp]
    · intro hc
      exact ((FS.mem_dirs_rmtree _ _ _).mp hc).2 hp

theorem compress_png_nodupKeys (env : Env) (st : St) (input output : FPath)
    (qs : List String) (h : st.fs.NodupKeys) :
    (compress_png env st input output qs).2.1.fs.NodupKeys := by
  rcases compress_png_state env st input output qs with hs | hs <;> rw [hs]
  · exact h
  · exact FS.nodupKeys_rmtree _ _
      (pngBody_nodupKeys _ _ _ _ _ _ (FS.nodupKeys_addDir _ _ h))

theorem compress_png_nodupDirs (env : Env) (st : St) (input output : FPath)
    (qs : List String) (h : st.fs.dirs.Nodup) :
    (compress_png env st input output qs).2.1.fs.dirs.Nodup := by
  rcases compress_png_state env st input output qs with hs | hs <;> rw [hs]
  · exact h
  · exact FS.nodupDirs_rmtree _ _
      (pngBody_nodupDirs _ _ _ _ _ _ (FS.nodupDirs_addDir _ _ h))

/-! ### Frame lemmas for compress_jpeg -/

theorem compress_jpeg_fs_lookup_frame (env : Env) (st : St) (input output : FPath)
    (p : FPath) (hp : p ≠ output) :
    (compress_jpeg env st input output).2.1.fs.lookup p = st.fs.lookup p := by
  by_cases hemp : (dirname output).isEmpty
  · simp [compress_jpeg, hemp]
  · cases henv : env.cjpeg st.jpegSpawns with
    | completed so w =>
      cases w with
      | none => simp [compress_jpeg, hemp, henv, FS.lookup_makedirs]
      | some b =>
        simp [compress_jpeg, hemp, henv, FS.lookup_writeFile, hp, FS.lookup_makedirs]
    | failed code so se w =>
      cases w with
      | none => simp [compress_jpeg, hemp, henv, FS.lookup_makedirs]
      | some b =>
        simp [compress_jpeg, hemp, henv, FS.lookup_writeFile, hp, FS.lookup_makedirs]
    | raised e => simp [compress_jpeg, hemp, henv, FS.lookup_makedirs]

theorem compress_jpeg_mem_dirs (env : Env) (st : St) (input output : FPath)
    (q : FPath) :
    q ∈ (compress_jpeg env st input output).2.1.fs.dirs ↔
      q ∈ st.fs.dirs ∨ (q ≠ [] ∧ q <+: dirname output) := by
  by_cases hemp : (dirname output).isEmpty
  · have hnil : dirname output = [] := List.isEmpty_iff.mp hemp
    simp only [compress_jpeg, hemp, if_pos]
    constructor
    · exact Or.inl
    · rintro (h | ⟨hne, hpre⟩)
      · exact h
      · rw [hnil] at hpre
        exact absurd (List.prefix_nil.mp hpre) hne
  · cases henv : env.cjpeg st.jpegSpawns with
    | completed so w =>
      cases w <;>
        simp [compress_jpeg, hemp, henv, FS.dirs_writeFile, FS.mem_dirs_makedirs]
    | failed code so se w =>
      cases w <;>
        simp [compress_jpeg, hemp, henv, FS.dirs_writeFile, FS.mem_dirs_makedirs]
    | raised e => simp [compress_jpeg, hemp, henv, FS.mem_dirs_makedirs]

theorem compress_jpeg_tmps (env : Env) (st : St) (input output : FPath) :
    (compress_jpeg env st input output).2.1.tmps = st.tmps := by
  by_cases hemp : (dirname output).isEmpty
  · simp [compress_jpeg, hemp]
  · cases henv : env.cjpeg st.jpegSpawns with
    | completed so w => cases w <;> simp [compress_jpeg, hemp, henv]
    | failed code so se w => cases w <;> simp [compress_jpeg, hemp, henv]
    | raised e => simp [compress_jpeg, hemp, henv]

theorem compress_jpeg_pngSpawns (env : Env) (st : St) (input output : FPath) :
    (compress_jpeg env st input output).2.1.pngSpawns = st.pngSpawns := by
  by_cases hemp : (dirname output).isEmpty
  · simp [compress_jpeg, hemp]
  · cases henv : env.cjpeg st.jpegSpawns with
    | completed so w => cases w <;> simp [compress_jpeg, hemp, henv]
    | failed code so se w => cases w <;> simp [compress_jpeg, hemp, henv]
    | raised e => simp [compress_jpeg, hemp, henv]

theorem compress_jpeg_error_iff (env : Env) (st : St) (input output : FPath)
    (e : PyErr) :
    (compress_jpeg env st input output).1 = Except.error e ↔
      ((dirname output).isEmpty = true ∧ e = .osError "makedirs: empty path") ∨
      ((dirname output).isEmpty = false ∧ env.cjpeg st.jpegSpawns = .raised e) := by
  by_cases hemp : (dirname output).isEmpty
  · simp [compress_jpeg, hemp]
    exact eq_comm
  · cases henv : env.cjpeg st.jpegSpawns with
    | completed so w =>
      cases w <;> simp [compress_jpeg, hemp, henv]
    | failed code so se w =>
      cases w <;> simp [compress_jpeg, hemp, henv]
    | raised e2 =>
      simp only [compress_jpeg, hemp, Bool.false_eq_true, if_false, henv]
      constructor
      · intro h
        refine Or.inr ⟨by simpa using hemp, ?_⟩
        have : e2 = e := by
          injection h
        rw [this]
      · rintro (⟨h1, -⟩ | ⟨-, h2⟩)
        · exact absurd h1 (by simpa using hemp)
        · injection h2 with h3
          rw [h3]

theorem compress_jpeg_nodupKeys (env : Env) (st : St) (input output : FPath)
    (h : st.fs.NodupKeys) : (compress_jpeg env st input output).2.1.fs.NodupKeys := by
  by_cases hemp : (dirname output).isEmpty
  · simpa [compress_jpeg, hemp] using h
  · cases henv : env.cjpeg st.jpegSpawns with
    | completed so w =>
      cases w with
      | none => simpa [compress_jpeg, hemp, henv] using FS.nodupKeys_makedirs _ _ h
      | some b =>
        simpa [compress_jpeg, hemp, henv] using
          FS.nodupKeys_writeFile _ _ _ (FS.nodupKeys_makedirs _ _ h)
    | failed code so se w =>
      cases w with
      | none => simpa [compress_jpeg, hemp, henv] using FS.nodupKeys_makedirs _ _ h
      | some b =>
        simpa [compress_jpeg, hemp, henv] using
          FS.nodupKeys_writeFile _ _ _ (FS.nodupKeys_makedirs _ _ h)
    | raised e =>
      simpa [compress_jpeg, hemp, henv] using FS.nodupKeys_makedirs _ _ h

theorem compress_jpeg_nodupDirs (env : Env) (st : St) (input output : FPath)
    (h : st.fs.dirs.Nodup) :
    (compress_jpeg env st input output).2.1.fs.dirs.Nodup := by
  by_cases hemp : (dirname output).isEmpty
  · simpa [compress_jpeg, hemp] using h
  · cases henv : env.cjpeg st.jpegSpawns with
    | completed so w =>
      cases w <;>
        simpa [compress_jpeg, hemp, henv, FS.dirs_writeFile] using
          FS.nodupDirs_makedirs _ _ h
    | failed code so se w =>
      cases w <;>
        simpa [compress_jpeg, hemp, henv, FS.dirs_writeFile] using
          FS.nodupDirs_makedirs _ _ h
    | raised e =>
      simpa [compress_jpeg, hemp, henv] using FS.nodupDirs_makedirs _ _ h

/-! ### The compressors emit only plain events -/

theorem plain_resultPaths (evs : List Ev) (h : ∀ e ∈ evs, e.plain = true) :
    resultPaths evs = [] := by
  rw [resultPaths, List.filterMap_eq_nil]
  intro e he
  cases e <;> first | rfl | exact absurd (h _ he) (by simp [Ev.plain])

theorem plain_visitedDirs (evs : List Ev) (h : ∀ e ∈ evs, e.plain = true) :
    visitedDirs evs = [] := by
  rw [visitedDirs, List.filterMap_eq_nil]
  intro e he
  cases e <;> first | rfl | exact absurd (h _ he) (by simp [Ev.plain])

theorem pngLoop_plain (env : Env) (input tempOut : FPath) (qs : List String) :
    ∀ (st : St) (le : Option PyErr) (e : Ev),
    e ∈ (pngLoop env input tempOut st le qs).2.1 → e.plain = true := by
  induction qs with
  | nil => intro st le e he; simp [pngLoop] at he
  | cons q qs ih =>
    intro st le e he
    cases henv : env.pngquant st.pngSpawns with
    | completed so w =>
      rw [pngLoop] at he
      rw [henv] at he
      simp at he
      subst he
      rfl
    | failed code so se w =>
      rw [pngLoop] at he
      rw [henv] at he
      by_cases hc : code = 99
      · simp only [hc, if_pos rfl] at he
        rcases List.mem_cons.mp he with rfl | he2
        · rfl
        rcases List.mem_cons.mp he2 with rfl | he3
        · rfl
        exact ih _ _ e he3
      · simp only [if_neg hc, List.mem_singleton] at he
        subst he
        rfl
    | raised e2 =>
      rw [pngLoop] at he
      rw [henv] at he
      simp at he
      subst he
      rfl

theorem pngFinish_plain (st : St) (input output tempOut : FPath)
    (sq : Option String) :
    ∀ e ∈ (pngFinish st input output tempOut sq).2.2, e.plain = true := by
  intro e he
  unfold pngFinish at he
  by_cases hex : st.fs.pathExists tempOut
  · simp only [hex, Bool.not_true, Bool.false_eq_true, if_false] at he
    split at he
    · simp at he
    · split at he
      · simp at he
      · split at he
        · simp at he
        · simp only [List.mem_append, List.mem_singleton] at he
          rcases he with rfl | he
          · rfl
          · cases sq with
            | none => simp at he
            | some q =>
              simp at he
              subst he
              rfl
  · simp only [hex, Bool.not_false, if_true, Bool.not_eq_true] at he
    simp at he
    subst he
    rfl

theorem pngBody_plain (env : Env) (st : St) (input output tempOut : FPath)
    (qs : List String) :
    ∀ e ∈ (pngBody env st input output tempOut qs).2.2, e.plain = true := by
  intro e he
  have hL := pngLoop_plain env input tempOut qs st none
  rcases hLr : pngLoop env input tempOut st none qs with ⟨stL, ev, r⟩
  rw [hLr] at hL
  cases r with
  | raisedOut e2 =>
    rw [pngBody, hLr] at he
    exact hL e he
  | broke q =>
    rw [pngBody, hLr] at he
    simp only [List.mem_append] at he
    rcases he with he | he
    · exact hL e he
    · exact pngFinish_plain _ _ _ _ _ e he
  | exhausted le =>
    cases le with
    | none =>
      rw [pngBody, hLr] at he
      exact hL e he
    | some e2 =>
      cases e2 with
      | calledProcessError code so se =>
        by_cases hc : code = 99
        · rw [pngBody, hLr] at he
          simp only [hc, if_pos rfl] at he
          have he2 : e ∈ (ev ++ [Ev.logPassThrough]) ++
              (pngFinish { stL with fs := stL.fs.copyFile input tempOut }
                input output tempOut none).2.2 := he
          rcases List.mem_append.mp he2 with h | h
          · rcases List.mem_append.mp h with h2 | h2
            · exact hL e h2
            · rw [List.mem_singleton.mp h2]
              rfl
          · exact pngFinish_plain _ _ _ _ _ e h
        · rw [pngBody, hLr] at he
          simp only [if_neg hc] at he
          exact hL e he
      | osError m =>
        rw [pngBody, hLr] at he
        exact hL e he
      | typeError m =>
        rw [pngBody, hLr] at he
        exact hL e he
      | zeroDivisionError =>
        rw [pngBody, hLr] at he
        exact hL e he

theorem compress_png_plain (env : Env) (st : St) (input output : FPath)
    (qs : List String) :
    ∀ e ∈ (compress_png env st input output qs).2.2, e.plain = true := by
  intro e he
  by_cases c1 : st.fs.pathExists input
  · by_cases c2 : isPng input
    · by_cases c3 : env.readable input
      · rw [compress_png_eq env st input output qs c1 c2 c3] at he
        dsimp only at he
        have hB := pngBody_plain env (pngStage env st) input output
          (pngTempOut env st output) qs
        cases hr : (pngBody env (pngStage env st) input output
            (pngTempOut env st output) qs).1 with
        | ok b =>
          rw [hr] at he
          exact hB e he
        | error e2 =>
          rw [hr] at he
          cases e2 with
          | calledProcessError code so se =>
            simp only [List.mem_append, List.mem_singleton] at he
            rcases he with he | rfl
            · exact hB e he
            · rfl
          | osError m =>
            simp only [List.mem_append, List.mem_singleton] at he
            rcases he with he | rfl
            · exact hB e he
            · rfl
          | typeError m =>
            simp only [List.mem_append, List.mem_singleton] at he
            rcases he with he | rfl
            · exact hB e he
            · rfl
          | zeroDivisionError =>
            simp only [List.mem_append, List.mem_singleton] at he
            rcases he with he | rfl
            · exact hB e he
            · rfl
      · rw [compress_png_notReadable env st input output qs c1 c2
          (by simpa using c3)] at he
        simp at he
        subst he
        rfl
    · rw [compress_png_notPng env st input output qs c1 (by simpa using c2)] at he
      simp at he
      subst he
      rfl
  · rw [compress_png_inputMissing env st input output qs (by simpa using c1)] at he
    simp at he
    subst he
    rfl

theorem compress_jpeg_plain (env : Env) (st : St) (input output : FPath) :
    ∀ e ∈ (compress_jpeg env st input output).2.2, e.plain = true := by
  intro e he
  by_cases hemp : (dirname output).isEmpty
  · simp [compress_jpeg, hemp] at he
  · cases henv : env.cjpeg st.jpegSpawns with
    | completed so w =>
      simp only [compress_jpeg, hemp, Bool.false_eq_true, if_false, henv] at he
      cases w <;> simp only [List.mem_cons, List.mem_singleton] at he <;>
        rcases he with rfl | rfl | he <;> first | rfl | simp at he
    | failed code so se w =>
      simp only [compress_jpeg, hemp, Bool.false_eq_true, if_false, henv] at he
      cases w <;> simp only [List.mem_cons, List.mem_singleton] at he <;>
        rcases he with rfl | rfl | he <;> first | rfl | simp at he
    | raised e2 =>
      simp only [compress_jpeg, hemp, Bool.false_eq_true, if_false, henv,
        List.mem_singleton] at he
      subst he
      rfl

/-! ### Shape of one walk step -/

theorem processFile_shape (env : Env) (inRoot : FPath) (mode : Mode) (st : St)
    (f : FPath) :
    (processFile env inRoot mode st f = (st, [], none) ∧
      pngName (basename f) = false ∧ jpgName (basename f) = false) ∨
    (∃ b st1 ev1,
      compress_png env st f (modeDest mode inRoot f) defaultQualities =
        (.ok b, st1, ev1) ∧
      (processFile env inRoot mode st f = (st1, ev1 ++ [.pngResult f b], none) ∨
        (b = true ∧ (st1.fs.lookup (modeDest mode inRoot f)).isSome = true ∧
          processFile env inRoot mode st f =
          ({ st1 with fs := st1.fs.move (modeDest mode inRoot f) f },
            ev1 ++ [.pngResult f true], none)) ∨
        (b = true ∧ st1.fs.lookup (modeDest mode inRoot f) = none ∧
          processFile env inRoot mode st f =
          (st1, ev1 ++ [.pngResult f true],
            some (.osError "FileNotFoundError"))))) ∨
    (∃ e st1 ev1,
      compress_png env st f (modeDest mode inRoot f) defaultQualities =
        (.error e, st1, ev1) ∧
      processFile env inRoot mode st f = (st1, ev1, some e)) ∨
    (∃ b st1 ev1,
      compress_jpeg env st f (modeDest mode inRoot f) = (.ok b, st1, ev1) ∧
      pngName (basename f) = false ∧
      (processFile env inRoot mode st f = (st1, ev1 ++ [.jpegResult f b], none) ∨
        (b = true ∧ (st1.fs.lookup (modeDest mode inRoot f)).isSome = true ∧
          processFile env inRoot mode st f =
          ({ st1 with fs := st1.fs.move (modeDest mode inRoot f) f },
            ev1 ++ [.jpegResult f true], none)) ∨
        (b = true ∧ st1.fs.lookup (modeDest mode inRoot f) = none ∧
          processFile env inRoot mode st f =
          (st1, ev1 ++ [.jpegResult f true],
            some (.osError "FileNotFoundError"))))) ∨
    (∃ e st1 ev1,
      compress_jpeg env st f (modeDest mode inRoot f) = (.error e, st1, ev1) ∧
      pngName (basename f) = false ∧
      processFile env inRoot mode st f = (st1, ev1, some e)) := by
  cases mode with
  | copy outRoot =>
    by_cases hpng : pngName (basename f)
    · rcases hc : compress_png env st f (outRoot ++ f.drop inRoot.length)
          defaultQualities with ⟨res, st1, ev1⟩
      cases res with
      | ok b =>
        refine Or.inr (Or.inl ⟨b, st1, ev1, ?_, Or.inl ?_⟩)
        · exact hc
        · simp [processFile, hpng, hc]
      | error e =>
        refine Or.inr (Or.inr (Or.inl ⟨e, st1, ev1, ?_, ?_⟩))
        · exact hc
        · simp [processFile, hpng, hc]
    · by_cases hjpg : jpgName (basename f)
      · rcases hc : compress_jpeg env st f (outRoot ++ f.drop inRoot.length)
            with ⟨res, st1, ev1⟩
        cases res with
        | ok b =>
          refine Or.inr (Or.inr (Or.inr (Or.inl
            ⟨b, st1, ev1, ?_, by simpa using hpng, Or.inl ?_⟩)))
          · exact hc
          · simp [processFile, hpng, hjpg, hc]
        | error e =>
          refine Or.inr (Or.inr (Or.inr (Or.inr
            ⟨e, st1, ev1, ?_, by simpa using hpng, ?_⟩)))
          · exact hc
          · simp [processFile, hpng, hjpg, hc]
      · refine Or.inl ⟨?_, by simpa using hpng, by simpa using hjpg⟩
        simp [processFile, hpng, hjpg]
  | replace tempRoot =>
    by_cases hpng : pngName (basename f)
    · rcases hc : compress_png env st f (tempRoot ++ f.drop inRoot.length)
          defaultQualities with ⟨res, st1, ev1⟩
      cases res with
      | ok b =>
        cases b with
        | true =>
          cases hlk : st1.fs.lookup (tempRoot ++ f.drop inRoot.length) with
          | some bb =>
            refine Or.inr (Or.inl ⟨true, st1, ev1, hc,
              Or.inr (Or.inl ⟨rfl, ?_, ?_⟩)⟩)
            · show (st1.fs.lookup (tempRoot ++ f.drop inRoot.length)).isSome =
                true
              rw [hlk]
              rfl
            · simp [processFile, hpng, hc, hlk, modeDest]
          | none =>
            refine Or.inr (Or.inl ⟨true, st1, ev1, hc,
              Or.inr (Or.inr ⟨rfl, hlk, ?_⟩)⟩)
            simp [processFile, hpng, hc, hlk, modeDest]
        | false =>
          refine Or.inr (Or.inl ⟨false, st1, ev1, hc, Or.inl ?_⟩)
          simp [processFile, hpng, hc]
      | error e =>
        refine Or.inr (Or.inr (Or.inl ⟨e, st1, ev1, hc, ?_⟩))
        simp [processFile, hpng, hc]
    · by_cases hjpg : jpgName (basename f)
      · rcases hc : compress_jpeg env st f (tempRoot ++ f.drop inRoot.length)
            with ⟨res, st1, ev1⟩
        cases res with
        | ok b =>
          cases b with
          | true =>
            cases hlk : st1.fs.lookup (tempRoot ++ f.drop inRoot.length) with
            | some bb =>
              refine Or.inr (Or.inr (Or.inr (Or.inl
                ⟨true, st1, ev1, hc, by simpa using hpng,
                  Or.inr (Or.inl ⟨rfl, ?_, ?_⟩)⟩)))
              · show (st1.fs.lookup
                    (tempRoot ++ f.drop inRoot.length)).isSome = true
                rw [hlk]
                rfl
              · simp [processFile, hpng, hjpg, hc, hlk, modeDest]
            | none =>
              refine Or.inr (Or.inr (Or.inr (Or.inl
                ⟨true, st1, ev1, hc, by simpa using hpng,
                  Or.inr (Or.inr ⟨rfl, hlk, ?_⟩)⟩)))
              simp [processFile, hpng, hjpg, hc, hlk, modeDest]
          | false =>
            refine Or.inr (Or.inr (Or.inr (Or.inl
              ⟨false, st1, ev1, hc, by simpa using hpng, Or.inl ?_⟩)))
            simp [processFile, hpng, hjpg, hc]
        | error e =>
          refine Or.inr (Or.inr (Or.inr (Or.inr
            ⟨e, st1, ev1, hc, by simpa using hpng, ?_⟩)))
          simp [processFile, hpng, hjpg, hc]
      · refine Or.inl ⟨?_, by simpa using hpng, by simpa using hjpg⟩
        simp [processFile, hpng, hjpg]

/-! ### Properties of one walk step -/

theorem resultPaths_append (l1 l2 : List Ev) :
    resultPaths (l1 ++ l2) = resultPaths l1 ++ resultPaths l2 := by
  simp [resultPaths, List.filterMap_append]

theorem visitedDirs_append (l1 l2 : List Ev) :
    visitedDirs (l1 ++ l2) = visitedDirs l1 ++ visitedDirs l2 := by
  simp [visitedDirs, List.filterMap_append]

theorem processFile_tmps (env : Env) (inRoot : FPath) (mode : Mode) (st : St)
    (f : FPath) :
    (processFile env inRoot mode st f).1.tmps = st.tmps ∨
    (processFile env inRoot mode st f).1.tmps = st.tmps + 1 := by
  rcases processFile_shape env inRoot mode st f with
    ⟨heq, -, -⟩ | ⟨b, st1, ev1, hc, hp⟩ | ⟨e, st1, ev1, hc, heq⟩ |
    ⟨b, st1, ev1, hc, -, hp⟩ | ⟨e, st1, ev1, hc, -, heq⟩
  · rw [heq]
    exact Or.inl rfl
  · have hst : (compress_png env st f (modeDest mode inRoot f)
        defaultQualities).2.1 = st1 := by rw [hc]
    have ht := compress_png_tmps env st f (modeDest mode inRoot f) defaultQualities
    rw [hst] at ht
    rcases hp with heq | ⟨-, -, heq⟩ | ⟨-, -, heq⟩ <;> rw [heq] <;> exact ht
  · have hst : (compress_png env st f (modeDest mode inRoot f)
        defaultQualities).2.1 = st1 := by rw [hc]
    have ht := compress_png_tmps env st f (modeDest mode inRoot f) defaultQualities
    rw [hst] at ht
    rw [heq]
    exact ht
  · have hst : (compress_jpeg env st f (modeDest mode inRoot f)).2.1 = st1 := by
      rw [hc]
    have ht := compress_jpeg_tmps env st f (modeDest mode inRoot f)
    rw [hst] at ht
    rcases hp with heq | ⟨-, -, heq⟩ | ⟨-, -, heq⟩ <;> rw [heq] <;>
      exact Or.inl ht
  · have hst : (compress_jpeg env st f (modeDest mode inRoot f)).2.1 = st1 := by
      rw [hc]
    have ht := compress_jpeg_tmps env st f (modeDest mode inRoot f)
    rw [hst] at ht
    rw [heq]
    exact Or.inl ht

theorem processFile_tmps_le (env : Env) (inRoot : FPath) (mode : Mode)
    (st : St) (f : FPath) :
    st.tmps ≤ (processFile env inRoot mode st f).1.tmps := by
  rcases processFile_tmps env inRoot mode st f with h | h <;> omega

theorem processFile_resultPaths (env : Env) (inRoot : FPath) (mode : Mode)
    (st : St) (f : FPath) :
    resultPaths (processFile env inRoot mode st f).2.1 = [] ∨
    resultPaths (processFile env inRoot mode st f).2.1 = [f] := by
  rcases processFile_shape env inRoot mode st f with
    ⟨heq, -, -⟩ | ⟨b, st1, ev1, hc, hp⟩ | ⟨e, st1, ev1, hc, heq⟩ |
    ⟨b, st1, ev1, hc, -, hp⟩ | ⟨e, st1, ev1, hc, -, heq⟩
  · rw [heq]
    exact Or.inl rfl
  · have hev : (compress_png env st f (modeDest mode inRoot f)
        defaultQualities).2.2 = ev1 := by rw [hc]
    have hnil : resultPaths ev1 = [] := by
      rw [← hev]
      exact plain_resultPaths _ (compress_png_plain env st f _ _)
    right
    rcases hp with heq | ⟨hb, -, heq⟩ | ⟨hb, -, heq⟩
    · rw [heq]
      show resultPaths (ev1 ++ [Ev.pngResult f b]) = [f]
      rw [resultPaths_append, hnil]
      rfl
    · rw [heq]
      show resultPaths (ev1 ++ [Ev.pngResult f true]) = [f]
      rw [resultPaths_append, hnil]
      rfl
    · rw [heq]
      show resultPaths (ev1 ++ [Ev.pngResult f true]) = [f]
      rw [resultPaths_append, hnil]
      rfl
  · have hev : (compress_png env st f (modeDest mode inRoot f)
        defaultQualities).2.2 = ev1 := by rw [hc]
    left
    rw [heq]
    show resultPaths ev1 = []
    rw [← hev]
    exact plain_resultPaths _ (compress_png_plain env st f _ _)
  · have hev : (compress_jpeg env st f (modeDest mode inRoot f)).2.2 = ev1 := by
      rw [hc]
    have hnil : resultPaths ev1 = [] := by
      rw [← hev]
      exact plain_resultPaths _ (compress_jpeg_plain env st f _)
    right
    rcases hp with heq | ⟨hb, -, heq⟩ | ⟨hb, -, heq⟩
    · rw [heq]
      show resultPaths (ev1 ++ [Ev.jpegResult f b]) = [f]
      rw [resultPaths_append, hnil]
      rfl
    · rw [heq]
      show resultPaths (ev1 ++ [Ev.jpegResult f true]) = [f]
      rw [resultPaths_append, hnil]
      rfl
    · rw [heq]
      show resultPaths (ev1 ++ [Ev.jpegResult f true]) = [f]
      rw [resultPaths_append, hnil]
      rfl
  · have hev : (compress_jpeg env st f (modeDest mode inRoot f)).2.2 = ev1 := by
      rw [hc]
    left
    rw [heq]
    show resultPaths ev1 = []
    rw [← hev]
    exact plain_resultPaths _ (compress_jpeg_plain env st f _)

theorem processFile_visitedDirs (env : Env) (inRoot : FPath) (mode : Mode)
    (st : St) (f : FPath) :
    visitedDirs (processFile env inRoot mode st f).2.1 = [] := by
  rcases processFile_shape env inRoot mode st f with
    ⟨heq, -, -⟩ | ⟨b, st1, ev1, hc, hp⟩ | ⟨e, st1, ev1, hc, heq⟩ |
    ⟨b, st1, ev1, hc, -, hp⟩ | ⟨e, st1, ev1, hc, -, heq⟩
  · rw [heq]
    rfl
  · have hev : (compress_png env st f (modeDest mode inRoot f)
        defaultQualities).2.2 = ev1 := by rw [hc]
    have hnil : visitedDirs ev1 = [] := by
      rw [← hev]
      exact plain_visitedDirs _ (compress_png_plain env st f _ _)
    rcases hp with heq | ⟨hb, -, heq⟩ | ⟨hb, -, heq⟩
    · rw [heq]
      show visitedDirs (ev1 ++ [Ev.pngResult f b]) = []
      rw [visitedDirs_append, hnil]
      rfl
    · rw [heq]
      show visitedDirs (ev1 ++ [Ev.pngResult f true]) = []
      rw [visitedDirs_append, hnil]
      rfl
    · rw [heq]
      show visitedDirs (ev1 ++ [Ev.pngResult f true]) = []
      rw [visitedDirs_append, hnil]
      rfl
  · have hev : (compress_png env st f (modeDest mode inRoot f)
        defaultQualities).2.2 = ev1 := by rw [hc]
    rw [heq]
    show visitedDirs ev1 = []
    rw [← hev]
    exact plain_visitedDirs _ (compress_png_plain env st f _ _)
  · have hev : (compress_jpeg env st f (modeDest mode inRoot f)).2.2 = ev1 := by
      rw [hc]
    have hnil : visitedDirs ev1 = [] := by
      rw [← hev]
      exact plain_visitedDirs _ (compress_jpeg_plain env st f _)
    rcases hp with heq | ⟨hb, -, heq⟩ | ⟨hb, -, heq⟩
    · rw [heq]
      show visitedDirs (ev1 ++ [Ev.jpegResult f b]) = []
      rw [visitedDirs_append, hnil]
      rfl
    · rw [heq]
      show visitedDirs (ev1 ++ [Ev.jpegResult f true]) = []
      rw [visitedDirs_append, hnil]
      rfl
    · rw [heq]
      show visitedDirs (ev1 ++ [Ev.jpegResult f true]) = []
      rw [visitedDirs_append, hnil]
      rfl
  · have hev : (compress_jpeg env st f (modeDest mode inRoot f)).2.2 = ev1 := by
      rw [hc]
    rw [heq]
    show visitedDirs ev1 = []
    rw [← hev]
    exact plain_visitedDirs _ (compress_jpeg_plain env st f _)

theorem processFile_nodupKeys (env : Env) (inRoot : FPath) (mode : Mode)
    (st : St) (f : FPath) (h : st.fs.NodupKeys) :
    (processFile env inRoot mode st f).1.fs.NodupKeys := by
  rcases processFile_shape env inRoot mode st f with
    ⟨heq, -, -⟩ | ⟨b, st1, ev1, hc, hp⟩ | ⟨e, st1, ev1, hc, heq⟩ |
    ⟨b, st1, ev1, hc, -, hp⟩ | ⟨e, st1, ev1, hc, -, heq⟩
  · rw [heq]
    exact h
  · have hst : (compress_png env st f (modeDest mode inRoot f)
        defaultQualities).2.1 = st1 := by rw [hc]
    have hn := compress_png_nodupKeys env st f (modeDest mode inRoot f)
      defaultQualities h
    rw [hst] at hn
    rcases hp with heq | ⟨-, -, heq⟩ | ⟨-, -, heq⟩ <;> rw [heq]
    · exact hn
    · exact FS.nodupKeys_move _ _ _ hn
    · exact hn
  · have hst : (compress_png env st f (modeDest mode inRoot f)
        defaultQualities).2.1 = st1 := by rw [hc]
    have hn := compress_png_nodupKeys env st f (modeDest mode inRoot f)
      defaultQualities h
    rw [hst] at hn
    rw [heq]
    exact hn
  · have hst : (compress_jpeg env st f (modeDest mode inRoot f)).2.1 = st1 := by
      rw [hc]
    have hn := compress_jpeg_nodupKeys env st f (modeDest mode inRoot f) h
    rw [hst] at hn
    rcases hp with heq | ⟨-, -, heq⟩ | ⟨-, -, heq⟩ <;> rw [heq]
    · exact hn
    · exact FS.nodupKeys_move _ _ _ hn
    · exact hn
  · have hst : (compress_jpeg env st f (modeDest mode inRoot f)).2.1 = st1 := by
      rw [hc]
    have hn := compress_jpeg_nodupKeys env st f (modeDest mode inRoot f) h
    rw [hst] at hn
    rw [heq]
    exact hn

theorem processFile_nodupDirs (env : Env) (inRoot : FPath) (mode : Mode)
    (st : St) (f : FPath) (h : st.fs.dirs.Nodup) :
    (processFile env inRoot mode st f).1.fs.dirs.Nodup := by
  rcases processFile_shape env inRoot mode st f with
    ⟨heq, -, -⟩ | ⟨b, st1, ev1, hc, hp⟩ | ⟨e, st1, ev1, hc, heq⟩ |
    ⟨b, st1, ev1, hc, -, hp⟩ | ⟨e, st1, ev1, hc, -, heq⟩
  · rw [heq]
    exact h
  · have hst : (compress_png env st f (modeDest mode inRoot f)
        defaultQualities).2.1 = st1 := by rw [hc]
    have hn := compress_png_nodupDirs env st f (modeDest mode inRoot f)
      defaultQualities h
    rw [hst] at hn
    rcases hp with heq | ⟨-, -, heq⟩ | ⟨-, -, heq⟩ <;> rw [heq]
    · exact hn
    · show (st1.fs.move (modeDest mode inRoot f) f).dirs.Nodup
      rw [FS.dirs_move]
      exact hn
    · exact hn
  · have hst : (compress_png env st f (modeDest mode inRoot f)
        defaultQualities).2.1 = st1 := by rw [hc]
    have hn := compress_png_nodupDirs env st f (modeDest mode inRoot f)
      defaultQualities h
    rw [hst] at hn
    rw [heq]
    exact hn
  · have hst : (compress_jpeg env st f (modeDest mode inRoot f)).2.1 = st1 := by
      rw [hc]
    have hn := compress_jpeg_nodupDirs env st f (modeDest mode inRoot f) h
    rw [hst] at hn
    rcases hp with heq | ⟨-, -, heq⟩ | ⟨-, -, heq⟩ <;> rw [heq]
    · exact hn
    · show (st1.fs.move (modeDest mode inRoot f) f).dirs.Nodup
      rw [FS.dirs_move]
      exact hn
    · exact hn
  · have hst : (compress_jpeg env st f (modeDest mode inRoot f)).2.1 = st1 := by
      rw [hc]
    have hn := compress_jpeg_nodupDirs env st f (modeDest mode inRoot f) h
    rw [hst] at hn
    rw [heq]
    exact hn

theorem processFile_touch_lookup (env : Env) (inRoot : FPath) (mode : Mode)
    (st : St) (f p : FPath)
    (h1 : ¬ env.mkdtemp st.tmps <+: p)
    (h2 : p ≠ modeDest mode inRoot f) (h3 : p ≠ f) :
    (processFile env inRoot mode st f).1.fs.lookup p = st.fs.lookup p := by
  rcases processFile_shape env inRoot mode st f with
    ⟨heq, -, -⟩ | ⟨b, st1, ev1, hc, hp⟩ | ⟨e, st1, ev1, hc, heq⟩ |
    ⟨b, st1, ev1, hc, -, hp⟩ | ⟨e, st1, ev1, hc, -, heq⟩
  · rw [heq]
  · have hst : (compress_png env st f (modeDest mode inRoot f)
        defaultQualities).2.1 = st1 := by rw [hc]
    have hfr := compress_png_fs_lookup_frame env st f (modeDest mode inRoot f)
      defaultQualities p h1 h2
    rw [hst] at hfr
    rcases hp with heq | ⟨-, -, heq⟩ | ⟨-, -, heq⟩ <;> rw [heq]
    · exact hfr
    · show (st1.fs.move (modeDest mode inRoot f) f).lookup p = _
      rw [FS.lookup_move_other _ _ _ _ h2 h3]
      exact hfr
    · exact hfr
  · have hst : (compress_png env st f (modeDest mode inRoot f)
        defaultQualities).2.1 = st1 := by rw [hc]
    have hfr := compress_png_fs_lookup_frame env st f (modeDest mode inRoot f)
      defaultQualities p h1 h2
    rw [hst] at hfr
    rw [heq]
    exact hfr
  · have hst : (compress_jpeg env st f (modeDest mode inRoot f)).2.1 = st1 := by
      rw [hc]
    have hfr := compress_jpeg_fs_lookup_frame env st f (modeDest mode inRoot f)
      p h2
    rw [hst] at hfr
    rcases hp with heq | ⟨-, -, heq⟩ | ⟨-, -, heq⟩ <;> rw [heq]
    · exact hfr
    · show (st1.fs.move (modeDest mode inRoot f) f).lookup p = _
      rw [FS.lookup_move_other _ _ _ _ h2 h3]
      exact hfr
    · exact hfr
  · have hst : (compress_jpeg env st f (modeDest mode inRoot f)).2.1 = st1 := by
      rw [hc]
    have hfr := compress_jpeg_fs_lookup_frame env st f (modeDest mode inRoot f)
      p h2
    rw [hst] at hfr
    rw [heq]
    exact hfr

theorem processFile_dirs_sub (env : Env) (inRoot : FPath) (mode : Mode)
    (st : St) (f q : FPath)
    (h : q ∈ (processFile env inRoot mode st f).1.fs.dirs) :
    q ∈ st.fs.dirs ∨ (q ≠ [] ∧ q <+: dirname (modeDest mode inRoot f)) := by
  rcases processFile_shape env inRoot mode st f with
    ⟨heq, -, -⟩ | ⟨b, st1, ev1, hc, hp⟩ | ⟨e, st1, ev1, hc, heq⟩ |
    ⟨b, st1, ev1, hc, -, hp⟩ | ⟨e, st1, ev1, hc, -, heq⟩
  · rw [heq] at h
    exact Or.inl h
  · have hst : (compress_png env st f (modeDest mode inRoot f)
        defaultQualities).2.1 = st1 := by rw [hc]
    rcases hp with heq | ⟨-, -, heq⟩ | ⟨-, -, heq⟩ <;> rw [heq] at h
    · rw [← hst] at h
      exact compress_png_dirs_sub env st f _ defaultQualities q h
    · have h2 : q ∈ (st1.fs.move (modeDest mode inRoot f) f).dirs := h
      rw [FS.dirs_move, ← hst] at h2
      exact compress_png_dirs_sub env st f _ defaultQualities q h2
    · rw [← hst] at h
      exact compress_png_dirs_sub env st f _ defaultQualities q h
  · have hst : (compress_png env st f (modeDest mode inRoot f)
        defaultQualities).2.1 = st1 := by rw [hc]
    rw [heq] at h
    rw [← hst] at h
    exact compress_png_dirs_sub env st f _ defaultQualities q h
  · have hst : (compress_jpeg env st f (modeDest mode inRoot f)).2.1 = st1 := by
      rw [hc]
    rcases hp with heq | ⟨-, -, heq⟩ | ⟨-, -, heq⟩ <;> rw [heq] at h
    · rw [← hst] at h
      exact (compress_jpeg_mem_dirs env st f _ q).mp h
    · have h2 : q ∈ (st1.fs.move (modeDest mode inRoot f) f).dirs := h
      rw [FS.dirs_move, ← hst] at h2
      exact (compress_jpeg_mem_dirs env st f _ q).mp h2
    · rw [← hst] at h
      exact (compress_jpeg_mem_dirs env st f _ q).mp h
  · have hst : (compress_jpeg env st f (modeDest mode inRoot f)).2.1 = st1 := by
      rw [hc]
    rw [heq] at h
    rw [← hst] at h
    exact (compress_jpeg_mem_dirs env st f _ q).mp h

theorem processFile_dirs_sup (env : Env) (inRoot : FPath) (mode : Mode)
    (st : St) (f q : FPath) (h : q ∈ st.fs.dirs)
    (hq : ¬ env.mkdtemp st.tmps <+: q) :
    q ∈ (processFile env inRoot mode st f).1.fs.dirs := by
  rcases processFile_shape env inRoot mode st f with
    ⟨heq, -, -⟩ | ⟨b, st1, ev1, hc, hp⟩ | ⟨e, st1, ev1, hc, heq⟩ |
    ⟨b, st1, ev1, hc, -, hp⟩ | ⟨e, st1, ev1, hc, -, heq⟩
  · rw [heq]
    exact h
  · have hst : (compress_png env st f (modeDest mode inRoot f)
        defaultQualities).2.1 = st1 := by rw [hc]
    have hm := compress_png_dirs_sup env st f (modeDest mode inRoot f)
      defaultQualities q h hq
    rw [hst] at hm
    rcases hp with heq | ⟨-, -, heq⟩ | ⟨-, -, heq⟩ <;> rw [heq]
    · exact hm
    · show q ∈ (st1.fs.move (modeDest mode inRoot f) f).dirs
      rw [FS.dirs_move]
      exact hm
    · exact hm
  · have hst : (compress_png env st f (modeDest mode inRoot f)
        defaultQualities).2.1 = st1 := by rw [hc]
    have hm := compress_png_dirs_sup env st f (modeDest mode inRoot f)
      defaultQualities q h hq
    rw [hst] at hm
    rw [heq]
    exact hm
  · have hst : (compress_jpeg env st f (modeDest mode inRoot f)).2.1 = st1 := by
      rw [hc]
    have hm := (compress_jpeg_mem_dirs env st f (modeDest mode inRoot f) q).mpr
      (Or.inl h)
    rw [hst] at hm
    rcases hp with heq | ⟨-, -, heq⟩ | ⟨-, -, heq⟩ <;> rw [heq]
    · exact hm
    · show q ∈ (st1.fs.move (modeDest mode inRoot f) f).dirs
      rw [FS.dirs_move]
      exact hm
    · exact hm
  · have hst : (compress_jpeg env st f (modeDest mode inRoot f)).2.1 = st1 := by
      rw [hc]
    have hm := (compress_jpeg_mem_dirs env st f (modeDest mode inRoot f) q).mpr
      (Or.inl h)
    rw [hst] at hm
    rw [heq]
    exact hm

theorem processFile_isSome (env : Env) (inRoot : FPath) (mode : Mode)
    (st : St) (f : FPath) (hsome : (st.fs.lookup f).isSome) (p : FPath)
    (h1 : ¬ env.mkdtemp st.tmps <+: p) (h2 : p ≠ modeDest mode inRoot f) :
    ((processFile env inRoot mode st f).1.fs.lookup p).isSome =
      (st.fs.lookup p).isSome := by
  by_cases h3 : p = f
  · subst h3
    rcases processFile_shape env inRoot mode st p with
      ⟨heq, -, -⟩ | ⟨b, st1, ev1, hc, hp⟩ | ⟨e, st1, ev1, hc, heq⟩ |
      ⟨b, st1, ev1, hc, -, hp⟩ | ⟨e, st1, ev1, hc, -, heq⟩
    · rw [heq]
    · have hst : (compress_png env st p (modeDest mode inRoot p)
          defaultQualities).2.1 = st1 := by rw [hc]
      have hfr := compress_png_fs_lookup_frame env st p (modeDest mode inRoot p)
        defaultQualities p h1 h2
      rw [hst] at hfr
      rcases hp with heq | ⟨-, -, heq⟩ | ⟨-, -, heq⟩ <;> rw [heq]
      · rw [hfr]
      · show ((st1.fs.move (modeDest mode inRoot p) p).lookup p).isSome = _
        unfold FS.move
        cases hdl : st1.fs.lookup (modeDest mode inRoot p) with
        | none =>
          rw [hfr]
        | some bb =>
          rw [FS.lookup_writeFile, if_pos rfl]
          rw [hsome]
          rfl
      · rw [hfr]
    · have hst : (compress_png env st p (modeDest mode inRoot p)
          defaultQualities).2.1 = st1 := by rw [hc]
      have hfr := compress_png_fs_lookup_frame env st p (modeDest mode inRoot p)
        defaultQualities p h1 h2
      rw [hst] at hfr
      rw [heq]
      rw [hfr]
    · have hst : (compress_jpeg env st p (modeDest mode inRoot p)).2.1 = st1 := by
        rw [hc]
      have hfr := compress_jpeg_fs_lookup_frame env st p (modeDest mode inRoot p)
        p h2
      rw [hst] at hfr
      rcases hp with heq | ⟨-, -, heq⟩ | ⟨-, -, heq⟩ <;> rw [heq]
      · rw [hfr]
      · show ((st1.fs.move (modeDest mode inRoot p) p).lookup p).isSome = _
        unfold FS.move
        cases hdl : st1.fs.lookup (modeDest mode inRoot p) with
        | none =>
          rw [hfr]
        | some bb =>
          rw [FS.lookup_writeFile, if_pos rfl]
          rw [hsome]
          rfl
      · rw [hfr]
    · have hst : (compress_jpeg env st p (modeDest mode inRoot p)).2.1 = st1 := by
        rw [hc]
      have hfr := compress_jpeg_fs_lookup_frame env st p (modeDest mode inRoot p)
        p h2
      rw [hst] at hfr
      rw [heq]
      rw [hfr]
  · rw [processFile_touch_lookup env inRoot mode st f p h1 h2 h3]

theorem processFile_f_keep (env : Env) (inRoot : FPath) (mode : Mode)
    (st : St) (f : FPath)
    (hfd : f ≠ modeDest mode inRoot f) (hfm : ¬ env.mkdtemp st.tmps <+: f)
    (hnot : Ev.pngResult f true ∉ (processFile env inRoot mode st f).2.1 ∧
      Ev.jpegResult f true ∉ (processFile env inRoot mode st f).2.1) :
    (processFile env inRoot mode st f).1.fs.lookup f = st.fs.lookup f := by
  rcases processFile_shape env inRoot mode st f with
    ⟨heq, -, -⟩ | ⟨b, st1, ev1, hc, hp⟩ | ⟨e, st1, ev1, hc, heq⟩ |
    ⟨b, st1, ev1, hc, -, hp⟩ | ⟨e, st1, ev1, hc, -, heq⟩
  · rw [heq]
  · have hst : (compress_png env st f (modeDest mode inRoot f)
        defaultQualities).2.1 = st1 := by rw [hc]
    have hfr := compress_png_fs_lookup_frame env st f (modeDest mode inRoot f)
      defaultQualities f hfm hfd
    rw [hst] at hfr
    rcases hp with heq | ⟨hb, -, heq⟩ | ⟨hb, -, heq⟩
    · cases b with
      | false =>
        rw [heq]
        exact hfr
      | true =>
        exfalso
        apply hnot.1
        rw [heq]
        exact List.mem_append_right _ (List.mem_singleton.mpr rfl)
    · exfalso
      apply hnot.1
      rw [heq]
      exact List.mem_append_right _ (List.mem_singleton.mpr rfl)
    · exfalso
      apply hnot.1
      rw [heq]
      exact List.mem_append_right _ (List.mem_singleton.mpr rfl)
  · have hst : (compress_png env st f (modeDest mode inRoot f)
        defaultQualities).2.1 = st1 := by rw [hc]
    have hfr := compress_png_fs_lookup_frame env st f (modeDest mode inRoot f)
      defaultQualities f hfm hfd
    rw [hst] at hfr
    rw [heq]
    exact hfr
  · have hst : (compress_jpeg env st f (modeDest mode inRoot f)).2.1 = st1 := by
      rw [hc]
    have hfr := compress_jpeg_fs_lookup_frame env st f (modeDest mode inRoot f)
      f hfd
    rw [hst] at hfr
    rcases hp with heq | ⟨hb, -, heq⟩ | ⟨hb, -, heq⟩
    · cases b with
      | false =>
        rw [heq]
        exact hfr
      | true =>
        exfalso
        apply hnot.2
        rw [heq]
        exact List.mem_append_right _ (List.mem_singleton.mpr rfl)
    · exfalso
      apply hnot.2
      rw [heq]
      exact List.mem_append_right _ (List.mem_singleton.mpr rfl)
    · exfalso
      apply hnot.2
      rw [heq]
      exact List.mem_append_right _ (List.mem_singleton.mpr rfl)
  · have hst : (compress_jpeg env st f (modeDest mode inRoot f)).2.1 = st1 := by
      rw [hc]
    have hfr := compress_jpeg_fs_lookup_frame env st f (modeDest mode inRoot f)
      f hfd
    rw [hst] at hfr
    rw [heq]
    exact hfr

theorem pngFinish_true_lookup (st : St) (input output tempOut : FPath)
    (sq : Option String)
    (h : (pngFinish st input output tempOut sq).1 = Except.ok true) :
    ((pngFinish st input output tempOut sq).2.1.fs.lookup output).isSome =
      true := by
  by_cases hex : st.fs.pathExists tempOut
  · simp only [pngFinish, hex, Bool.not_true, Bool.false_eq_true,
      if_false] at h ⊢
    cases hin : ((if (dirname output).isEmpty then st.fs
        else st.fs.makedirs (dirname output)).move tempOut output).lookup
        input with
    | none =>
      simp only [hin] at h
      exact absurd h (by simp)
    | some ib =>
      simp only [hin] at h ⊢
      cases hout : ((if (dirname output).isEmpty then st.fs
          else st.fs.makedirs (dirname output)).move tempOut output).lookup
          output with
      | none =>
        simp only [hout] at h
        exact absurd h (by simp)
      | some ob =>
        simp only [hout] at h ⊢
        by_cases hz : ib.length = 0
        · rw [if_pos hz] at h
          exact absurd h (by simp)
        · rw [if_neg hz]
          simp only [hout]
          rfl
  · simp [pngFinish, hex] at h

theorem pngBody_true_lookup (env : Env) (st : St)
    (input output tempOut : FPath) (qs : List String)
    (h : (pngBody env st input output tempOut qs).1 = Except.ok true) :
    ((pngBody env st input output tempOut qs).2.1.fs.lookup output).isSome =
      true := by
  rcases hLr : pngLoop env input tempOut st none qs with ⟨stL, ev, r⟩
  cases r with
  | raisedOut e =>
    rw [show pngBody env st input output tempOut qs = (.error e, stL, ev) by
      simp [pngBody, hLr]] at h
    simp at h
  | broke q =>
    have hBe : pngBody env st input output tempOut qs =
        ((pngFinish stL input output tempOut (some q)).1,
         (pngFinish stL input output tempOut (some q)).2.1,
         ev ++ (pngFinish stL input output tempOut (some q)).2.2) := by
      simp [pngBody, hLr]
    rw [hBe] at h ⊢
    exact pngFinish_true_lookup stL input output tempOut (some q) h
  | exhausted le =>
    cases le with
    | none =>
      rw [show pngBody env st input output tempOut qs =
          (.error (.typeError "exceptions must derive from BaseException"),
            stL, ev) by simp [pngBody, hLr]] at h
      simp at h
    | some e =>
      cases e with
      | calledProcessError code so se =>
        by_cases hcode : code = 99
        · subst hcode
          have hBe : pngBody env st input output tempOut qs =
              ((pngFinish { stL with fs := stL.fs.copyFile input tempOut }
                  input output tempOut none).1,
               (pngFinish { stL with fs := stL.fs.copyFile input tempOut }
                  input output tempOut none).2.1,
               ev ++ [Ev.logPassThrough] ++
                 (pngFinish { stL with fs := stL.fs.copyFile input tempOut }
                   input output tempOut none).2.2) := by
            simp [pngBody, hLr]
          rw [hBe] at h ⊢
          exact pngFinish_true_lookup _ input output tempOut none h
        · rw [show pngBody env st input output tempOut qs =
              (.error (.calledProcessError code so se), stL, ev) by
              simp [pngBody, hLr, hcode]] at h
          simp at h
      | osError m =>
        rw [show pngBody env st input output tempOut qs =
            (.error (.osError m), stL, ev) by simp [pngBody, hLr]] at h
        simp at h
      | typeError m =>
        rw [show pngBody env st input output tempOut qs =
            (.error (.typeError m), stL, ev) by simp [pngBody, hLr]] at h
        simp at h
      | zeroDivisionError =>
        rw [show pngBody env st input output tempOut qs =
            (.error .zeroDivisionError, stL, ev) by simp [pngBody, hLr]] at h
        simp at h

theorem compress_png_true_lookup (env : Env) (st : St) (input output : FPath)
    (qs : List String) (htout : ¬ env.mkdtemp st.tmps <+: output)
    (h : (compress_png env st input output qs).1 = Except.ok true) :
    ((compress_png env st input output qs).2.1.fs.lookup output).isSome =
      true := by
  by_cases c1 : st.fs.pathExists input
  · by_cases c2 : isPng input
    · by_cases c3 : env.readable input
      · rw [compress_png_eq env st input output qs c1 c2 c3] at h ⊢
        dsimp only at h ⊢
        have hBv := pngBody_true_lookup env (pngStage env st) input output
          (pngTempOut env st output) qs
        cases hres : (pngBody env (pngStage env st) input output
            (pngTempOut env st output) qs).1 with
        | ok b =>
          simp only [hres] at h ⊢
          cases b with
          | false => simp at h
          | true =>
            rw [FS.lookup_rmtree, if_neg htout]
            exact hBv hres
        | error e =>
          exfalso
          cases e <;> simp [hres] at h
      · rw [compress_png_notReadable env st input output qs c1 c2
          (by simpa using c3)] at h
        simp at h
    · rw [compress_png_notPng env st input output qs c1
        (by simpa using c2)] at h
      simp at h
  · rw [compress_png_inputMissing env st input output qs
      (by simpa using c1)] at h
    simp at h

theorem compress_jpeg_true_lookup (env : Env) (st : St)
    (input output : FPath)
    (hcw : ∀ so, env.cjpeg st.jpegSpawns ≠ RunRet.completed so none)
    (h : (compress_jpeg env st input output).1 = Except.ok true) :
    ((compress_jpeg env st input output).2.1.fs.lookup output).isSome =
      true := by
  by_cases hemp : (dirname output).isEmpty
  · simp [compress_jpeg, hemp] at h
  · cases henv : env.cjpeg st.jpegSpawns with
    | completed so w =>
      cases w with
      | none => exact absurd henv (hcw so)
      | some b =>
        simp [compress_jpeg, hemp, henv, FS.lookup_writeFile]
    | failed code so se w =>
      cases w <;> simp [compress_jpeg, hemp, henv] at h
    | raised e =>
      simp [compress_jpeg, hemp, henv] at h

theorem processFile_err_some (env : Env) (inRoot : FPath) (mode : Mode)
    (st : St) (f : FPath) (e : PyErr)
    (h : (processFile env inRoot mode st f).2.2 = some e) :
    (pngName (basename f) = false ∧
      ((dirname (modeDest mode inRoot f)).isEmpty = true ∨
        env.cjpeg st.jpegSpawns = .raised e)) ∨
    (e = .osError "FileNotFoundError" ∧
      (((compress_png env st f (modeDest mode inRoot f) defaultQualities).1 =
          Except.ok true ∧
        (compress_png env st f (modeDest mode inRoot f)
          defaultQualities).2.1.fs.lookup (modeDest mode inRoot f) = none) ∨
      ((compress_jpeg env st f (modeDest mode inRoot f)).1 = Except.ok true ∧
        (compress_jpeg env st f
          (modeDest mode inRoot f)).2.1.fs.lookup
          (modeDest mode inRoot f) = none))) := by
  rcases processFile_shape env inRoot mode st f with
    ⟨heq, -, -⟩ | ⟨b, st1, ev1, hc, hp⟩ | ⟨e2, st1, ev1, hc, heq⟩ |
    ⟨b, st1, ev1, hc, hpng, hp⟩ | ⟨e2, st1, ev1, hc, hpng, heq⟩
  · rw [heq] at h
    simp at h
  · rcases hp with heq | ⟨-, -, heq⟩ | ⟨hb, hlk, heq⟩
    · rw [heq] at h
      simp at h
    · rw [heq] at h
      simp at h
    · subst hb
      rw [heq] at h
      have he : e = .osError "FileNotFoundError" := by
        simpa using h.symm
      refine Or.inr ⟨he, Or.inl ⟨?_, ?_⟩⟩
      · rw [hc]
      · have hs1 : (compress_png env st f (modeDest mode inRoot f)
            defaultQualities).2.1 = st1 := by rw [hc]
        rw [hs1]
        exact hlk
  · exfalso
    obtain ⟨b, hb⟩ := compress_png_total env st f (modeDest mode inRoot f)
      defaultQualities
    rw [hc] at hb
    simp at hb
  · rcases hp with heq | ⟨-, -, heq⟩ | ⟨hb, hlk, heq⟩
    · rw [heq] at h
      simp at h
    · rw [heq] at h
      simp at h
    · subst hb
      rw [heq] at h
      have he : e = .osError "FileNotFoundError" := by
        simpa using h.symm
      refine Or.inr ⟨he, Or.inr ⟨?_, ?_⟩⟩
      · rw [hc]
      · have hs1 : (compress_jpeg env st f (modeDest mode inRoot f)).2.1 =
            st1 := by rw [hc]
        rw [hs1]
        exact hlk
  · rw [heq] at h
    have he2 : e2 = e := by
      simpa using h
    subst he2
    have hres : (compress_jpeg env st f (modeDest mode inRoot f)).1 =
        Except.error e2 := by rw [hc]
    rcases (compress_jpeg_error_iff env st f (modeDest mode inRoot f) e2).mp hres
      with ⟨h1, -⟩ | ⟨-, h2⟩
    · exact Or.inl ⟨hpng, Or.inl h1⟩
    · exact Or.inl ⟨hpng, Or.inr h2⟩

theorem processFile_err_none (env : Env) (inRoot : FPath) (mode : Mode)
    (st : St) (f : FPath)
    (hcj : ∀ n e2, env.cjpeg n ≠ RunRet.raised e2)
    (hcw : ∀ n so, env.cjpeg n ≠ RunRet.completed so none)
    (hdir : (dirname (modeDest mode inRoot f)).isEmpty = false)
    (hsep : ¬ env.mkdtemp st.tmps <+: modeDest mode inRoot f) :
    (processFile env inRoot mode st f).2.2 = none := by
  cases herr : (processFile env inRoot mode st f).2.2 with
  | none => rfl
  | some e =>
    rcases processFile_err_some env inRoot mode st f e herr with
      ⟨-, h1 | h2⟩ | ⟨-, ⟨hok, hnone⟩ | ⟨hok, hnone⟩⟩
    · rw [hdir] at h1
      exact absurd h1 (by simp)
    · exact absurd h2 (hcj _ _)
    · have := compress_png_true_lookup env st f (modeDest mode inRoot f)
        defaultQualities hsep hok
      rw [hnone] at this
      simp at this
    · have := compress_jpeg_true_lookup env st f (modeDest mode inRoot f)
        (fun so => hcw st.jpegSpawns so) hok
      rw [hnone] at this
      simp at this

/-! ### Freshness of future staging areas is preserved -/

theorem compress_png_lookup_of_tmps_eq (env : Env) (st : St)
    (input output : FPath) (qs : List String)
    (h : (compress_png env st input output qs).2.1.tmps = st.tmps) :
    ∀ p, (compress_png env st input output qs).2.1.fs.lookup p =
      st.fs.lookup p := by
  intro p
  rcases compress_png_state env st input output qs with hs | hs
  · rw [hs]
  · exfalso
    rw [hs] at h
    have h2 : (pngBody env (pngStage env st) input output
        (pngTempOut env st output) qs).2.1.tmps = st.tmps := h
    rw [pngBody_tmps] at h2
    have : (pngStage env st).tmps = st.tmps + 1 := rfl
    omega

theorem processFile_lookup_of_tmps_eq (env : Env) (inRoot : FPath)
    (mode : Mode) (st : St) (f : FPath)
    (h : (processFile env inRoot mode st f).1.tmps = st.tmps) (p : FPath)
    (h2 : p ≠ modeDest mode inRoot f) (h3 : p ≠ f) :
    (processFile env inRoot mode st f).1.fs.lookup p = st.fs.lookup p := by
  rcases processFile_shape env inRoot mode st f with
    ⟨heq, -, -⟩ | ⟨b, st1, ev1, hc, hp⟩ | ⟨e, st1, ev1, hc, heq⟩ |
    ⟨b, st1, ev1, hc, -, hp⟩ | ⟨e, st1, ev1, hc, -, heq⟩
  · rw [heq]
  · have hst : (compress_png env st f (modeDest mode inRoot f)
        defaultQualities).2.1 = st1 := by rw [hc]
    rcases hp with heq | ⟨-, -, heq⟩ | ⟨-, -, heq⟩
    · rw [heq] at h ⊢
      have ht : st1.tmps = st.tmps := h
      rw [← hst] at ht
      have := compress_png_lookup_of_tmps_eq env st f (modeDest mode inRoot f)
        defaultQualities ht p
      rw [hst] at this
      exact this
    · rw [heq] at h ⊢
      have ht : st1.tmps = st.tmps := h
      rw [← hst] at ht
      have hlk := compress_png_lookup_of_tmps_eq env st f (modeDest mode inRoot f)
        defaultQualities ht p
      rw [hst] at hlk
      show (st1.fs.move (modeDest mode inRoot f) f).lookup p = _
      rw [FS.lookup_move_other _ _ _ _ h2 h3]
      exact hlk
    · rw [heq] at h ⊢
      have ht : st1.tmps = st.tmps := h
      rw [← hst] at ht
      have := compress_png_lookup_of_tmps_eq env st f (modeDest mode inRoot f)
        defaultQualities ht p
      rw [hst] at this
      exact this
  · have hst : (compress_png env st f (modeDest mode inRoot f)
        defaultQualities).2.1 = st1 := by rw [hc]
    rw [heq] at h ⊢
    have ht : st1.tmps = st.tmps := h
    rw [← hst] at ht
    have := compress_png_lookup_of_tmps_eq env st f (modeDest mode inRoot f)
      defaultQualities ht p
    rw [hst] at this
    exact this
  · have hst : (compress_jpeg env st f (modeDest mode inRoot f)).2.1 = st1 := by
      rw [hc]
    have hfr := compress_jpeg_fs_lookup_frame env st f (modeDest mode inRoot f)
      p h2
    rw [hst] at hfr
    rcases hp with heq | ⟨-, -, heq⟩ | ⟨-, -, heq⟩ <;> rw [heq]
    · exact hfr
    · show (st1.fs.move (modeDest mode inRoot f) f).lookup p = _
      rw [FS.lookup_move_other _ _ _ _ h2 h3]
      exact hfr
    · exact hfr
  · have hst : (compress_jpeg env st f (modeDest mode inRoot f)).2.1 = st1 := by
      rw [hc]
    have hfr := compress_jpeg_fs_lookup_frame env st f (modeDest mode inRoot f)
      p h2
    rw [hst] at hfr
    rw [heq]
    exact hfr

theorem prefix_trans_absurd (a b p : FPath)
    (ha : a <+: p) (hb : b <+: p)
    (h1 : ¬ a <+: b) (h2 : ¬ b <+: a) : False := by
  rcases List.prefix_or_prefix_of_prefix ha hb with h | h
  · exact h1 h
  · exact h2 h

theorem processFile_fresh (env : Env) (inRoot : FPath) (mode : Mode)
    (st : St) (f : FPath)
    (hF : FreshTemps env st)
    (hmm : ∀ m n, m ≠ n → ¬ env.mkdtemp m <+: env.mkdtemp n)
    (hdest : ∀ m, st.tmps ≤ m → ¬ env.mkdtemp m <+: modeDest mode inRoot f)
    (hf : ∀ m, st.tmps ≤ m → ¬ env.mkdtemp m <+: f) :
    FreshTemps env (processFile env inRoot mode st f).1 := by
  intro m hm p hp
  have htg : st.tmps ≤ (processFile env inRoot mode st f).1.tmps := by
    rcases processFile_tmps env inRoot mode st f with h | h <;> omega
  have hm0 : st.tmps ≤ m := le_trans htg hm
  have hpd : p ≠ modeDest mode inRoot f := by
    intro hc
    exact hdest m hm0 (hc ▸ hp)
  have hpf : p ≠ f := by
    intro hc
    exact hf m hm0 (hc ▸ hp)
  constructor
  · rcases processFile_tmps env inRoot mode st f with ht | ht
    · rw [processFile_lookup_of_tmps_eq env inRoot mode st f ht p hpd hpf]
      exact (hF m hm0 p hp).1
    · have hm1 : m ≠ st.tmps := by omega
      have hnp : ¬ env.mkdtemp st.tmps <+: p := by
        intro hc
        exact prefix_trans_absurd _ _ _ hp hc (hmm m st.tmps hm1)
          (hmm st.tmps m (Ne.symm hm1))
      rw [processFile_touch_lookup env inRoot mode st f p hnp hpd hpf]
      exact (hF m hm0 p hp).1
  · intro hc
    rcases processFile_dirs_sub env inRoot mode st f p hc with h | ⟨-, h⟩
    · exact (hF m hm0 p hp).2 h
    · have : env.mkdtemp m <+: modeDest mode inRoot f :=
        hp.trans (prefix_of_prefix_dropLast _ _ h)
      exact hdest m hm0 this

/-! ### Properties of the per-directory file loop -/

theorem processFiles_visitedDirs (env : Env) (inRoot : FPath) (mode : Mode) :
    ∀ (fls : List FPath) (st : St),
    visitedDirs (processFiles env inRoot mode st fls).2.1 = [] := by
  intro fls
  induction fls with
  | nil => intro st; rfl
  | cons f fls ih =>
    intro st
    cases herr : (processFile env inRoot mode st f).2.2 with
    | none =>
      simp only [processFiles, herr]
      rw [visitedDirs_append, processFile_visitedDirs, ih]
      rfl
    | some e =>
      simp only [processFiles, herr]
      rw [processFile_visitedDirs]

theorem processFiles_resultPaths_sublist (env : Env) (inRoot : FPath)
    (mode : Mode) : ∀ (fls : List FPath) (st : St),
    (resultPaths (processFiles env inRoot mode st fls).2.1).Sublist fls := by
  intro fls
  induction fls with
  | nil => intro st; simp [processFiles, resultPaths]
  | cons f fls ih =>
    intro st
    cases herr : (processFile env inRoot mode st f).2.2 with
    | none =>
      simp only [processFiles, herr]
      rw [resultPaths_append]
      rcases processFile_resultPaths env inRoot mode st f with h | h <;> rw [h]
      · exact List.Sublist.cons f (ih _)
      · exact List.Sublist.cons₂ f (ih _)
    | some e =>
      simp only [processFiles, herr]
      rcases processFile_resultPaths env inRoot mode st f with h | h <;> rw [h]
      · exact List.nil_sublist _
      · exact List.Sublist.cons₂ f (List.nil_sublist _)

theorem processFiles_nodupKeys (env : Env) (inRoot : FPath) (mode : Mode) :
    ∀ (fls : List FPath) (st : St), st.fs.NodupKeys →
    (processFiles env inRoot mode st fls).1.fs.NodupKeys := by
  intro fls
  induction fls with
  | nil => intro st h; exact h
  | cons f fls ih =>
    intro st h
    cases herr : (processFile env inRoot mode st f).2.2 with
    | none =>
      simp only [processFiles, herr]
      exact ih _ (processFile_nodupKeys env inRoot mode st f h)
    | some e =>
      simp only [processFiles, herr]
      exact processFile_nodupKeys env inRoot mode st f h

theorem processFiles_nodupDirs (env : Env) (inRoot : FPath) (mode : Mode) :
    ∀ (fls : List FPath) (st : St), st.fs.dirs.Nodup →
    (processFiles env inRoot mode st fls).1.fs.dirs.Nodup := by
  intro fls
  induction fls with
  | nil => intro st h; exact h
  | cons f fls ih =>
    intro st h
    cases herr : (processFile env inRoot mode st f).2.2 with
    | none =>
      simp only [processFiles, herr]
      exact ih _ (processFile_nodupDirs env inRoot mode st f h)
    | some e =>
      simp only [processFiles, herr]
      exact processFile_nodupDirs env inRoot mode st f h

theorem processFiles_tmps_le (env : Env) (inRoot : FPath) (mode : Mode) :
    ∀ (fls : List FPath) (st : St),
    st.tmps ≤ (processFiles env inRoot mode st fls).1.tmps := by
  intro fls
  induction fls with
  | nil => intro st; exact le_refl _
  | cons f fls ih =>
    intro st
    cases herr : (processFile env inRoot mode st f).2.2 with
    | none =>
      simp only [processFiles, herr]
      exact le_trans (processFile_tmps_le env inRoot mode st f) (ih _)
    | some e =>
      simp only [processFiles, herr]
      exact processFile_tmps_le env inRoot mode st f

theorem processFiles_err_none (env : Env) (inRoot : FPath) (mode : Mode)
    (k : Nat)
    (hcj : ∀ n e2, env.cjpeg n ≠ RunRet.raised e2)
    (hcw : ∀ n so, env.cjpeg n ≠ RunRet.completed so none)
    (hroot : modeRoot mode ≠ [])
    (hfree : ∀ m, k ≤ m → ¬ env.mkdtemp m <+: modeRoot mode ∧
      ¬ modeRoot mode <+: env.mkdtemp m) :
    ∀ (fls : List FPath) (st : St), k ≤ st.tmps →
    (∀ f ∈ fls, inRoot.length < f.length) →
    (processFiles env inRoot mode st fls).2.2 = none := by
  intro fls
  induction fls with
  | nil => intro st hk hlen; rfl
  | cons f fls ih =>
    intro st hk hlen
    have hdir : (dirname (modeDest mode inRoot f)).isEmpty = false := by
      have hlf := hlen f (List.mem_cons_self f fls)
      have h2 : 2 ≤ (modeDest mode inRoot f).length := by
        cases mode with
        | copy outRoot =>
          have : outRoot ≠ [] := hroot
          have h3 : 1 ≤ outRoot.length := List.length_pos.mpr this
          simp only [modeDest, List.length_append, List.length_drop]
          omega
        | replace tempRoot =>
          have : tempRoot ≠ [] := hroot
          have h3 : 1 ≤ tempRoot.length := List.length_pos.mpr this
          simp only [modeDest, List.length_append, List.length_drop]
          omega
      have h4 : 1 ≤ (dirname (modeDest mode inRoot f)).length := by
        simp only [dirname, List.length_dropLast]
        omega
      cases hh : dirname (modeDest mode inRoot f) with
      | nil => rw [hh] at h4; simp at h4
      | cons a t => rfl
    have hrootpre : modeRoot mode <+: modeDest mode inRoot f := by
      cases mode <;> exact List.prefix_append _ _
    have hsep : ¬ env.mkdtemp st.tmps <+: modeDest mode inRoot f := by
      intro hc
      exact prefix_trans_absurd _ _ _ hc hrootpre
        (hfree st.tmps hk).1 (hfree st.tmps hk).2
    have herr := processFile_err_none env inRoot mode st f hcj hcw hdir hsep
    simp only [processFiles, herr]
    exact ih _ (le_trans hk (processFile_tmps_le env inRoot mode st f))
      (fun f2 hf2 => hlen f2 (List.mem_cons_of_mem f hf2))

theorem processFiles_unchanged (env : Env) (inRoot tempRoot : FPath)
    (hin_mk : ∀ m, ¬ inRoot <+: env.mkdtemp m)
    (hmk_in : ∀ m, ¬ env.mkdtemp m <+: inRoot)
    (hir : ¬ inRoot <+: tempRoot) (hri : ¬ tempRoot <+: inRoot) :
    ∀ (fls : List FPath) (st : St) (p : FPath), inRoot <+: p →
    (Ev.pngResult p true ∉
        (processFiles env inRoot (.replace tempRoot) st fls).2.1 ∧
      Ev.jpegResult p true ∉
        (processFiles env inRoot (.replace tempRoot) st fls).2.1) →
    (processFiles env inRoot (.replace tempRoot) st fls).1.fs.lookup p =
      st.fs.lookup p := by
  intro fls
  induction fls with
  | nil => intro st p hp hnot; rfl
  | cons f fls ih =>
    intro st p hp hnot
    have hpm : ¬ env.mkdtemp st.tmps <+: p := by
      intro hc
      exact prefix_trans_absurd _ _ _ hp hc (hin_mk st.tmps) (hmk_in st.tmps)
    have hpd : p ≠ modeDest (.replace tempRoot) inRoot f := by
      intro hc
      have htd : tempRoot <+: modeDest (.replace tempRoot) inRoot f :=
        List.prefix_append _ _
      exact prefix_trans_absurd _ _ _ hp (hc ▸ htd) hir hri
    cases herr : (processFile env inRoot (.replace tempRoot) st f).2.2 with
    | none =>
      simp only [processFiles, herr] at hnot ⊢
      rw [List.mem_append, List.mem_append] at hnot
      push_neg at hnot
      have hnot1 : Ev.pngResult p true ∉
          (processFile env inRoot (.replace tempRoot) st f).2.1 ∧
          Ev.jpegResult p true ∉
          (processFile env inRoot (.replace tempRoot) st f).2.1 :=
        ⟨hnot.1.1, hnot.2.1⟩
      have hnot2 : Ev.pngResult p true ∉
          (processFiles env inRoot (.replace tempRoot)
            (processFile env inRoot (.replace tempRoot) st f).1 fls).2.1 ∧
          Ev.jpegResult p true ∉
          (processFiles env inRoot (.replace tempRoot)
            (processFile env inRoot (.replace tempRoot) st f).1 fls).2.1 :=
        ⟨hnot.1.2, hnot.2.2⟩
      rw [ih _ p hp hnot2]
      by_cases hpf : p = f
      · subst hpf
        exact processFile_f_keep env inRoot (.replace tempRoot) st p hpd hpm hnot1
      · exact processFile_touch_lookup env inRoot (.replace tempRoot) st f p
          hpm hpd hpf
    | some e =>
      simp only [processFiles, herr] at hnot ⊢
      by_cases hpf : p = f
      · subst hpf
        exact processFile_f_keep env inRoot (.replace tempRoot) st p hpd hpm hnot
      · exact processFile_touch_lookup env inRoot (.replace tempRoot) st f p
          hpm hpd hpf

/-! ### Properties of the fused walk -/

theorem visitedDirs_cons_enter (d : FPath) (l : List Ev) :
    visitedDirs (Ev.enterDir d :: l) = d :: visitedDirs l := by
  simp [visitedDirs]

theorem resultPaths_cons_enter (d : FPath) (l : List Ev) :
    resultPaths (Ev.enterDir d :: l) = resultPaths l := by
  simp [resultPaths]

theorem walkGo_err_none (env : Env) (inRoot : FPath) (mode : Mode) (k : Nat)
    (hcj : ∀ n e2, env.cjpeg n ≠ RunRet.raised e2)
    (hcw : ∀ n so, env.cjpeg n ≠ RunRet.completed so none)
    (hroot : modeRoot mode ≠ [])
    (hfree : ∀ m, k ≤ m → ¬ env.mkdtemp m <+: modeRoot mode ∧
      ¬ modeRoot mode <+: env.mkdtemp m) :
    ∀ (fuel : Nat) (st : St) (pending : List FPath), k ≤ st.tmps →
    (∀ q ∈ pending, inRoot <+: q) →
    (walkGo env inRoot mode fuel st pending).2.2 = none := by
  intro fuel
  induction fuel with
  | zero => intro st pending hk h; rfl
  | succ fuel ih =>
    intro st pending hk hpre
    cases pending with
    | nil => rfl
    | cons d rest =>
      have hd : inRoot <+: d := hpre d (List.mem_cons_self d rest)
      have hfls : ∀ f ∈ st.fs.filesIn d, inRoot.length < f.length := by
        intro f hf
        rcases (FS.mem_filesIn _ _ _).mp hf with ⟨-, hlen, -⟩
        have := hd.length_le
        omega
      have herr1 := processFiles_err_none env inRoot mode k hcj hcw hroot
        hfree _ st hk hfls
      simp only [walkGo, herr1]
      apply ih _ _ (le_trans hk (processFiles_tmps_le env inRoot mode _ st))
      intro q hq
      rcases List.mem_append.mp hq with hq | hq
      · rcases (FS.mem_subdirsIn _ _ _).mp hq with ⟨-, -, hpref⟩
        exact hd.trans hpref
      · exact hpre q (List.mem_cons_of_mem d hq)

theorem walkGo_unchanged (env : Env) (inRoot tempRoot : FPath)
    (hin_mk : ∀ m, ¬ inRoot <+: env.mkdtemp m)
    (hmk_in : ∀ m, ¬ env.mkdtemp m <+: inRoot)
    (hir : ¬ inRoot <+: tempRoot) (hri : ¬ tempRoot <+: inRoot) :
    ∀ (fuel : Nat) (st : St) (pending : List FPath),
    (∀ q ∈ pending, inRoot <+: q) →
    ∀ p, inRoot <+: p →
    (Ev.pngResult p true ∉
        (walkGo env inRoot (.replace tempRoot) fuel st pending).2.1 ∧
      Ev.jpegResult p true ∉
        (walkGo env inRoot (.replace tempRoot) fuel st pending).2.1) →
    (walkGo env inRoot (.replace tempRoot) fuel st pending).1.fs.lookup p =
      st.fs.lookup p := by
  intro fuel
  induction fuel with
  | zero => intro st pending h p hp hnot; rfl
  | succ fuel ih =>
    intro st pending hpre p hp hnot
    cases pending with
    | nil => rfl
    | cons d rest =>
      have hd : inRoot <+: d := hpre d (List.mem_cons_self d rest)
      cases herr : (processFiles env inRoot (.replace tempRoot) st
          (st.fs.filesIn d)).2.2 with
      | some e =>
        simp only [walkGo, herr] at hnot ⊢
        rw [List.mem_cons, List.mem_cons] at hnot
        push_neg at hnot
        exact processFiles_unchanged env inRoot tempRoot hin_mk hmk_in hir hri
          _ st p hp ⟨hnot.1.2, hnot.2.2⟩
      | none =>
        simp only [walkGo, herr] at hnot ⊢
        rw [List.mem_cons, List.mem_append] at hnot
        rw [List.mem_cons, List.mem_append] at hnot
        push_neg at hnot
        have hrec : (walkGo env inRoot (.replace tempRoot) fuel
            (processFiles env inRoot (.replace tempRoot) st
              (st.fs.filesIn d)).1
            (st.fs.subdirsIn d ++ rest)).1.fs.lookup p =
            (processFiles env inRoot (.replace tempRoot) st
              (st.fs.filesIn d)).1.fs.lookup p := by
          apply ih
          · intro q hq
            rcases List.mem_append.mp hq with hq | hq
            · rcases (FS.mem_subdirsIn _ _ _).mp hq with ⟨-, -, hpref⟩
              exact hd.trans hpref
            · exact hpre q (List.mem_cons_of_mem d hq)
          · exact hp
          · exact ⟨hnot.1.2.2, hnot.2.2.2⟩
        rw [hrec]
        exact processFiles_unchanged env inRoot tempRoot hin_mk hmk_in hir hri
          _ st p hp ⟨hnot.1.2.1, hnot.2.2.1⟩

theorem walkGo_visited (env : Env) (inRoot : FPath) (mode : Mode) :
    ∀ (fuel : Nat) (st : St) (pending visited : List FPath),
    (visited ++ pending).Nodup →
    (∀ q ∈ visited ++ pending, q = inRoot ∨ q.dropLast ∈ visited) →
    (∀ q ∈ visited ++ pending, inRoot <+: q) →
    st.fs.dirs.Nodup → st.fs.NodupKeys →
    (visited ++ visitedDirs (walkGo env inRoot mode fuel st pending).2.1).Nodup ∧
    (∀ p ∈ resultPaths (walkGo env inRoot mode fuel st pending).2.1,
      p.dropLast ∈ visitedDirs (walkGo env inRoot mode fuel st pending).2.1) ∧
    (resultPaths (walkGo env inRoot mode fuel st pending).2.1).Nodup := by
  intro fuel
  induction fuel with
  | zero =>
    intro st pending visited hQ1 hQ2 hQ3 hND hNK
    have h0 : (walkGo env inRoot mode 0 st pending).2.1 = [] := rfl
    rw [h0]
    refine ⟨by simpa [visitedDirs] using (List.nodup_append.mp hQ1).1, ?_, ?_⟩
    · intro p hp
      simp [resultPaths] at hp
    · simp [resultPaths]
  | succ fuel ih =>
    intro st pending visited hQ1 hQ2 hQ3 hND hNK
    cases pending with
    | nil =>
      have h0 : (walkGo env inRoot mode (fuel + 1) st []).2.1 = [] := rfl
      rw [h0]
      refine ⟨by simpa [visitedDirs] using (List.nodup_append.mp hQ1).1, ?_, ?_⟩
      · intro p hp
        simp [resultPaths] at hp
      · simp [resultPaths]
    | cons d rest =>
      have hvis_nodup : visited.Nodup := (List.nodup_append.mp hQ1).1
      have hpend_nodup : (d :: rest).Nodup := (List.nodup_append.mp hQ1).2.1
      have hdisj : visited.Disjoint (d :: rest) := (List.nodup_append.mp hQ1).2.2
      have hdnv : d ∉ visited := fun hc => hdisj hc (List.mem_cons_self d rest)
      have hdnr : d ∉ rest := (List.nodup_cons.mp hpend_nodup).1
      have hrest_nodup : rest.Nodup := (List.nodup_cons.mp hpend_nodup).2
      have hind : inRoot <+: d :=
        hQ3 d (List.mem_append_right _ (List.mem_cons_self d rest))
      have hlen_in_d : inRoot.length ≤ d.length := hind.length_le
      have hfls_nodup : (st.fs.filesIn d).Nodup := FS.nodup_filesIn st.fs d hNK
      have hsubs_nodup : (st.fs.subdirsIn d).Nodup :=
        FS.nodup_subdirsIn st.fs d hND
      have hsub_len : ∀ s ∈ st.fs.subdirsIn d, s.length = d.length + 1 :=
        fun s hs => ((FS.mem_subdirsIn _ _ _).mp hs).2.1
      have hsub_par : ∀ s ∈ st.fs.subdirsIn d, s.dropLast = d :=
        fun s hs => FS.subdirsIn_parent _ _ _ hs
      have h_vd : (visited ++ [d]).Nodup := by
        rw [List.nodup_append]
        refine ⟨hvis_nodup, by simp, ?_⟩
        intro a ha hc
        rw [List.mem_singleton] at hc
        subst hc
        exact hdnv ha
      cases herr : (processFiles env inRoot mode st (st.fs.filesIn d)).2.2 with
      | some e =>
        simp only [walkGo, herr]
        rw [visitedDirs_cons_enter, processFiles_visitedDirs,
          resultPaths_cons_enter]
        refine ⟨h_vd, ?_, ?_⟩
        · intro p hp
          have hpf : p ∈ st.fs.filesIn d :=
            (processFiles_resultPaths_sublist env inRoot mode _ st).mem hp
          rw [FS.filesIn_parent st.fs d p hpf]
          exact List.mem_singleton.mpr rfl
        · exact List.Nodup.sublist
            (processFiles_resultPaths_sublist env inRoot mode _ st) hfls_nodup
      | none =>
        have h_sr : (st.fs.subdirsIn d ++ rest).Nodup := by
          rw [List.nodup_append]
          refine ⟨hsubs_nodup, hrest_nodup, ?_⟩
          intro s hs hc
          rcases hQ2 s (List.mem_append_right _ (List.mem_cons_of_mem d hc))
            with hs2 | hs2
          · have : s.length = d.length + 1 := hsub_len s hs
            rw [hs2] at this
            omega
          · rw [hsub_par s hs] at hs2
            exact hdnv hs2
        have h_big : ((visited ++ [d]) ++ (st.fs.subdirsIn d ++ rest)).Nodup := by
          rw [List.nodup_append]
          refine ⟨h_vd, h_sr, ?_⟩
          intro a ha hc
          rcases List.mem_append.mp ha with ha | ha
          · rcases List.mem_append.mp hc with hc | hc
            · rcases hQ2 a (List.mem_append_left _ ha) with ha2 | ha2
              · have : a.length = d.length + 1 := hsub_len a hc
                rw [ha2] at this
                omega
              · rw [hsub_par a hc] at ha2
                exact hdnv ha2
            · exact hdisj ha (List.mem_cons_of_mem d hc)
          · rw [List.mem_singleton] at ha
            subst ha
            rcases List.mem_append.mp hc with hc | hc
            · have : a.length = a.length + 1 := by
                have := hsub_len a hc
                omega
              omega
            · exact hdnr hc
        have hq2b : ∀ q ∈ (visited ++ [d]) ++ (st.fs.subdirsIn d ++ rest),
            q = inRoot ∨ q.dropLast ∈ visited ++ [d] := by
          intro q hq
          rcases List.mem_append.mp hq with hq | hq
          · rcases List.mem_append.mp hq with hq | hq
            · rcases hQ2 q (List.mem_append_left _ hq) with h | h
              · exact Or.inl h
              · exact Or.inr (List.mem_append_left _ h)
            · rw [List.mem_singleton] at hq
              subst hq
              rcases hQ2 q (List.mem_append_right _ (List.mem_cons_self q rest))
                with h | h
              · exact Or.inl h
              · exact Or.inr (List.mem_append_left _ h)
          · rcases List.mem_append.mp hq with hq | hq
            · refine Or.inr ?_
              rw [hsub_par q hq]
              exact List.mem_append_right _ (List.mem_singleton.mpr rfl)
            · rcases hQ2 q (List.mem_append_right _ (List.mem_cons_of_mem d hq))
                with h | h
              · exact Or.inl h
              · exact Or.inr (List.mem_append_left _ h)
        have hq3b : ∀ q ∈ (visited ++ [d]) ++ (st.fs.subdirsIn d ++ rest),
            inRoot <+: q := by
          intro q hq
          rcases List.mem_append.mp hq with hq | hq
          · rcases List.mem_append.mp hq with hq | hq
            · exact hQ3 q (List.mem_append_left _ hq)
            · rw [List.mem_singleton] at hq
              subst hq
              exact hind
          · rcases List.mem_append.mp hq with hq | hq
            · exact hind.trans ((FS.mem_subdirsIn _ _ _).mp hq).2.2
            · exact hQ3 q (List.mem_append_right _ (List.mem_cons_of_mem d hq))
        have hIH := ih (processFiles env inRoot mode st (st.fs.filesIn d)).1
          (st.fs.subdirsIn d ++ rest) (visited ++ [d]) h_big hq2b hq3b
          (processFiles_nodupDirs env inRoot mode _ st hND)
          (processFiles_nodupKeys env inRoot mode _ st hNK)
        simp only [walkGo, herr]
        rw [visitedDirs_cons_enter, visitedDirs_append, processFiles_visitedDirs,
          resultPaths_cons_enter, resultPaths_append]
        rw [List.nil_append]
        obtain ⟨hIH1, hIH2, hIH3⟩ := hIH
        have hdnvd : d ∉ visitedDirs (walkGo env inRoot mode fuel
            (processFiles env inRoot mode st (st.fs.filesIn d)).1
            (st.fs.subdirsIn d ++ rest)).2.1 := by
          intro hc
          have := (List.nodup_append.mp hIH1).2.2
          exact this (List.mem_append_right _ (List.mem_singleton.mpr rfl)) hc
        refine ⟨?_, ?_, ?_⟩
        · rw [show visited ++ d :: visitedDirs (walkGo env inRoot mode fuel
              (processFiles env inRoot mode st (st.fs.filesIn d)).1
              (st.fs.subdirsIn d ++ rest)).2.1 =
              (visited ++ [d]) ++ visitedDirs (walkGo env inRoot mode fuel
              (processFiles env inRoot mode st (st.fs.filesIn d)).1
              (st.fs.subdirsIn d ++ rest)).2.1 by
            rw [List.append_assoc, List.singleton_append]]
          exact hIH1
        · intro p hp
          rcases List.mem_append.mp hp with hp | hp
          · have hpf : p ∈ st.fs.filesIn d :=
              (processFiles_resultPaths_sublist env inRoot mode _ st).mem hp
            rw [FS.filesIn_parent st.fs d p hpf]
            exact List.mem_cons_self _ _
          · exact List.mem_cons_of_mem d (hIH2 p hp)
        · rw [List.nodup_append]
          refine ⟨List.Nodup.sublist
            (processFiles_resultPaths_sublist env inRoot mode _ st) hfls_nodup,
            hIH3, ?_⟩
          intro p hp hc
          have hpf : p ∈ st.fs.filesIn d :=
            (processFiles_resultPaths_sublist env inRoot mode _ st).mem hp
          have hpar : p.dropLast = d := FS.filesIn_parent st.fs d p hpf
          have := hIH2 p hc
          rw [hpar] at this
          exact hdnvd this

/-! ### The ladder loop skips exactly the leading sentinel rungs -/

theorem spawnedQualities_cons_spawn (q : String) (o i : FPath) (l : List Ev) :
    spawnedQualities (Ev.spawnPngquant q o i :: l) =
      q :: spawnedQualities l := by
  simp [spawnedQualities]

theorem spawnedQualities_cons_qf (q : String) (l : List Ev) :
    spawnedQualities (Ev.logQualityFailed q :: l) = spawnedQualities l := by
  simp [spawnedQualities]

theorem pngLoop_skip (env : Env) (input tempOut : FPath) :
    ∀ (i : Nat) (qs : List String) (st : St) (le : Option PyErr),
    i ≤ qs.length →
    (∀ j, j < i → ∃ so se w,
      env.pngquant (st.pngSpawns + j) = .failed 99 so se w) →
    ∃ (st' : St) (le' : Option PyErr),
      st'.pngSpawns = st.pngSpawns + i ∧
      (pngLoop env input tempOut st le qs).2.2 =
        (pngLoop env input tempOut st' le' (qs.drop i)).2.2 ∧
      spawnedQualities (pngLoop env input tempOut st le qs).2.1 =
        qs.take i ++
          spawnedQualities (pngLoop env input tempOut st' le' (qs.drop i)).2.1 ∧
      (pngLoop env input tempOut st le qs).1 =
        (pngLoop env input tempOut st' le' (qs.drop i)).1 := by
  intro i
  induction i with
  | zero =>
    intro qs st le hi h99
    exact ⟨st, le, by omega, by simp, by simp, by simp⟩
  | succ i ih =>
    intro qs st le hi h99
    cases qs with
    | nil => simp at hi
    | cons q qs =>
      obtain ⟨so, se, w, hw⟩ := h99 0 (Nat.succ_pos i)
      rw [Nat.add_zero] at hw
      have hstep : ∃ stM : St, stM.pngSpawns = st.pngSpawns + 1 ∧
          (pngLoop env input tempOut st le (q :: qs)).2.2 =
            (pngLoop env input tempOut stM
              (some (.calledProcessError 99 so se)) qs).2.2 ∧
          spawnedQualities (pngLoop env input tempOut st le (q :: qs)).2.1 =
            q :: spawnedQualities (pngLoop env input tempOut stM
              (some (.calledProcessError 99 so se)) qs).2.1 ∧
          (pngLoop env input tempOut st le (q :: qs)).1 =
            (pngLoop env input tempOut stM
              (some (.calledProcessError 99 so se)) qs).1 := by
        cases w with
        | none =>
          refine ⟨{ st with pngSpawns := st.pngSpawns + 1 }, rfl, ?_, ?_, ?_⟩
          · simp [pngLoop, hw]
          · simp [pngLoop, hw, spawnedQualities_cons_spawn,
              spawnedQualities_cons_qf]
          · simp [pngLoop, hw]
        | some b =>
          refine ⟨{ st with fs := st.fs.writeFile tempOut b, pngSpawns := st.pngSpawns + 1 }, rfl, ?_, ?_, ?_⟩
          · simp [pngLoop, hw]
          · simp [pngLoop, hw, spawnedQualities_cons_spawn,
              spawnedQualities_cons_qf]
          · simp [pngLoop, hw]
      obtain ⟨stM, hspM, hres1, hev1, hst1⟩ := hstep
      obtain ⟨st', le', hsp, hres, hev, hst⟩ := ih qs stM
        (some (.calledProcessError 99 so se))
        (by simpa using hi)
        (by
          intro j hj
          have h2 := h99 (j + 1) (by omega)
          have h3 : st.pngSpawns + (j + 1) = stM.pngSpawns + j := by omega
          rw [h3] at h2
          exact h2)
      refine ⟨st', le', by omega, ?_, ?_, ?_⟩
      · rw [List.drop_succ_cons, hres1, hres]
      · rw [List.take_succ_cons, List.drop_succ_cons, hev1, hev, List.cons_append]
      · rw [List.drop_succ_cons, hst1, hst]

theorem pngLoop_head_completed (env : Env) (input tempOut : FPath) (st : St)
    (le : Option PyErr) (q : String) (qs : List String) (so : String)
    (w : Option Bytes) (hw : env.pngquant st.pngSpawns = .completed so w) :
    (pngLoop env input tempOut st le (q :: qs)).2.2 = .broke q ∧
    spawnedQualities (pngLoop env input tempOut st le (q :: qs)).2.1 = [q] := by
  cases w <;> exact ⟨by simp [pngLoop, hw], by simp [pngLoop, hw, spawnedQualities]⟩

theorem pngLoop_head_failed (env : Env) (input tempOut : FPath) (st : St)
    (le : Option PyErr) (q : String) (qs : List String) (code : Int)
    (so se : String) (w : Option Bytes)
    (hw : env.pngquant st.pngSpawns = .failed code so se w) (hc : code ≠ 99) :
    (pngLoop env input tempOut st le (q :: qs)).2.2 =
      .raisedOut (.calledProcessError code so se) ∧
    spawnedQualities (pngLoop env input tempOut st le (q :: qs)).2.1 = [q] := by
  cases w <;> exact ⟨by simp [pngLoop, hw, hc],
    by simp [pngLoop, hw, hc, spawnedQualities]⟩

theorem pngBody_of_raisedOut (env : Env) (st : St)
    (input output tempOut : FPath) (qs : List String) (e : PyErr)
    (h : (pngLoop env input tempOut st none qs).2.2 = .raisedOut e) :
    (pngBody env st input output tempOut qs).1 = .error e := by
  rcases hLr : pngLoop env input tempOut st none qs with ⟨stL, ev, r⟩
  rw [hLr] at h
  simp only at h
  subst h
  simp [pngBody, hLr]

/-! ### Claim theorems -/

/-- C3: `compress_png` tries the quality ladder strictly in order, with at
most one `pngquant` spawn per rung.  If the first `i` rungs exit with the
sentinel 99, then: a rung exiting 0 ends the loop with
`successful_quality` set to that rung and exactly the first `i+1` rungs
spawned; a rung exiting with any other nonzero code ends the loop at once
by re-raising its `CalledProcessError` (again with exactly `i+1` spawns),
and `compress_png` turns such an error into a `False` return logged with
the decoded message and the tool's stderr/stdout text. -/
theorem c3_quality_ladder_policy (env : Env) (input tempOut : FPath) (st : St)
    (qs : List String) (i : Nat) (hi : i < qs.length)
    (h99 : ∀ j, j < i → ∃ so se w,
      env.pngquant (st.pngSpawns + j) = .failed 99 so se w) :
    (∀ so w, env.pngquant (st.pngSpawns + i) = .completed so w →
      (pngLoop env input tempOut st none qs).2.2 = .broke (qs.get ⟨i, hi⟩) ∧
      spawnedQualities (pngLoop env input tempOut st none qs).2.1 =
        qs.take (i + 1)) ∧
    (∀ code so se w, code ≠ 99 →
      env.pngquant (st.pngSpawns + i) = .failed code so se w →
      (pngLoop env input tempOut st none qs).2.2 =
        .raisedOut (.calledProcessError code so se) ∧
      spawnedQualities (pngLoop env input tempOut st none qs).2.1 =
        qs.take (i + 1)) ∧
    (∀ (st0 : St) (output0 : FPath) (code : Int) (so se : String),
      st0.fs.pathExists input = true → isPng input = true →
      env.readable input = true →
      (pngBody env (pngStage env st0) input output0
        (pngTempOut env st0 output0) qs).1 =
        Except.error (.calledProcessError code so se) →
      (compress_png env st0 input output0 qs).1 = Except.ok false ∧
      Ev.logPngError input (pngquantErrMsg code) se so ∈
        (compress_png env st0 input output0 qs).2.2) := by
  obtain ⟨st', le', hsp, hres, hev, hstq⟩ :=
    pngLoop_skip env input tempOut i qs st none hi.le h99
  have hdrop : qs.drop i = qs.get ⟨i, hi⟩ :: qs.drop (i + 1) :=
    List.drop_eq_get_cons hi
  refine ⟨?_, ?_, ?_⟩
  · intro so w hw
    have hw2 : env.pngquant st'.pngSpawns = .completed so w := by
      rw [hsp]
      exact hw
    have hh := pngLoop_head_completed env input tempOut st' le'
      (qs.get ⟨i, hi⟩) (qs.drop (i + 1)) so w hw2
    constructor
    · rw [hres, hdrop]
      exact hh.1
    · rw [hev, hdrop, hh.2, List.take_succ, List.getElem?_eq_getElem hi]
      rfl
  · intro code so se w hc hw
    have hw2 : env.pngquant st'.pngSpawns = .failed code so se w := by
      rw [hsp]
      exact hw
    have hh := pngLoop_head_failed env input tempOut st' le'
      (qs.get ⟨i, hi⟩) (qs.drop (i + 1)) code so se w hw2 hc
    constructor
    · rw [hres, hdrop]
      exact hh.1
    · rw [hev, hdrop, hh.2, List.take_succ, List.getElem?_eq_getElem hi]
      rfl
  · intro st0 output0 code so se c1 c2 c3 hbody
    rw [compress_png_eq env st0 input output0 qs c1 c2 c3]
    dsimp only
    rw [hbody]
    refine ⟨rfl, ?_⟩
    show Ev.logPngError input (pngquantErrMsg code) se so ∈
      (pngBody env (pngStage env st0) input output0
        (pngTempOut env st0 output0) qs).2.2 ++
        [Ev.logPngError input (pngquantErrMsg code) se so]
    exact List.mem_append_right _ (List.mem_singleton.mpr rfl)

/-- Witness for C3: with a ladder of two rungs where the first spawn
exits 99 and the second exits 0, the loop breaks with the second rung
recorded and both rungs spawned in order. -/
theorem c3_witness :
    (pngLoop envLadder ["r", "x.png"] ["t", "x.png"] stOne none
      ["a", "b"]).2.2 = .broke "b" ∧
    spawnedQualities (pngLoop envLadder ["r", "x.png"] ["t", "x.png"] stOne
      none ["a", "b"]).2.1 = ["a", "b"] := by
  have h := (c3_quality_ladder_policy envLadder ["r", "x.png"] ["t", "x.png"]
    stOne ["a", "b"] 1 (by decide) (by
      intro j hj
      have hj0 : j = 0 := by omega
      subst hj0
      exact ⟨"s0", "e0", none, rfl⟩)).1 "ok" (some [7]) rfl
  exact h

/-- C7: `compress_png` checks, before any spawn, that the source exists,
is named `.png` (case-insensitively), and is readable; each violated
precondition returns `False` with its own single log line and leaves the
state untouched (in particular no tool is spawned: the event list of the
call is exactly that one log line). -/
theorem c7_png_preconditions (env : Env) (st : St) (input output : FPath)
    (qs : List String) :
    (st.fs.pathExists input = false →
      compress_png env st input output qs =
        (Except.ok false, st, [Ev.logInputMissing input])) ∧
    (st.fs.pathExists input = true → isPng input = false →
      compress_png env st input output qs =
        (Except.ok false, st, [Ev.logNotPng input])) ∧
    (st.fs.pathExists input = true → isPng input = true →
      env.readable input = false →
      compress_png env st input output qs =
        (Except.ok false, st, [Ev.logNotReadable input])) :=
  ⟨compress_png_inputMissing env st input output qs,
   compress_png_notPng env st input output qs,
   compress_png_notReadable env st input output qs⟩

/-- Witness for C7: a missing source, a non-PNG name, and an unreadable
file each produce their distinct failure with no spawn. -/
theorem c7_witness :
    compress_png envPngOk stOne ["z", "q.png"] ["o", "q.png"]
      defaultQualities =
      (Except.ok false, stOne, [Ev.logInputMissing ["z", "q.png"]]) ∧
    compress_png envPngOk stOne ["r"] ["o", "r.png"] defaultQualities =
      (Except.ok false, stOne, [Ev.logNotPng ["r"]]) ∧
    compress_png ({ envPngOk with readable := fun _ => false }) stOne
      ["r", "x.png"] ["o", "x.png"] defaultQualities =
      (Except.ok false, stOne, [Ev.logNotReadable ["r", "x.png"]]) :=
  ⟨(c7_png_preconditions envPngOk stOne ["z", "q.png"] ["o", "q.png"]
      defaultQualities).1 (by decide),
   (c7_png_preconditions envPngOk stOne ["r"] ["o", "r.png"]
      defaultQualities).2.1 (by decide) (by decide),
   (c7_png_preconditions ({ envPngOk with readable := fun _ => false }) stOne
      ["r", "x.png"] ["o", "x.png"] defaultQualities).2.2 (by decide)
      (by decide) rfl⟩

/-- C8: whatever the tool outcomes, after `compress_png` returns, nothing
exists under the staging directory it allocated (the `finally` block's
`rmtree` runs on every exit path); the freshness hypothesis states that
`mkdtemp` handed out a previously empty area. -/
theorem c8_staging_dir_removed (env : Env) (st : St) (input output : FPath)
    (qs : List String)
    (hfresh : ∀ p, env.mkdtemp st.tmps <+: p →
      st.fs.lookup p = none ∧ p ∉ st.fs.dirs) :
    ∀ p, env.mkdtemp st.tmps <+: p →
      (compress_png env st input output qs).2.1.fs.lookup p = none ∧
      p ∉ (compress_png env st input output qs).2.1.fs.dirs :=
  compress_png_cleans env st input output qs hfresh

/-- Witness for C8: after a run whose every rung fails fatally, the
staging directory itself is gone. -/
theorem c8_witness :
    (compress_png envPngFatal stOne ["r", "x.png"] ["o", "x.png"]
      defaultQualities).2.1.fs.lookup (mkdtempFix 0) = none ∧
    mkdtempFix 0 ∉ (compress_png envPngFatal stOne ["r", "x.png"]
      ["o", "x.png"] defaultQualities).2.1.fs.dirs := by
  have hfresh : ∀ p, envPngFatal.mkdtemp stOne.tmps <+: p →
      stOne.fs.lookup p = none ∧ p ∉ stOne.fs.dirs := by
    apply fresh_area stOne.fs "tmp" (mkdtempFix 0) rfl
    · intro kv hkv
      simp [fsOne, stOne] at hkv
      rw [hkv]
      decide
    · intro q hq
      simp [fsOne, stOne] at hq
      rw [hq]
      decide
  exact c8_staging_dir_removed envPngFatal stOne ["r", "x.png"] ["o", "x.png"]
    defaultQualities hfresh (mkdtempFix 0) (List.prefix_refl _)

/-- C9: `compress_png` never lets an exception escape: whatever the
environment does, it returns a boolean (its two outer handlers cover
every modelled exception).  `compress_jpeg` does not share this totality:
there is an environment and input on which it propagates an exception. -/
theorem c9_png_total_jpeg_partial :
    (∀ (env : Env) (st : St) (input output : FPath) (qs : List String),
      ∃ b, (compress_png env st input output qs).1 = Except.ok b) ∧
    (∃ (env : Env) (st : St) (input output : FPath) (e : PyErr),
      (compress_jpeg env st input output).1 = Except.error e) := by
  refine ⟨compress_png_total, ?_⟩
  exact ⟨envJpegRaise, stOne, ["r", "a.jpg"], ["o", "a.jpg"],
    .osError "spawn", rfl⟩

theorem pngLoop_all99_exhausts (env : Env) (input tempOut : FPath) :
    ∀ (qs : List String) (st : St) (le : Option PyErr),
    (∀ j, j < qs.length → ∃ so se w,
      env.pngquant (st.pngSpawns + j) = .failed 99 so se w) →
    (qs = [] ∧ (pngLoop env input tempOut st le qs).2.2 = .exhausted le) ∨
    (∃ so se, (pngLoop env input tempOut st le qs).2.2 =
      .exhausted (some (.calledProcessError 99 so se))) := by
  intro qs
  induction qs with
  | nil => intro st le h99; exact Or.inl ⟨rfl, rfl⟩
  | cons q qs ih =>
    intro st le h99
    right
    obtain ⟨so, se, w, hw⟩ := h99 0 (by simp)
    rw [Nat.add_zero] at hw
    have hshift : ∀ (stM : St), stM.pngSpawns = st.pngSpawns + 1 →
        ∀ j, j < qs.length →
        ∃ so2 se2 w2, env.pngquant (stM.pngSpawns + j) = .failed 99 so2 se2 w2 := by
      intro stM hM j hj
      have h2 := h99 (j + 1) (by simp; omega)
      have h3 : st.pngSpawns + (j + 1) = stM.pngSpawns + j := by omega
      rw [h3] at h2
      exact h2
    cases w with
    | none =>
      have hstep : (pngLoop env input tempOut st le (q :: qs)).2.2 =
          (pngLoop env input tempOut { st with pngSpawns := st.pngSpawns + 1 }
            (some (.calledProcessError 99 so se)) qs).2.2 := by
        simp [pngLoop, hw]
      rw [hstep]
      rcases ih { st with pngSpawns := st.pngSpawns + 1 }
        (some (.calledProcessError 99 so se)) (hshift _ rfl) with ⟨hq, hres⟩ | h
      · exact ⟨so, se, hres⟩
      · exact h
    | some b =>
      have hstep : (pngLoop env input tempOut st le (q :: qs)).2.2 =
          (pngLoop env input tempOut { st with fs := st.fs.writeFile tempOut b, pngSpawns := st.pngSpawns + 1 }
            (some (.calledProcessError 99 so se)) qs).2.2 := by
        simp [pngLoop, hw]
      rw [hstep]
      rcases ih { st with fs := st.fs.writeFile tempOut b, pngSpawns := st.pngSpawns + 1 }
        (some (.calledProcessError 99 so se)) (hshift _ rfl) with ⟨hq, hres⟩ | h
      · exact ⟨so, se, hres⟩
      · exact h

theorem pngLoop_no_used (env : Env) (input tempOut : FPath) :
    ∀ (qs : List String) (st : St) (le : Option PyErr) (q0 : String),
    Ev.logUsedQuality q0 ∉ (pngLoop env input tempOut st le qs).2.1 := by
  intro qs
  induction qs with
  | nil => intro st le q0; simp [pngLoop]
  | cons q qs ih =>
    intro st le q0
    cases henv : env.pngquant st.pngSpawns with
    | completed so w => cases w <;> simp [pngLoop, henv]
    | failed code so se w =>
      by_cases hc : code = 99
      · cases w <;> simp [pngLoop, henv, hc] <;> exact ih _ _ q0
      · cases w <;> simp [pngLoop, henv, hc]
    | raised e => simp [pngLoop, henv]

theorem pngLoop_head_completed_state (env : Env) (input tempOut : FPath)
    (st : St) (le : Option PyErr) (q : String) (qs : List String)
    (so : String) (b : Bytes)
    (hw : env.pngquant st.pngSpawns = .completed so (some b)) :
    (pngLoop env input tempOut st le (q :: qs)).1.fs.lookup tempOut = some b := by
  simp [pngLoop, hw, FS.lookup_writeFile]

theorem pngFinish_success (st : St) (input output tempOut : FPath)
    (sq : Option String) (tb ib : Bytes)
    (hto : st.fs.lookup tempOut = some tb)
    (hti : input ≠ tempOut) (hio : input ≠ output)
    (hin : st.fs.lookup input = some ib) (hlen : ib.length ≠ 0) :
    (pngFinish st input output tempOut sq).1 = Except.ok true ∧
    (pngFinish st input output tempOut sq).2.1.fs.lookup output = some tb ∧
    (pngFinish st input output tempOut sq).2.2 =
      [Ev.logPngSuccess input] ++ (match sq with
        | some q => [Ev.logUsedQuality q]
        | none => []) ∧
    (∀ q2, q2 ≠ [] → q2 <+: dirname output →
      q2 ∈ (pngFinish st input output tempOut sq).2.1.fs.dirs) := by
  have hex : st.fs.pathExists tempOut = true := by
    simp [FS.pathExists, hto]
  have hfs1lookup : ∀ p, ((if (dirname output).isEmpty then st.fs
      else st.fs.makedirs (dirname output)) : FS).lookup p = st.fs.lookup p := by
    intro p
    by_cases hd : (dirname output).isEmpty
    · rw [if_pos hd]
    · rw [if_neg hd, FS.lookup_makedirs]
  have hout : ((if (dirname output).isEmpty then st.fs
      else st.fs.makedirs (dirname output)).move tempOut output).lookup output =
      some tb := by
    apply FS.lookup_move_dst
    rw [hfs1lookup]
    exact hto
  have hinp : ((if (dirname output).isEmpty then st.fs
      else st.fs.makedirs (dirname output)).move tempOut output).lookup input =
      some ib := by
    rw [FS.lookup_move_other _ _ _ _ hti hio, hfs1lookup]
    exact hin
  unfold pngFinish
  rw [hex]
  simp only [Bool.not_true, Bool.false_eq_true, if_false]
  rw [hinp, hout]
  simp only [hlen, if_neg hlen]
  refine ⟨rfl, hout, rfl, ?_⟩
  intro q2 hq2 hpre
  show q2 ∈ ((if (dirname output).isEmpty then st.fs
    else st.fs.makedirs (dirname output)).move tempOut output).dirs
  rw [FS.dirs_move]
  have hd : (dirname output).isEmpty = false := by
    cases hdo : dirname output with
    | nil =>
      rw [hdo] at hpre
      exact absurd (List.prefix_nil.mp hpre) hq2
    | cons a t => rfl
  rw [if_neg (by simp [hd])]
  exact (FS.mem_dirs_makedirs _ _ _).mpr (Or.inr ⟨hq2, hpre⟩)

/-- C2 (amended): for every non-empty PNG input, if every ladder rung
exits with the sentinel 99, `compress_png` copies the original bytes to
the staging file, moves them to the output path (byte-identical result),
and reports success with no quality logged (`successful_quality` stays
`None`); the pass-through log line is emitted.  (The original claim fails
for zero-byte inputs, where the ratio computation divides by zero.) -/
theorem c2_amended (env : Env) (st : St) (input output : FPath)
    (qs : List String) (bs : Bytes)
    (hbs : st.fs.lookup input = some bs) (hbne : bs ≠ [])
    (hpng : isPng input = true) (hread : env.readable input = true)
    (hqne : qs ≠ [])
    (h99 : ∀ j, j < qs.length → ∃ so se w,
      env.pngquant (st.pngSpawns + j) = .failed 99 so se w)
    (htin : ¬ env.mkdtemp st.tmps <+: input)
    (htout : ¬ env.mkdtemp st.tmps <+: output)
    (hio : input ≠ output) :
    (compress_png env st input output qs).1 = Except.ok true ∧
    (compress_png env st input output qs).2.1.fs.lookup output = some bs ∧
    Ev.logPassThrough ∈ (compress_png env st input output qs).2.2 ∧
    (∀ q, Ev.logUsedQuality q ∉ (compress_png env st input output qs).2.2) := by
  have c1 : st.fs.pathExists input = true := by
    simp [FS.pathExists, hbs]
  have hnu := pngLoop_no_used env input (pngTempOut env st output) qs
    (pngStage env st) none
  rcases pngLoop_all99_exhausts env input (pngTempOut env st output) qs
    (pngStage env st) none h99 with ⟨hq, -⟩ | ⟨so, se, hres⟩
  · exact absurd hq hqne
  have hti : input ≠ pngTempOut env st output := by
    intro hc
    exact htin (hc ▸ List.prefix_append _ _)
  have hfr := pngLoop_fs_lookup_frame env input (pngTempOut env st output) qs
    (pngStage env st) none input hti
  rcases hLr : pngLoop env input (pngTempOut env st output) (pngStage env st)
    none qs with ⟨stL, ev, r⟩
  rw [hLr] at hres hfr hnu
  simp only at hres
  subst hres
  have hinL : stL.fs.lookup input = some bs := by
    rw [hfr]
    show ((pngStage env st).fs).lookup input = some bs
    rw [show (pngStage env st).fs = st.fs.addDir (env.mkdtemp st.tmps) from rfl,
      FS.lookup_addDir]
    exact hbs
  have hto : ({ stL with fs := stL.fs.copyFile input (pngTempOut env st output) } : St).fs.lookup (pngTempOut env st output) = some bs :=
    FS.lookup_copyFile_dst _ _ _ bs hinL
  have hinC : ({ stL with fs := stL.fs.copyFile input (pngTempOut env st output) } : St).fs.lookup input = some bs := by
    show (stL.fs.copyFile input (pngTempOut env st output)).lookup input = some bs
    rw [FS.lookup_copyFile_other _ _ _ _ hti]
    exact hinL
  have hlen : bs.length ≠ 0 := by
    intro hc
    exact hbne (List.eq_nil_of_length_eq_zero hc)
  obtain ⟨hF1, hFout, hFev, hFdirs⟩ := pngFinish_success
    ({ stL with fs := stL.fs.copyFile input (pngTempOut env st output) } : St)
    input output (pngTempOut env st output) none bs bs hto hti hio hinC hlen
  have hBeq : pngBody env (pngStage env st) input output
      (pngTempOut env st output) qs =
      ((pngFinish ({ stL with fs := stL.fs.copyFile input (pngTempOut env st output) } : St) input output (pngTempOut env st output) none).1,
       (pngFinish ({ stL with fs := stL.fs.copyFile input (pngTempOut env st output) } : St) input output (pngTempOut env st output) none).2.1,
       ev ++ [Ev.logPassThrough] ++
         (pngFinish ({ stL with fs := stL.fs.copyFile input (pngTempOut env st output) } : St) input output (pngTempOut env st output) none).2.2) := by
    simp [pngBody, hLr]
  rw [compress_png_eq env st input output qs c1 hpng hread]
  dsimp only
  rw [hBeq]
  dsimp only
  rw [hF1]
  refine ⟨rfl, ?_, ?_, ?_⟩
  · show ((pngFinish ({ stL with fs := stL.fs.copyFile input (pngTempOut env st output) } : St) input output (pngTempOut env st output) none).2.1.fs.rmtree (env.mkdtemp st.tmps)).lookup output = some bs
    rw [FS.lookup_rmtree, if_neg htout]
    exact hFout
  · exact List.mem_append_left _ (List.mem_append_right _ (by simp))
  · intro q hq
    rcases List.mem_append.mp hq with hq | hq
    · rcases List.mem_append.mp hq with hq | hq
      · exact hnu q hq
      · simp at hq
    · rw [hFev] at hq
      simp at hq

/-- Counterexample to C2 as stated: on a zero-byte PNG whose every rung
exits 99, the pass-through copy is placed byte-identically at the output
path, yet `compress_png` returns `False` (the compression-ratio
expression raises `ZeroDivisionError`), so success is not reported. -/
theorem c2_counterexample :
    (compress_png envPng99 stEmptyPng ["r", "e.png"] ["o", "e.png"]
      defaultQualities).1 = Except.ok false ∧
    (compress_png envPng99 stEmptyPng ["r", "e.png"] ["o", "e.png"]
      defaultQualities).2.1.fs.lookup ["o", "e.png"] = some [] ∧
    Ev.logPngUnknownError ["r", "e.png"] ∈
      (compress_png envPng99 stEmptyPng ["r", "e.png"] ["o", "e.png"]
        defaultQualities).2.2 := by
  refine ⟨rfl, rfl, ?_⟩
  decide

/-- Witness for C2 (amended): a three-byte input, all rungs exiting 99. -/
theorem c2_witness :
    (compress_png envPng99 stOne ["r", "x.png"] ["o", "x.png"]
      defaultQualities).1 = Except.ok true ∧
    (compress_png envPng99 stOne ["r", "x.png"] ["o", "x.png"]
      defaultQualities).2.1.fs.lookup ["o", "x.png"] = some [1, 2, 3] ∧
    Ev.logPassThrough ∈ (compress_png envPng99 stOne ["r", "x.png"]
      ["o", "x.png"] defaultQualities).2.2 ∧
    (∀ q, Ev.logUsedQuality q ∉ (compress_png envPng99 stOne ["r", "x.png"]
      ["o", "x.png"] defaultQualities).2.2) :=
  c2_amended envPng99 stOne ["r", "x.png"] ["o", "x.png"] defaultQualities
    [1, 2, 3] rfl (by decide) (by decide) rfl (by decide)
    (fun j hj => ⟨"", "", none, rfl⟩) (by decide) (by decide) (by decide)

/-- C5 (amended): the PNG path stages its result privately and moves it
into place: (i) a fatal ladder error leaves the destination untouched;
(ii) a successful rung installs the tool's complete output at the
destination, creating every missing parent directory first and
overwriting whatever was there; (iii) the JPEG path likewise creates the
parents and its successful run overwrites the destination with the
tool's complete output.  The original claim's part (b) is false for the
JPEG path in copy mode, which hands the final path directly to the tool
(see the counterexample). -/
theorem c5_amended (env : Env) (st : St) (input output : FPath)
    (qs : List String)
    (htout : ¬ env.mkdtemp st.tmps <+: output) :
    ((∀ e, (pngLoop env input (pngTempOut env st output) (pngStage env st)
        none qs).2.2 = .raisedOut e →
      (compress_png env st input output qs).2.1.fs.lookup output =
        st.fs.lookup output)) ∧
    (∀ (i : Nat) (hi : i < qs.length) (so : String) (w ib : Bytes),
      (∀ j, j < i → ∃ so2 se2 w2,
        env.pngquant (st.pngSpawns + j) = .failed 99 so2 se2 w2) →
      env.pngquant (st.pngSpawns + i) = .completed so (some w) →
      st.fs.lookup input = some ib → ib ≠ [] →
      isPng input = true → env.readable input = true →
      ¬ env.mkdtemp st.tmps <+: input → input ≠ output →
      (compress_png env st input output qs).1 = Except.ok true ∧
      (compress_png env st input output qs).2.1.fs.lookup output = some w ∧
      (∀ q2, q2 ≠ [] → q2 <+: dirname output →
        q2 ∈ (compress_png env st input output qs).2.1.fs.dirs)) ∧
    (∀ (so : String) (w : Bytes),
      (dirname output).isEmpty = false →
      env.cjpeg st.jpegSpawns = .completed so (some w) →
      (compress_jpeg env st input output).1 = Except.ok true ∧
      (compress_jpeg env st input output).2.1.fs.lookup output = some w ∧
      (∀ q2, q2 ≠ [] → q2 <+: dirname output →
        q2 ∈ (compress_jpeg env st input output).2.1.fs.dirs)) := by
  refine ⟨?_, ?_, ?_⟩
  · intro e hloop
    by_cases c1 : st.fs.pathExists input
    · by_cases c2 : isPng input
      · by_cases c3 : env.readable input
        · have htoutne : output ≠ pngTempOut env st output := by
            intro hc
            exact htout (hc ▸ List.prefix_append _ _)
          have hfr := pngLoop_fs_lookup_frame env input
            (pngTempOut env st output) qs (pngStage env st) none output htoutne
          rcases hLr : pngLoop env input (pngTempOut env st output)
            (pngStage env st) none qs with ⟨stL, ev, r⟩
          rw [hLr] at hloop hfr
          simp only at hloop
          subst hloop
          have hBeq : pngBody env (pngStage env st) input output
              (pngTempOut env st output) qs = (Except.error e, stL, ev) := by
            simp [pngBody, hLr]
          rw [compress_png_eq env st input output qs c1 c2 c3]
          dsimp only
          rw [hBeq]
          cases e <;>
            · dsimp only
              show (stL.fs.rmtree (env.mkdtemp st.tmps)).lookup output = _
              rw [FS.lookup_rmtree, if_neg htout, hfr]
              show ((pngStage env st).fs).lookup output = _
              rw [show (pngStage env st).fs =
                st.fs.addDir (env.mkdtemp st.tmps) from rfl, FS.lookup_addDir]
        · rw [compress_png_notReadable env st input output qs c1 c2
            (by simpa using c3)]
      · rw [compress_png_notPng env st input output qs c1 (by simpa using c2)]
    · rw [compress_png_inputMissing env st input output qs (by simpa using c1)]
  · intro i hi so w ib h99 hcomp hib hibne hpng hread htin hio
    have c1 : st.fs.pathExists input = true := by
      simp [FS.pathExists, hib]
    have hti : input ≠ pngTempOut env st output := by
      intro hc
      exact htin (hc ▸ List.prefix_append _ _)
    obtain ⟨st', le', hsp, hres, hev, hst⟩ := pngLoop_skip env input
      (pngTempOut env st output) i qs (pngStage env st) none hi.le h99
    have hdrop : qs.drop i = qs.get ⟨i, hi⟩ :: qs.drop (i + 1) :=
      List.drop_eq_get_cons hi
    have hw2 : env.pngquant st'.pngSpawns = .completed so (some w) := by
      rw [hsp]
      exact hcomp
    have hloopres : (pngLoop env input (pngTempOut env st output)
        (pngStage env st) none qs).2.2 = .broke (qs.get ⟨i, hi⟩) := by
      rw [hres, hdrop]
      exact (pngLoop_head_completed env input (pngTempOut env st output) st'
        le' (qs.get ⟨i, hi⟩) (qs.drop (i + 1)) so (some w) hw2).1
    have hloopto : (pngLoop env input (pngTempOut env st output)
        (pngStage env st) none qs).1.fs.lookup (pngTempOut env st output) =
        some w := by
      rw [hst, hdrop]
      exact pngLoop_head_completed_state env input (pngTempOut env st output)
        st' le' (qs.get ⟨i, hi⟩) (qs.drop (i + 1)) so w hw2
    have hfr := pngLoop_fs_lookup_frame env input (pngTempOut env st output)
      qs (pngStage env st) none input hti
    rcases hLr : pngLoop env input (pngTempOut env st output)
      (pngStage env st) none qs with ⟨stL, ev, r⟩
    rw [hLr] at hloopres hloopto hfr
    simp only at hloopres hloopto
    subst hloopres
    have hinL : stL.fs.lookup input = some ib := by
      rw [hfr]
      show ((pngStage env st).fs).lookup input = some ib
      rw [show (pngStage env st).fs =
        st.fs.addDir (env.mkdtemp st.tmps) from rfl, FS.lookup_addDir]
      exact hib
    have hlen : ib.length ≠ 0 := by
      intro hc
      exact hibne (List.eq_nil_of_length_eq_zero hc)
    obtain ⟨hF1, hFout, hFev, hFdirs⟩ := pngFinish_success stL input output
      (pngTempOut env st output) (some (qs.get ⟨i, hi⟩)) w ib hloopto hti hio
      hinL hlen
    have hBeq : pngBody env (pngStage env st) input output
        (pngTempOut env st output) qs =
        ((pngFinish stL input output (pngTempOut env st output)
            (some (qs.get ⟨i, hi⟩))).1,
         (pngFinish stL input output (pngTempOut env st output)
            (some (qs.get ⟨i, hi⟩))).2.1,
         ev ++ (pngFinish stL input output (pngTempOut env st output)
            (some (qs.get ⟨i, hi⟩))).2.2) := by
      simp [pngBody, hLr]
    rw [compress_png_eq env st input output qs c1 hpng hread]
    dsimp only
    rw [hBeq]
    dsimp only
    rw [hF1]
    refine ⟨rfl, ?_, ?_⟩
    · show ((pngFinish stL input output (pngTempOut env st output)
          (some (qs.get ⟨i, hi⟩))).2.1.fs.rmtree
          (env.mkdtemp st.tmps)).lookup output = some w
      rw [FS.lookup_rmtree, if_neg htout]
      exact hFout
    · intro q2 hq2 hpre
      show q2 ∈ ((pngFinish stL input output (pngTempOut env st output)
          (some (qs.get ⟨i, hi⟩))).2.1.fs.rmtree (env.mkdtemp st.tmps)).dirs
      refine (FS.mem_dirs_rmtree _ _ _).mpr ⟨hFdirs q2 hq2 hpre, ?_⟩
      intro hc
      exact htout (hc.trans (prefix_of_prefix_dropLast _ _ hpre))
  · intro so w hemp hcj
    refine ⟨?_, ?_, ?_⟩
    · simp [compress_jpeg, hemp, hcj]
    · show ((compress_jpeg env st input output).2.1.fs).lookup output = some w
      simp [compress_jpeg, hemp, hcj, FS.lookup_writeFile]
    · intro q2 hq2 hpre
      simp only [compress_jpeg, hemp, Bool.false_eq_true, if_false, hcj]
      show q2 ∈ ((st.fs.makedirs (dirname output)).writeFile output w).dirs
      rw [FS.dirs_writeFile]
      exact (FS.mem_dirs_makedirs _ _ _).mpr (Or.inr ⟨hq2, hpre⟩)

/-- Counterexample to C5 as stated: a failed JPEG compression in copy
mode leaves the tool's partial bytes at the final destination — nothing
was staged and moved, the destination was handed straight to the tool. -/
theorem c5_counterexample :
    (compress_jpeg envJpegPartial stJpgPng ["r", "a.jpg"] ["o", "a.jpg"]).1 =
      Except.ok false ∧
    stJpgPng.fs.lookup ["o", "a.jpg"] = none ∧
    (compress_jpeg envJpegPartial stJpgPng ["r", "a.jpg"]
      ["o", "a.jpg"]).2.1.fs.lookup ["o", "a.jpg"] = some [9] := by
  refine ⟨rfl, rfl, rfl⟩

/-- Witness for C5 (amended): a successful first rung installs the
tool's complete output over an existing destination file, with the
parent directory present. -/
theorem c5_witness :
    (compress_png envPngOk stOver ["r", "x.png"] ["o", "x.png"]
      defaultQualities).1 = Except.ok true ∧
    (compress_png envPngOk stOver ["r", "x.png"] ["o", "x.png"]
      defaultQualities).2.1.fs.lookup ["o", "x.png"] = some [7] ∧
    (∀ q2, q2 ≠ [] → q2 <+: dirname ["o", "x.png"] →
      q2 ∈ (compress_png envPngOk stOver ["r", "x.png"] ["o", "x.png"]
        defaultQualities).2.1.fs.dirs) :=
  (c5_amended envPngOk stOver ["r", "x.png"] ["o", "x.png"] defaultQualities
      (by decide)).2.1 0 (by decide) "" [7] [1, 2, 3]
    (fun j hj => absurd hj (by omega)) rfl rfl (by decide) (by decide) rfl
    (by decide) (by decide)

/-- C6: the walker classifies each discovered file by case-insensitive
extension — a `.png` name is handed to `compress_png`, a `.jpg`/`.jpeg`
name to `compress_jpeg`, and any other file is skipped with no error —
and in copy mode the destination handed to the compressor is the output
root joined with the file's path relative to the input root. -/
theorem c6_dispatch (env : Env) (inRoot outRoot : FPath) (st : St) (f : FPath) :
    (∀ b st1 ev, pngName (basename f) = true →
      compress_png env st f (outRoot ++ f.drop inRoot.length)
          defaultQualities = (Except.ok b, st1, ev) →
      processFile env inRoot (Mode.copy outRoot) st f =
        (st1, ev ++ [Ev.pngResult f b], none)) ∧
    (∀ b st1 ev, pngName (basename f) = false → jpgName (basename f) = true →
      compress_jpeg env st f (outRoot ++ f.drop inRoot.length) =
        (Except.ok b, st1, ev) →
      processFile env inRoot (Mode.copy outRoot) st f =
        (st1, ev ++ [Ev.jpegResult f b], none)) ∧
    (pngName (basename f) = false → jpgName (basename f) = false →
      processFile env inRoot (Mode.copy outRoot) st f = (st, [], none)) ∧
    pngName "A.PNG" = true ∧ jpgName "photo.JPeG" = true ∧
    jpgName "B.JPG" = true ∧ pngName "b.png" = true ∧
    pngName "notes.txt" = false ∧ jpgName "notes.txt" = false := by
  refine ⟨?_, ?_, ?_, rfl, rfl, rfl, rfl, rfl, rfl⟩
  · intro b st1 ev hp hc
    simp [processFile, hp, hc]
  · intro b st1 ev hp hj hc
    simp [processFile, hp, hj, hc]
  · intro hp hj
    simp [processFile, hp, hj]

/-- Witness for C6: a skipped text file, and a PNG-named file whose
verdict event carries the compressor's boolean. -/
theorem c6_witness :
    (processFile envPngOk ["r"] (Mode.copy ["o"]) stOne ["r", "z.txt"] =
      (stOne, [], none)) ∧
    (processFile envPngOk ["z"] (Mode.copy ["o"]) stOne ["z", "q.png"] =
      (stOne, [Ev.logInputMissing ["z", "q.png"],
        Ev.pngResult ["z", "q.png"] false], none)) :=
  ⟨(c6_dispatch envPngOk ["r"] ["o"] stOne ["r", "z.txt"]).2.2.1 rfl rfl,
   (c6_dispatch envPngOk ["z"] ["o"] stOne ["z", "q.png"]).1 false stOne
     [Ev.logInputMissing ["z", "q.png"]] rfl rfl⟩

/-- C10: in copy mode `process_directory` creates the output root with
`makedirs` before handing the walk its first directory, so an output
root lying inside the input root (as with the default
`<input>/compressed`) is itself visited: in the concrete run below the
first-generation output `r/compressed/x.png` is walked and compressed
again, leaving a second-generation copy at
`r/compressed/compressed/x.png`. -/
theorem c10_output_recursion :
    (∀ (env : Env) (st : St) (inputDir outputDir : FPath) (fuel : Nat),
      outputDir ≠ [] →
      process_directory env st inputDir outputDir false fuel =
        walkGo env inputDir (Mode.copy outputDir) fuel
          ({ st with fs := st.fs.makedirs outputDir }) [inputDir] ∧
      outputDir ∈ (st.fs.makedirs outputDir).dirs) ∧
    Ev.pngResult ["r", "compressed", "x.png"] true ∈
      (process_directory envPngOk stOne ["r"] ["r", "compressed"]
        false 6).2.1 ∧
    (process_directory envPngOk stOne ["r"] ["r", "compressed"]
        false 6).1.fs.lookup ["r", "compressed", "x.png"] = some [7] ∧
    (process_directory envPngOk stOne ["r"] ["r", "compressed"]
        false 6).1.fs.lookup ["r", "compressed", "compressed", "x.png"] =
      some [7] ∧
    stOne.fs.lookup ["r", "compressed", "x.png"] = none := by
  refine ⟨?_, by decide, rfl, rfl, rfl⟩
  intro env st inputDir outputDir fuel hne
  refine ⟨rfl, ?_⟩
  exact (FS.mem_dirs_makedirs _ _ _).mpr (Or.inr ⟨hne, List.prefix_refl _⟩)

/-- Witness for C10: the copy-mode equation and the output-root
creation at a concrete environment and state. -/
theorem c10_witness :
    process_directory envPngOk stOne ["r"] ["o"] false 3 =
      walkGo envPngOk ["r"] (Mode.copy ["o"]) 3
        ({ stOne with fs := stOne.fs.makedirs ["o"] }) [["r"]] ∧
    ["o"] ∈ (stOne.fs.makedirs ["o"]).dirs :=
  (c10_output_recursion.1 envPngOk stOne ["r"] ["o"] 3 (by decide))

/-- The `mkdtemp` fixture hands out pairwise prefix-free directories. -/
theorem mkdtempFix_prefix_free (m n : Nat) (hmn : m ≠ n) :
    ¬ mkdtempFix m <+: mkdtempFix n := by
  intro hc
  have hlen : (mkdtempFix m).length = (mkdtempFix n).length := by
    simp [mkdtempFix]
  have heq : mkdtempFix m = mkdtempFix n := hc.eq_of_length hlen
  have h2 : String.mk (List.replicate m 'a') =
      String.mk (List.replicate n 'a') := by
    simpa [mkdtempFix] using heq
  have h3 : m = n := by
    have h4 := congrArg (fun s => s.data.length) h2
    simpa using h4
  exact hmn h3

/-- C4 (amended): per-file failures that surface as analysed tool
results are absorbed and the walk continues: whenever no `cjpeg` spawn
raises AND every exit-0 `cjpeg` actually wrote its output file, a whole
run propagates no exception in either mode (given temp areas disjoint
from the destination tree).  The counterexample shows both remaining
escape hatches: a raising spawn, and a silent no-op spawn whose
"success" makes the replace-mode move raise `FileNotFoundError`; either
aborts the traversal, leaving later files unprocessed. -/
theorem c4_amended (env : Env) (st : St) (inputDir outputDir : FPath)
    (fuel : Nat)
    (hcj : ∀ n e, env.cjpeg n ≠ RunRet.raised e)
    (hcw : ∀ n so, env.cjpeg n ≠ RunRet.completed so none)
    (hmm : ∀ m n, m ≠ n → ¬ env.mkdtemp m <+: env.mkdtemp n) :
    (outputDir ≠ [] →
      (∀ m, ¬ env.mkdtemp m <+: outputDir ∧ ¬ outputDir <+: env.mkdtemp m) →
      (process_directory env st inputDir outputDir false fuel).2.2 = none) ∧
    (env.mkdtemp st.tmps ≠ [] →
      (process_directory env st inputDir outputDir true fuel).2.2 = none) := by
  constructor
  · intro hout hsep
    exact walkGo_err_none env inputDir (Mode.copy outputDir) 0 hcj hcw hout
      (fun m _ => hsep m) fuel ({ st with fs := st.fs.makedirs outputDir })
      [inputDir] (Nat.zero_le _)
      (fun q hq => by rw [List.mem_singleton] at hq; rw [hq])
  · intro htmp
    exact walkGo_err_none env inputDir
      (Mode.replace (env.mkdtemp st.tmps)) (st.tmps + 1) hcj hcw htmp
      (fun m hm => ⟨hmm m st.tmps (by omega), hmm st.tmps m (by omega)⟩)
      fuel (pngStage env st) [inputDir] (le_refl (st.tmps + 1))
      (fun q hq => by rw [List.mem_singleton] at hq; rw [hq])

/-- Counterexample to C4 as stated: per-file failures are not always
absorbed.  A raising `cjpeg` spawn aborts a copy-mode run; a `cjpeg`
that exits 0 without writing its output file makes the replace-mode
move of line 287 raise `FileNotFoundError`.  In both runs the second
file of the tree (`b.png`) never receives a verdict. -/
theorem c4_counterexample :
    ((process_directory envJpegRaise stJpgPng ["r"] ["o"] false 3).2.2 =
        some (PyErr.osError "spawn") ∧
      (∀ b, Ev.pngResult ["r", "b.png"] b ∉
        (process_directory envJpegRaise stJpgPng ["r"] ["o"] false 3).2.1)) ∧
    ((process_directory envJpegSilent stJpgPng ["r"] ["o"] true 3).2.2 =
        some (PyErr.osError "FileNotFoundError") ∧
      (∀ b, Ev.pngResult ["r", "b.png"] b ∉
        (process_directory envJpegSilent stJpgPng ["r"] ["o"] true 3).2.1) ∧
      stJpgPng.fs.lookup ["r", "b.png"] = some [2]) := by
  refine ⟨⟨rfl, ?_⟩, rfl, ?_, rfl⟩
  · intro b
    cases b <;> decide
  · intro b
    cases b <;> decide

/-- Witness for C4 (amended): with tools that neither raise nor
silently skip their output, a run over the two-image tree finishes
exception-free in both modes. -/
theorem c4_witness :
    (process_directory envPngOk stJpgPng ["r"] ["o"] false 3).2.2 = none ∧
    (process_directory envPngOk stJpgPng ["r"] ["o"] true 3).2.2 = none :=
  ⟨(c4_amended envPngOk stJpgPng ["r"] ["o"] 3
      (fun n e h => by simp [envPngOk] at h)
      (fun n so h => by simp [envPngOk] at h)
      (fun m n hmn => mkdtempFix_prefix_free m n hmn)).1 (by decide)
      (fun m => ⟨fun hc => by
          have h2 := hc.length_le
          simp [envPngOk, mkdtempFix] at h2,
        fun hc => by
          rcases hc with ⟨t, ht⟩
          have h2 : "o" = "tmp" := by
            have h3 := congrArg (fun l => l.head?) ht
            simpa [envPngOk, mkdtempFix] using h3
          exact absurd h2 (by decide)⟩),
   (c4_amended envPngOk stJpgPng ["r"] ["o"] 3
      (fun n e h => by simp [envPngOk] at h)
      (fun n so h => by simp [envPngOk] at h)
      (fun m n hmn => mkdtempFix_prefix_free m n hmn)).2 (by decide)⟩

/-- Two members of a list that a partial projection sends to the same
value coincide whenever the projected list has no duplicate. -/
theorem nodup_filterMap_inj {α β : Type} (f : α → Option β)
    (a b : α) (c : β) (hfa : f a = some c) (hfb : f b = some c) :
    ∀ l : List α, (l.filterMap f).Nodup → a ∈ l → b ∈ l → a = b := by
  intro l
  induction l with
  | nil => intro _ ha _; cases ha
  | cons x xs ih =>
    intro hnd ha hb
    rcases List.mem_cons.mp ha with rfl | ha2
    · rcases List.mem_cons.mp hb with rfl | hb2
      · rfl
      · exfalso
        rw [List.filterMap_cons_some hfa] at hnd
        exact (List.nodup_cons.mp hnd).1
          (List.mem_filterMap.mpr ⟨b, hb2, hfb⟩)
    · rcases List.mem_cons.mp hb with rfl | hb2
      · exfalso
        rw [List.filterMap_cons_some hfb] at hnd
        exact (List.nodup_cons.mp hnd).1
          (List.mem_filterMap.mpr ⟨a, ha2, hfa⟩)
      · refine ih ?_ ha2 hb2
        cases hfx : f x with
        | none => rw [List.filterMap_cons_none hfx] at hnd; exact hnd
        | some y =>
          rw [List.filterMap_cons_some hfx] at hnd
          exact (List.nodup_cons.mp hnd).2

/-- C1: replace-mode safety.  When the process-private temporary areas
are disjoint from the input tree, any file under the input root that
receives a failure verdict — or no verdict at all — keeps its original
bytes through the whole run: the move over the original happens only
after a success verdict. -/
theorem c1_replace_mode_safety (env : Env) (st : St)
    (inputDir outputDir : FPath) (fuel : Nat) (p : FPath)
    (hin_mk : ∀ m, ¬ inputDir <+: env.mkdtemp m)
    (hmk_in : ∀ m, ¬ env.mkdtemp m <+: inputDir)
    (hND : st.fs.dirs.Nodup) (hNK : st.fs.NodupKeys)
    (hp : inputDir <+: p)
    (hfail :
      Ev.pngResult p false ∈
          (process_directory env st inputDir outputDir true fuel).2.1 ∨
        Ev.jpegResult p false ∈
          (process_directory env st inputDir outputDir true fuel).2.1 ∨
        (Ev.pngResult p true ∉
            (process_directory env st inputDir outputDir true fuel).2.1 ∧
          Ev.jpegResult p true ∉
            (process_directory env st inputDir outputDir true fuel).2.1)) :
    (process_directory env st inputDir outputDir true fuel).1.fs.lookup p =
      st.fs.lookup p := by
  have hev21 : (process_directory env st inputDir outputDir true fuel).2.1 =
      (walkGo env inputDir (Mode.replace (env.mkdtemp st.tmps)) fuel
        (pngStage env st) [inputDir]).2.1 := rfl
  rw [hev21] at hfail
  have hpend : ∀ q ∈ ([inputDir] : List FPath), inputDir <+: q := by
    intro q hq
    rw [List.mem_singleton] at hq
    rw [hq]
  have hvis := walkGo_visited env inputDir
    (Mode.replace (env.mkdtemp st.tmps)) fuel (pngStage env st) [inputDir] []
    (by simp) (by intro q hq; exact Or.inl (by simpa using hq))
    (by intro q hq; rw [List.nil_append, List.mem_singleton] at hq; rw [hq])
    (FS.nodupDirs_addDir st.fs _ hND) (FS.nodupKeys_addDir st.fs _ hNK)
  have hres : (resultPaths (walkGo env inputDir
      (Mode.replace (env.mkdtemp st.tmps)) fuel (pngStage env st)
      [inputDir]).2.1).Nodup := hvis.2.2
  unfold resultPaths at hres
  have hnot : Ev.pngResult p true ∉ (walkGo env inputDir
      (Mode.replace (env.mkdtemp st.tmps)) fuel (pngStage env st)
      [inputDir]).2.1 ∧
      Ev.jpegResult p true ∉ (walkGo env inputDir
      (Mode.replace (env.mkdtemp st.tmps)) fuel (pngStage env st)
      [inputDir]).2.1 := by
    rcases hfail with hpf | hjf | hok
    · constructor
      · intro hmem
        have := nodup_filterMap_inj _ (Ev.pngResult p false)
          (Ev.pngResult p true) p rfl rfl _ hres hpf hmem
        simp at this
      · intro hmem
        have := nodup_filterMap_inj _ (Ev.pngResult p false)
          (Ev.jpegResult p true) p rfl rfl _ hres hpf hmem
        simp at this
    · constructor
      · intro hmem
        have := nodup_filterMap_inj _ (Ev.jpegResult p false)
          (Ev.pngResult p true) p rfl rfl _ hres hjf hmem
        simp at this
      · intro hmem
        have := nodup_filterMap_inj _ (Ev.jpegResult p false)
          (Ev.jpegResult p true) p rfl rfl _ hres hjf hmem
        simp at this
    · exact hok
  have hlook := walkGo_unchanged env inputDir (env.mkdtemp st.tmps)
    hin_mk hmk_in (hin_mk st.tmps) (hmk_in st.tmps) fuel (pngStage env st)
    [inputDir] hpend p hp hnot
  have htp : ¬ env.mkdtemp st.tmps <+: p := by
    intro hc
    rcases List.prefix_or_prefix_of_prefix hp hc with h1 | h2
    · exact hin_mk st.tmps h1
    · exact hmk_in st.tmps h2
  have hgoal : (process_directory env st inputDir outputDir true fuel).1.fs =
      ((walkGo env inputDir (Mode.replace (env.mkdtemp st.tmps)) fuel
        (pngStage env st) [inputDir]).1.fs).rmtree (env.mkdtemp st.tmps) :=
    rfl
  rw [hgoal, FS.lookup_rmtree, if_neg htp, hlook]
  exact FS.lookup_addDir st.fs _ p

/-- Witness for C1: a fatally failing `pngquant` in a replace-mode run
leaves the original bytes of `r/x.png` in place. -/
theorem c1_witness :
    (process_directory envPngFatal stOne ["r"] ["o"] true 3).1.fs.lookup
      ["r", "x.png"] = stOne.fs.lookup ["r", "x.png"] :=
  c1_replace_mode_safety envPngFatal stOne ["r"] ["o"] 3 ["r", "x.png"]
    (fun m hc => by
      rcases hc with ⟨t, ht⟩
      have hh : "r" = "tmp" := by
        have := congrArg (fun l => l.head?) ht
        simpa [envPngFatal, envPngOk, mkdtempFix] using this
      exact absurd hh (by decide))
    (fun m hc => by
      have := hc.length_le
      simp [envPngFatal, envPngOk, mkdtempFix] at this)
    (by decide) (by unfold FS.NodupKeys; decide) (by decide)
    (Or.inl (by decide))
